import Mathlib

/-!
# Nebula deck builder: deck store and JSON import/export

A shallow embedding of the deck state machine of `app.js`
(`cardKey`, `perCardLimit`, `deckCount`, `addCardToDeck`, `changeDeckCount`,
`snapshotCard`, `exportDeck`, `handleImportData`), of the text clamping
(`clampCanvasText`), of the grid layout of `exportDeckImage` and of the artwork
placement of `drawCardTile`, together with the properties of the deck
invariants, of the export/import path and of the image layout.

Modelling conventions.

* JavaScript values that reach the deck logic are primitives (`JsVal`).  The
  numbers of the deck logic (counts, the budget of the import loop) are
  integers or `NaN` (`JsNum`); comparisons with `NaN` are false and arithmetic
  on `NaN` gives `NaN`.  `Number(x)` is `JsVal.toNumber`, where `none` stands
  for `NaN`.  Measured text widths and the device pixel ratio are rationals
  (`ℚ`); the clamping and the layout only compare them.
* A plain object is the list of its own properties in iteration order
  (`JsObject`): array-index names first in ascending numeric order, then the
  other names in creation order.  A read `o[k]` that finds no own property goes
  on to the prototype.  The table `cardCopyOverrides` and the deck objects
  start with the prototype `Object.prototype`, whose property names are
  `objectPrototypeNames`; an assignment to `__proto__` replaces the prototype
  of a deck object (`State.deckProto`) and creates no own property.  The
  members of `Object.prototype` are the built-in ones: no other script adds to
  it, and the one write of the program to a built-in member stores a `NaN`
  count, which reads like a missing one.
* The own properties of a deck object are entries `{ card, count }` with a
  numeric count (`DeckEntry`); a deck read back from `localStorage` with
  entries of another shape is outside the model.
* `state.cardIndex` is a `Map` with string keys (`JsMap`): iteration order is
  creation order, and there is no prototype lookup.
* `fetchJson`, `encodeURIComponent`, the string-to-number conversion and the
  text of the built-in members of `Object.prototype` are collaborators of the
  program and are taken as parameters (`Env`).  An `await` is modelled as an
  atomic step.
* `persistDeck` and `renderDeck` write to `localStorage` and to the DOM only;
  they leave `state` unchanged and are not part of the embedded state.
* The artwork placement is computed in binary64: `binary64` rounds a rational
  to 53 significant bits, ties to even, and every operation of the program is
  followed by one rounding (`artworkPlacement`).
-/

namespace Nebula

/-! ## JavaScript values -/

/-- Primitive JavaScript values. -/
inductive JsVal where
  | undefined
  | null
  | bool (b : Bool)
  | num (n : Int)
  | str (s : String)
  deriving DecidableEq, Repr

namespace JsVal

/-- Truthiness (`ToBoolean`). -/
def truthy : JsVal → Bool
  | undefined => false
  | null => false
  | bool b => b
  | num n => decide (n ≠ 0)
  | str s => decide (s ≠ "")

/-- The coercion `String(v)`. -/
def toStr : JsVal → String
  | undefined => "undefined"
  | null => "null"
  | bool true => "true"
  | bool false => "false"
  | num n => toString n
  | str s => s

/-- The operator `a || b`. -/
def or (a b : JsVal) : JsVal := if a.truthy then a else b

/-- The coercion `Number(v)`; `none` is `NaN`.  The conversion of a string is
the built-in `StringToNumber`, passed as `strToNum`. -/
def toNumber (strToNum : String → Option Int) : JsVal → Option Int
  | undefined => none
  | null => some 0
  | bool true => some 1
  | bool false => some 0
  | num n => some n
  | str s => strToNum s

end JsVal

/-! ## Objects and maps -/

/-- Own properties of a plain object, in iteration order. -/
abbrev JsObject (α : Type) := List (String × α)

/-- Value of a decimal digit string, read left to right. -/
def digitsValue (cs : List Char) : Nat :=
  cs.foldl (fun acc c => 10 * acc + (c.toNat - 48)) 0

/-- The array index denoted by a property name, if the name is the canonical
decimal form of a number below `2^32 - 1`. -/
def arrayIndex? (k : String) : Option Nat :=
  match k.data with
  | [] => none
  | c :: cs =>
    if (c :: cs).all Char.isDigit && (c != '0' || cs.isEmpty) then
      if digitsValue (c :: cs) < 4294967295 then some (digitsValue (c :: cs)) else none
    else none

namespace JsObject

variable {α : Type}

/-- Property read `o[k]` (`none` is `undefined`). -/
def get : JsObject α → String → Option α
  | [], _ => none
  | (k', v) :: rest, k => if k' = k then some v else get rest k

/-- Property names, in iteration order. -/
def keys (o : JsObject α) : List String := o.map Prod.fst

/-- Assignment to a property that exists: the position is kept. -/
def replace : JsObject α → String → α → JsObject α
  | [], _, _ => []
  | (k', v') :: rest, k, v =>
    if k' = k then (k', v) :: rest else (k', v') :: replace rest k v

/-- Creation of an array-index property `k` with index `n`: it goes after the
array-index properties with a smaller index. -/
def insertIndexed (n : Nat) (k : String) (v : α) : JsObject α → JsObject α
  | [] => [(k, v)]
  | (k', v') :: rest =>
    match arrayIndex? k' with
    | some m =>
      if m < n then (k', v') :: insertIndexed n k v rest else (k, v) :: (k', v') :: rest
    | none => (k, v) :: (k', v') :: rest

/-- Creation of a property that does not exist yet. -/
def insertNew (o : JsObject α) (k : String) (v : α) : JsObject α :=
  match arrayIndex? k with
  | some n => insertIndexed n k v o
  | none => o ++ [(k, v)]

/-- Assignment `o[k] = v`. -/
def set (o : JsObject α) (k : String) (v : α) : JsObject α :=
  if (o.get k).isSome then o.replace k v else o.insertNew k v

/-- The statement `delete o[k]`. -/
def delete (o : JsObject α) (k : String) : JsObject α :=
  o.filter (fun p => decide (p.1 ≠ k))

end JsObject

/-- Entries of a `Map` with string keys, in iteration order. -/
abbrev JsMap (α : Type) := List (String × α)

namespace JsMap

variable {α : Type}

/-- The call `m.get(k)`. -/
def get (m : JsMap α) (k : String) : Option α := JsObject.get m k

/-- The call `m.set(k, v)`. -/
def set (m : JsMap α) (k : String) (v : α) : JsMap α :=
  if (JsObject.get m k).isSome then JsObject.replace m k v else m ++ [(k, v)]

end JsMap

/-! ## Numbers -/

/-- A number of the deck logic: an integer, or `NaN`.  A missing count
(`undefined`) is read as `NaN`: the program applies to counts only `+`, `-`,
`<=`, `>=`, `Math.min` and `Number(...) || 0`, which treat the two alike. -/
inductive JsNum where
  | int (n : Int)
  | nan
  deriving DecidableEq, Repr

instance instOfNatJsNum (n : Nat) : OfNat JsNum n := ⟨JsNum.int n⟩

namespace JsNum

/-- The operator `a + b` on numbers. -/
def add : JsNum → JsNum → JsNum
  | int a, int b => int (a + b)
  | _, _ => nan

/-- The operator `a - b`. -/
def sub : JsNum → JsNum → JsNum
  | int a, int b => int (a - b)
  | _, _ => nan

/-- The call `Math.min(a, b)`. -/
def min : JsNum → JsNum → JsNum
  | int a, int b => int (Min.min a b)
  | _, _ => nan

/-- The test `a <= b` (equally `b >= a`): false when either side is `NaN`. -/
def le : JsNum → JsNum → Bool
  | int a, int b => decide (a ≤ b)
  | _, _ => false

/-- The test `a < b`: false when either side is `NaN`. -/
def lt : JsNum → JsNum → Bool
  | int a, int b => decide (a < b)
  | _, _ => false

/-- The text of a number in a template literal. -/
def toStr : JsNum → String
  | int n => toString n
  | nan => "NaN"

/-- The number as it reads back from a JSON document: `JSON.stringify` writes
`NaN` as `null`. -/
def toVal : JsNum → JsVal
  | int n => JsVal.num n
  | nan => JsVal.null

/-- The integer of a number, 0 for `NaN`. -/
def toInt : JsNum → Int
  | int n => n
  | nan => 0

end JsNum

/-! ## Cards and limits -/

/-- A card record: an object of primitive fields.  A truthy primitive used in
the place of a card reads every field as `undefined`, like the empty record. -/
abbrev Card := JsObject JsVal

/-- Field read `card.f`. -/
def Card.field (card : Card) (f : String) : JsVal :=
  (JsObject.get card f).getD JsVal.undefined

/-- The property names of `Object.prototype`, which every plain object
inherits: eleven functions and the accessor `__proto__`. -/
def objectPrototypeNames : List String :=
  ["constructor", "__defineGetter__", "__defineSetter__", "hasOwnProperty",
   "__lookupGetter__", "__lookupSetter__", "isPrototypeOf", "propertyIsEnumerable",
   "toString", "valueOf", "__proto__", "toLocaleString"]

/-- Table `cardCopyOverrides`: its own properties. -/
def cardCopyOverrides : JsObject Int := [("PR-036", 50), ("PR-107", 8)]

/-- Function `cardKey`: `String(card.number || card.id)`. -/
def cardKey (card : Card) : String :=
  ((card.field "number").or (card.field "id")).toStr

/-- The value returned by `perCardLimit`: a number, or the member of
`Object.prototype` that the table inherits under the given name (a function,
or `Object.prototype` itself for `__proto__`). -/
inductive JsLimit where
  | num (n : Int)
  | inherited (name : String)
  deriving DecidableEq, Repr

/-- The limit as a number (`ToNumber`): `NaN` for an inherited member. -/
def JsLimit.toNum : JsLimit → JsNum
  | JsLimit.num n => JsNum.int n
  | JsLimit.inherited _ => JsNum.nan

/-- Function `perCardLimit`; `none` is a falsy card.  The read
`cardCopyOverrides[k]` finds an own property, else a member of
`Object.prototype` (truthy, so `|| 4` keeps it), else `undefined`. -/
def perCardLimit (card : Option Card) : JsLimit :=
  match card with
  | none => JsLimit.num 4
  | some c =>
    match JsObject.get cardCopyOverrides (cardKey c) with
    | some n => if n ≠ 0 then JsLimit.num n else JsLimit.num 4
    | none =>
      if cardKey c ∈ objectPrototypeNames then JsLimit.inherited (cardKey c)
      else JsLimit.num 4

/-! ## Application state -/

/-- A deck entry `{ card, count }`.  A function of `Object.prototype` that
`changeDeckCount` stores as an own property reads as an entry without card
whose count is `NaN`. -/
structure DeckEntry where
  card : Option Card
  count : JsNum
  deriving DecidableEq, Repr

/-- The own properties of the object `state.deck`. -/
abbrev Deck := JsObject DeckEntry

/-- The status banner: message and tone, as set by `updateStatus`. -/
structure Status where
  message : String
  tone : String
  deriving DecidableEq, Repr

/-- The object `state` (fields used by the deck logic) and the status banner.
`deck` holds the own properties of `state.deck`; `deckProto` is its prototype:
`none` for `Object.prototype`, and the entry object installed by an assignment
`state.deck["__proto__"] = entry` otherwise. -/
structure State where
  apiBase : String
  deck : Deck
  deckProto : Option DeckEntry
  cardIndex : JsMap Card
  status : Status
  deriving DecidableEq, Repr

/-- Collaborators: `fetchJson` on a URL (`none` when it throws or yields a
falsy value), `encodeURIComponent`, the built-in string-to-number conversion
(`none` is `NaN`), and the text `String(v)` of the member `v` of
`Object.prototype` with a given name. -/
structure Env where
  fetchJson : String → Option Card
  encodeURIComponent : String → String
  stringToNumber : String → Option Int
  nativeText : String → String

/-- The text of a limit in a template literal. -/
def JsLimit.toStr (env : Env) : JsLimit → String
  | JsLimit.num n => toString n
  | JsLimit.inherited name => env.nativeText name

/-- Function `updateStatus`; the default tone `"info"` is passed explicitly. -/
def updateStatus (s : State) (message : String) (tone : String) : State :=
  { s with status := { message := message, tone := tone } }

/-- Function `sanitizeBase`. -/
def sanitizeBase (base : String) : String :=
  if base.data.getLast? = some '/' then String.mk base.data.dropLast else base

/-- Function `deckCount` on the own properties of a deck. -/
def deckCount (d : Deck) : JsNum :=
  d.foldl (fun sum p => sum.add p.2.count) 0

/-- What the read `state.deck[key]` finds. -/
inductive DeckRead where
  /-- An own property. -/
  | own (e : DeckEntry)
  /-- The replaced prototype, read under `__proto__`. -/
  | hidden (p : DeckEntry)
  /-- The truthy property `card` or `count` of the replaced prototype. -/
  | shadow (p : DeckEntry)
  /-- A member of `Object.prototype`: truthy, without card and count. -/
  | builtin
  /-- Nothing, or a falsy value: `undefined`, `NaN`, `0`. -/
  | missing
  deriving DecidableEq, Repr

/-- The read `state.deck[key]`: own properties first, then the prototype
chain. -/
def readDeck (deck : Deck) (proto : Option DeckEntry) (key : String) : DeckRead :=
  match JsObject.get deck key with
  | some e => DeckRead.own e
  | none =>
    match proto with
    | some p =>
      if key = "__proto__" then DeckRead.hidden p
      else if key = "card" then
        match p.card with
        | some _ => DeckRead.shadow p
        | none => DeckRead.missing
      else if key = "count" then
        if p.count = JsNum.nan ∨ p.count = JsNum.int 0 then DeckRead.missing
        else DeckRead.shadow p
      else if key ∈ objectPrototypeNames then DeckRead.builtin
      else DeckRead.missing
    | none =>
      if key ∈ objectPrototypeNames then DeckRead.builtin else DeckRead.missing

/-- The assignment `obj[key] = entry` on a deck object: an own property is
updated; otherwise `__proto__` reaches the setter of `Object.prototype`, which
replaces the prototype and creates no own property; any other name creates an
own property. -/
def assignEntry (deck : Deck) (proto : Option DeckEntry) (key : String) (e : DeckEntry) :
    Deck × Option DeckEntry :=
  if (JsObject.get deck key).isSome then (JsObject.set deck key e, proto)
  else if key = "__proto__" then (deck, some e)
  else (JsObject.set deck key e, proto)

/-- The expression `state.deck[key]?.card`. -/
def deckCardOf (deck : Deck) (proto : Option DeckEntry) (key : String) : Option Card :=
  match readDeck deck proto key with
  | DeckRead.own e => e.card
  | DeckRead.hidden p => p.card
  | DeckRead.shadow p =>
    if key = "card" then
      match p.card with
      | some c => if (c.field "card").truthy then some [] else none
      | none => none
    else none
  | DeckRead.builtin => none
  | DeckRead.missing => none

/-- The count `current.count` of `current = state.deck[key] || { card, count: 0 }`;
`none` when the read goes through the property `card` or `count` of a replaced
prototype, which is outside the model. -/
def currentCountOf (deck : Deck) (proto : Option DeckEntry) (key : String) : Option JsNum :=
  match readDeck deck proto key with
  | DeckRead.own e => some e.count
  | DeckRead.hidden p => some p.count
  | DeckRead.shadow _ => none
  | DeckRead.builtin => some JsNum.nan
  | DeckRead.missing => some 0

/-- The on-demand lookup shared by `addCardToDeck` and `handleImportData`:
`fetchJson` on the card URL inside `try`, then `if (card?.error) card = null`. -/
def fetchCard (env : Env) (apiBase key : String) : Option Card :=
  match env.fetchJson (sanitizeBase apiBase ++ "/card/" ++ env.encodeURIComponent key) with
  | some c => if (c.field "error").truthy then none else some c
  | none => none

/-- Card resolution at the head of `addCardToDeck`: the cache, else the card of
the deck entry, else the on-demand lookup (which fills the cache).  Returns
the card and the cache afterwards. -/
def resolveCard (env : Env) (s : State) (key : String) : Option Card × JsMap Card :=
  let cached : Option Card :=
    match s.cardIndex.get key with
    | some c => some c
    | none => deckCardOf s.deck s.deckProto key
  if cached.isNone && decide (s.apiBase ≠ "") then
    match fetchCard env s.apiBase key with
    | some c => (some c, s.cardIndex.set key c)
    | none => (none, s.cardIndex)
  else (cached, s.cardIndex)

/-- Function `addCardToDeck`; `none` when the run leaves the model (see
`currentCountOf`). -/
def addCardToDeck (env : Env) (s : State) (cardKeyValue : JsVal) : Option State :=
  let key := cardKeyValue.toStr
  let resolved := resolveCard env s key
  let s1 : State := { s with cardIndex := resolved.2 }
  match resolved.1 with
  | none => some (updateStatus s1 "Card not found. Try refreshing results first." "warn")
  | some card =>
    let totalCount := deckCount s1.deck
    if JsNum.le 50 totalCount then
      some (updateStatus s1 "Deck is full (50 card limit). Remove a card first." "warn")
    else
      match currentCountOf s1.deck s1.deckProto key with
      | none => none
      | some current =>
        let limit := perCardLimit (some card)
        if JsNum.le limit.toNum current then
          some (updateStatus s1
            ("You can only run " ++ limit.toStr env ++ " copies of this card.") "warn")
        else
          let assigned := assignEntry s1.deck s1.deckProto key
            { card := some card, count := current.add 1 }
          let s2 : State := { s1 with deck := assigned.1, deckProto := assigned.2 }
          some (updateStatus s2
            ("Added " ++ (card.field "name").toStr ++ " (" ++ (current.add 1).toStr ++ "/"
              ++ limit.toStr env ++ ").") "info")

/-- Function `changeDeckCount`; `none` when the run leaves the model (the entry
is read through the property `card` or `count` of a replaced prototype). -/
def changeDeckCount (s : State) (cardKeyValue : JsVal) (delta : Int) : Option State :=
  let key := cardKeyValue.toStr
  match readDeck s.deck s.deckProto key with
  | DeckRead.missing => some s
  | DeckRead.own entry =>
    let entry1 : DeckEntry := { entry with count := entry.count.add (JsNum.int delta) }
    if JsNum.le entry1.count 0 then
      some { s with deck := JsObject.delete s.deck key }
    else
      some { s with deck := JsObject.set s.deck key entry1 }
  | DeckRead.hidden p =>
    some { s with deckProto := some { p with count := p.count.add (JsNum.int delta) } }
  | DeckRead.builtin =>
    if key = "__proto__" then some s
    else some { s with deck := JsObject.set s.deck key { card := none, count := JsNum.nan } }
  | DeckRead.shadow _ => none

/-! ## Export and import -/

/-- The field list of `snapshotCard`. -/
def snapshotFields : List String :=
  ["name", "type_name", "character_name", "number", "rarity", "feature", "type", "level",
   "round", "effect", "battle_power_1", "battle_power_2", "battle_power_3", "battle_power_4",
   "battle_power_ex", "image_url"]

/-- Function `snapshotCard`; `none` is a falsy card (the result `null`). -/
def snapshotCard (card : Option Card) : Option Card :=
  match card with
  | none => none
  | some c =>
    some (snapshotFields.foldl
      (fun copy f =>
        if c.field f ≠ JsVal.undefined then JsObject.set copy f (c.field f) else copy) [])

/-- An element of the `cards` array of an import document: its `key`, `count`
and `card` properties (`undefined` when missing, or when the element is not an
object).  The card is `none` when it is falsy. -/
structure ImportEntry where
  key : JsVal
  count : JsVal
  card : Option Card
  deriving DecidableEq, Repr

/-- A truthy parsed document; `cards` is `none` when the property is not an
array. -/
structure ImportDoc where
  cards : Option (List ImportEntry)
  deriving DecidableEq, Repr

/-- The array `entries` of `exportDeck`, as it reads back from the JSON file:
one `{ key, count, card }` per own property of the deck, in iteration order. -/
def exportEntries (d : Deck) : List ImportEntry :=
  d.map (fun p =>
    { key := JsVal.str p.1, count := p.2.count.toVal, card := snapshotCard p.2.card })

/-- The payload built by `exportDeck` (the `cards` array; `version` and
`generatedAt` are not read by the importer). -/
def exportDeck (d : Deck) : ImportDoc :=
  { cards := some (exportEntries d) }

/-- Local variables of the loop of `handleImportData`, with the card cache:
the own properties and the prototype of `imported`, `remaining`, `truncated`. -/
structure ImportAcc where
  imported : Deck
  importedProto : Option DeckEntry
  remaining : JsNum
  truncated : Bool
  cardIndex : JsMap Card
  deriving DecidableEq, Repr

/-- The expression `entry?.key ? String(entry.key) : null`. -/
def importKey (entry : ImportEntry) : Option String :=
  if entry.key.truthy then some entry.key.toStr else none

/-- The expression `Number(entry?.count) || 0`. -/
def desiredCount (env : Env) (entry : ImportEntry) : Int :=
  match entry.count.toNumber env.stringToNumber with
  | some n => if n ≠ 0 then n else 0
  | none => 0

/-- The test `!key || desiredCount <= 0`. -/
def skipped (env : Env) (entry : ImportEntry) : Bool :=
  match importKey entry with
  | none => true
  | some k => decide (k = "") || decide (desiredCount env entry ≤ 0)

/-- Card resolution of the import loop: the embedded card, else the lookup when
`state.apiBase` is set. -/
def importCard (env : Env) (apiBase key : String) (entry : ImportEntry) : Option Card :=
  match entry.card with
  | some c => some c
  | none => if apiBase ≠ "" then fetchCard env apiBase key else none

/-- The key under which a processed entry is stored. -/
def entryKey (entry : ImportEntry) : String := (importKey entry).getD ""

/-- The value `allowed` of the import loop for `card`. -/
def allowedCount (env : Env) (acc : ImportAcc) (entry : ImportEntry) (card : Card) : JsNum :=
  ((perCardLimit (some card)).toNum.min (JsNum.int (desiredCount env entry))).min acc.remaining

/-- The variables of the import loop after an entry is recorded for `card`:
the body of the loop from `const limit = perCardLimit(card)` on. -/
def recordEntry (env : Env) (acc : ImportAcc) (entry : ImportEntry) (card : Card) : ImportAcc :=
  { imported := (assignEntry acc.imported acc.importedProto (entryKey entry)
      { card := some card, count := allowedCount env acc entry card }).1
    importedProto := (assignEntry acc.imported acc.importedProto (entryKey entry)
      { card := some card, count := allowedCount env acc entry card }).2
    remaining := acc.remaining.sub (allowedCount env acc entry card)
    truncated := acc.truncated ||
      (allowedCount env acc entry card).lt (JsNum.int (desiredCount env entry))
    cardIndex := acc.cardIndex.set (entryKey entry) card }

/-- The `for` loop of `handleImportData` over the remaining entries. -/
def importLoop (env : Env) (apiBase : String) : List ImportEntry → ImportAcc → ImportAcc
  | [], acc => acc
  | entry :: rest, acc =>
    if skipped env entry then importLoop env apiBase rest acc
    else if acc.remaining.le 0 then { acc with truncated := true }
    else
      match importCard env apiBase (entryKey entry) entry with
      | none => importLoop env apiBase rest acc
      | some card => importLoop env apiBase rest (recordEntry env acc entry card)

/-- The loop of `handleImportData` run from its initial variables. -/
def importRun (env : Env) (s : State) (cards : List ImportEntry) : ImportAcc :=
  importLoop env s.apiBase cards
    { imported := [], importedProto := none, remaining := 50, truncated := false,
      cardIndex := s.cardIndex }

/-- Function `handleImportData`; `none` is a falsy `data`. -/
def handleImportData (env : Env) (s : State) (data : Option ImportDoc) : State :=
  match data with
  | none => updateStatus s "Invalid deck file format." "error"
  | some doc =>
    match doc.cards with
    | none => updateStatus s "Invalid deck file format." "error"
    | some cards =>
      let r := importRun env s cards
      let s1 : State :=
        { s with deck := r.imported, deckProto := r.importedProto, cardIndex := r.cardIndex }
      updateStatus s1
        (if r.truncated then "Deck imported with truncation to fit limits."
         else "Deck imported from JSON.") "info"

/-- A document with an array-valued `cards` field. -/
def docOf (cards : List ImportEntry) : Option ImportDoc := some { cards := some cards }

/-! ## Sequences of deck operations -/

/-- A call of one of the two live mutators. -/
inductive DeckOp where
  | add (key : JsVal)
  | change (key : JsVal) (delta : Int)
  deriving DecidableEq, Repr

/-- Effect of one call on the state. -/
def applyOp (env : Env) (s : State) : DeckOp → Option State
  | DeckOp.add key => addCardToDeck env s key
  | DeckOp.change key delta => changeDeckCount s key delta

/-- Effect of a sequence of calls, first call first. -/
def runOps (env : Env) (s : State) : List DeckOp → Option State
  | [] => some s
  | op :: rest =>
    match applyOp env s op with
    | some s1 => runOps env s1 rest
    | none => none

/-! ## Deck invariants and guarded calls -/

/-- A call that keeps the deck invariants: the key is not the name of a member
of `Object.prototype`, and `changeDeckCount` does not raise a count
(`delta ≤ 0`). -/
def DeckOp.guarded : DeckOp → Prop
  | DeckOp.add key => key.toStr ∉ objectPrototypeNames
  | DeckOp.change key delta => delta ≤ 0 ∧ key.toStr ∉ objectPrototypeNames

/-- The deck invariants: property names are unique, every count is at least 1
and at most the per-card limit of the entry card, and the total is at most 50
(each comparison as the program evaluates it, so a `NaN` never passes). -/
def DeckInv (d : Deck) : Prop :=
  d.keys.Nodup ∧
  (∀ p ∈ d, JsNum.le 1 p.2.count = true ∧
    JsNum.le p.2.count (perCardLimit p.2.card).toNum = true) ∧
  JsNum.le (deckCount d) 50 = true

/-- A catalog without cards named after a member of `Object.prototype`: no card
returned by a lookup and no card of the cache has such a key. -/
def PlainCatalog (env : Env) (idx : JsMap Card) : Prop :=
  (∀ url c, env.fetchJson url = some c → cardKey c ∉ objectPrototypeNames) ∧
  (∀ p ∈ idx, cardKey p.2 ∉ objectPrototypeNames)

/-- A deck whose own entries all have a numeric count. -/
def NumericDeck (d : Deck) : Prop := ∀ p ∈ d, ∃ n, p.2.count = JsNum.int n

/-- The sum of the counts of the own entries, a `NaN` counted as 0. -/
def deckTotal (d : Deck) : Int := (d.map (fun p => p.2.count.toInt)).sum

/-- The count of the own entry stored under `key`, and 0 when there is none:
the value of `current.count` in `addCardToDeck` for an own or an unknown key. -/
def currentCount (d : Deck) (key : String) : JsNum :=
  ((JsObject.get d key).map DeckEntry.count).getD 0

/-- An environment without network: every lookup fails.  The text of a member
of `Object.prototype` is the one printed by the common engines. -/
def offline : Env :=
  { fetchJson := fun _ => none, encodeURIComponent := fun k => k,
    stringToNumber := fun _ => none,
    nativeText := fun name =>
      if name = "__proto__" then "[object Object]"
      else if name = "constructor" then "function Object() \x7b [native code] \x7d"
      else "function " ++ name ++ "() \x7b [native code] \x7d" }

/-! ## Concrete cards and states -/

/-- A card with the override key `PR-036`. -/
def cardA : Card := [("name", JsVal.str "Alpha"), ("number", JsVal.str "PR-036")]

/-- A card with an ordinary key. -/
def cardB : Card := [("name", JsVal.str "Beta"), ("number", JsVal.str "BP01-001")]

/-- A card whose number is `constructor`. -/
def cardCtor : Card := [("name", JsVal.str "Gamma"), ("number", JsVal.str "constructor")]

/-- A card with an ordinary key, held by a cache under the key `toString`. -/
def cardT : Card := [("name", JsVal.str "T"), ("number", JsVal.str "BP01-777")]

/-- The empty deck, no API base, and a cache holding `cardA` and `cardB`. -/
def scenarioStart : State :=
  { apiBase := "", deck := [], deckProto := none,
    cardIndex := [("PR-036", cardA), ("BP01-001", cardB)],
    status := { message := "", tone := "info" } }

/-- A deck of fifty copies of `cardA`. -/
def fullState : State :=
  { scenarioStart with deck := [("PR-036", { card := some cardA, count := 50 })] }

/-- A deck of four copies of `cardB`. -/
def limitState : State :=
  { scenarioStart with deck := [("BP01-001", { card := some cardB, count := 4 })] }

/-- The empty deck and a cache that holds `cardT` under the key `toString`. -/
def toStringState : State :=
  { scenarioStart with cardIndex := [("toString", cardT)] }

/-- A sequence of adds and decrements. -/
def sampleOps : List DeckOp :=
  [DeckOp.add (JsVal.str "PR-036"), DeckOp.add (JsVal.str "PR-036"),
   DeckOp.change (JsVal.str "PR-036") (-1), DeckOp.add (JsVal.str "BP01-001"),
   DeckOp.change (JsVal.str "BP01-001") (-1)]

/-! ## Auxiliary notions for the import loop -/

/-- An import entry with a string key, a numeric count and an embedded card. -/
def entryOf (key : String) (count : Int) (card : Card) : ImportEntry :=
  { key := JsVal.str key, count := JsVal.num count, card := some card }

/-- A document with a repeated key, an entry without key, an entry under
`__proto__` and oversized requests. -/
def messyCards : List ImportEntry :=
  [entryOf "PR-036" 30 cardA, entryOf "BP01-001" 9 cardB,
   { key := JsVal.undefined, count := JsVal.num 3, card := some cardB },
   entryOf "__proto__" 2 cardB,
   entryOf "PR-036" 45 cardA, entryOf "BP01-001" 2 cardB]

/-- A document that asks for seven copies of `cardB`. -/
def sevenCards : List ImportEntry := [entryOf "BP01-001" 7 cardB]

/-- A document of distinct keys whose requests add up to 60: fifty-two copies
within the limits of the first three cards, then two more cards. -/
def sixtyCards : List ImportEntry :=
  [entryOf "PR-036" 44 cardA, entryOf "BP01-001" 4 cardB,
   entryOf "BP01-002" 4 [("number", JsVal.str "BP01-002")],
   entryOf "BP01-003" 4 [("number", JsVal.str "BP01-003")],
   entryOf "BP01-004" 4 [("number", JsVal.str "BP01-004")]]

/-- A document whose valid entries request exactly 50 copies, with entries
that fail the skip test before, between and after them. -/
def exactFiftyCards : List ImportEntry :=
  [{ key := JsVal.undefined, count := JsVal.num 3, card := some cardB },
   entryOf "PR-036" 46 cardA,
   entryOf "BP01-009" 0 cardB,
   entryOf "BP01-001" 4 cardB,
   { key := JsVal.str "", count := JsVal.num 5, card := some cardB },
   entryOf "BP01-002" (-2) cardB,
   { key := JsVal.null, count := JsVal.undefined, card := none }]

/-- A document that supplies two copies of `cardA` only. -/
def alphaCards : List ImportEntry := [entryOf "PR-036" 2 cardA]

/-- An entry that the import loop stores in full when budget is left: it passes
the skip test (usable non-empty key, positive requested count), its key is not
`__proto__`, it embeds a card, and it requests no more than the per-card limit
of that card. -/
def CleanEntry (env : Env) (e : ImportEntry) : Prop :=
  skipped env e = false ∧ entryKey e ≠ "__proto__" ∧
  ∃ c, e.card = some c ∧
    JsNum.le (JsNum.int (desiredCount env e)) (perCardLimit (some c)).toNum = true

/-- Invariant of the import loop away from the defect of `perCardLimit`: the
budget is a number and not negative, the stored counts and the budget add up
to at most 50, property names are unique, and every stored count is a number
between 1 and the numeric per-card limit of the stored card. -/
def ImportInv (acc : ImportAcc) : Prop :=
  ∃ r : Int, acc.remaining = JsNum.int r ∧ 0 ≤ r ∧ deckTotal acc.imported + r ≤ 50 ∧
    acc.imported.keys.Nodup ∧
    ∀ p ∈ acc.imported, ∃ n m, p.2.count = JsNum.int n ∧
      perCardLimit p.2.card = JsLimit.num m ∧ 1 ≤ n ∧ n ≤ m

/-- A document and a catalog without cards named after a member of
`Object.prototype`: no embedded card and no card returned by a lookup has such
a key. -/
def PlainDocument (env : Env) (cards : List ImportEntry) : Prop :=
  (∀ url c, env.fetchJson url = some c → cardKey c ∉ objectPrototypeNames) ∧
  (∀ e ∈ cards, ∀ c, e.card = some c → cardKey c ∉ objectPrototypeNames)

/-- An entry that the import loop can store under its own key: the key is not
`__proto__`, and it embeds a card with a numeric per-card limit. -/
def StorableEntry (e : ImportEntry) : Prop :=
  entryKey e ≠ "__proto__" ∧ ∃ c m, e.card = some c ∧ perCardLimit (some c) = JsLimit.num m

/-- The entries that pass the skip test. -/
def processed (env : Env) (cards : List ImportEntry) : List ImportEntry :=
  cards.filter (fun e => !skipped env e)

/-- Total of the requested counts of a list of entries. -/
def requested (env : Env) (cards : List ImportEntry) : Int :=
  (cards.map (desiredCount env)).sum

/-- A deck whose only key is the empty string: one copy of a card whose `id`
is empty and that has no `number`. -/
def blankKeyDeck : Deck := [("", { card := some [("id", JsVal.str "")], count := 1 })]

/-- A deck of five copies of a card identified by its `id` only, under the
override key `PR-036`. -/
def idKeyDeck : Deck :=
  [("PR-036", { card := some [("name", JsVal.str "Alpha"), ("id", JsVal.str "PR-036")],
                count := 5 })]

/-- A deck within the limits: five copies of `cardA` and four of `cardB`. -/
def nineDeck : Deck :=
  [("PR-036", { card := some cardA, count := 5 }),
   ("BP01-001", { card := some cardB, count := 4 })]

/-- Five `addCardToDeck("PR-036")` calls followed by five
`addCardToDeck("BP01-001")` calls. -/
def scenarioOps : List DeckOp :=
  List.replicate 5 (DeckOp.add (JsVal.str "PR-036"))
    ++ List.replicate 5 (DeckOp.add (JsVal.str "BP01-001"))

/-- A card whose `number` is present and empty, with an `id`. -/
def cardBlankNumber : Card := [("number", JsVal.str ""), ("id", JsVal.str "X1")]

/-- Two states that agree on the deck, its prototype, the card cache and the
status banner (the API base may differ). -/
def Agree (s s' : State) : Prop :=
  s.deck = s'.deck ∧ s.deckProto = s'.deckProto ∧ s.cardIndex = s'.cardIndex ∧
  s.status = s'.status

/-- Agreement of two results: both runs leave the model, or both end in states
that agree. -/
def AgreeResult (r r' : Option State) : Prop :=
  (r = none ∧ r' = none) ∨ ∃ s s', r = some s ∧ r' = some s' ∧ Agree s s'

/-- A call whose card, if it needs one, is in the cache `idx` and has a numeric
limit. -/
def DeckOp.cachedIn (idx : JsMap Card) : DeckOp → Prop
  | DeckOp.add key =>
    ∃ c m, JsMap.get idx key.toStr = some c ∧ perCardLimit (some c) = JsLimit.num m
  | DeckOp.change _ _ => True

/-- The start of the scenario with an arbitrary API base. -/
def scenarioAt (base : String) : State := { scenarioStart with apiBase := base }

/-- A document with seven copies of a card whose key is `constructor`. -/
def ctorSevenCards : List ImportEntry := [entryOf "X1" 7 cardCtor]

/-- A document whose first key is `__proto__`, then fifty copies of `cardA`. -/
def protoThenFifty : List ImportEntry := [entryOf "__proto__" 4 cardB, entryOf "PR-036" 50 cardA]

/-- A document with the single key `__proto__` and seven copies requested. -/
def protoSeven : List ImportEntry := [entryOf "__proto__" 7 cardB]

/-- A document with the single key `__proto__` and three copies requested. -/
def protoThree : List ImportEntry := [entryOf "__proto__" 3 cardB]

/-- A document that requests exactly fifty copies, four of them under
`__proto__`. -/
def protoExactFifty : List ImportEntry :=
  [entryOf "__proto__" 4 cardB, entryOf "PR-036" 46 cardA]

/-- Seven copies of a card whose key is `constructor`, then nine of `cardB`. -/
def ctorThenBeta : List ImportEntry := [entryOf "X1" 7 cardCtor, entryOf "BP01-001" 9 cardB]

/-- A deck with the own key `__proto__`: two copies of `cardB`. -/
def protoKeyDeck : Deck := [("__proto__", { card := some cardB, count := 2 })]

/-! ## Canvas text clamping -/

/-- The call `text.slice(0, n)`.  A string is its sequence of UTF-16 code
units; a code unit is identified with a character (text of the Basic
Multilingual Plane). -/
def jsSlice (text : String) (n : Nat) : String := String.mk (text.data.take n)

/-- The constant `ellipsis` of `clampCanvasText`. -/
def ellipsis : String := "..."

/-- The string `candidate` built for `mid` in `clampCanvasText`. -/
def clampCandidate (text : String) (mid : Nat) : String := jsSlice text mid ++ ellipsis

/-- The `while` loop of `clampCanvasText` from the variables `left`, `right`
and `result`; `measure t` is `ctx.measureText(t).width` (a finite number). -/
def clampSearch (measure : String → ℚ) (text : String) (maxWidth : ℚ)
    (left right : Nat) (result : String) : String :=
  if h : left < right then
    if measure (clampCandidate text ((left + right) / 2)) ≤ maxWidth then
      clampSearch measure text maxWidth ((left + right) / 2 + 1) right
        (clampCandidate text ((left + right) / 2))
    else
      clampSearch measure text maxWidth left ((left + right) / 2) result
  else result
termination_by right - left
decreasing_by all_goals omega

/-- Function `clampCanvasText`, with the measurement of `ctx` as `measure`. -/
def clampCanvasText (measure : String → ℚ) (text : String) (maxWidth : ℚ) : String :=
  if text = "" then ""
  else if measure text ≤ maxWidth then text
  else clampSearch measure text maxWidth 0 text.length ellipsis

/-- The `while` loop of `clampCanvasText` cut after `fuel` iterations: `none`
when the loop is still running then. -/
def clampRun (measure : String → ℚ) (text : String) (maxWidth : ℚ) :
    Nat → Nat → Nat → String → Option String
  | 0, left, right, result => if left < right then none else some result
  | fuel + 1, left, right, result =>
    if left < right then
      if measure (clampCandidate text ((left + right) / 2)) ≤ maxWidth then
        clampRun measure text maxWidth fuel ((left + right) / 2 + 1) right
          (clampCandidate text ((left + right) / 2))
      else
        clampRun measure text maxWidth fuel left ((left + right) / 2) result
    else some result

/-- A measurement that gives every character a width of 10. -/
def tenPerChar (t : String) : ℚ := ((10 * t.length : Nat) : ℚ)

/-- A measurement under which only the string of four dots is narrow. -/
def fourDotsNarrow (t : String) : ℚ := if t = "...." then 0 else 100

/-! ## Deck image layout -/

/-- The constant `perRow` of `exportDeckImage`. -/
def perRow : Nat := 4

/-- The constant `cardW` of `exportDeckImage`. -/
def cardW : Nat := 220

/-- The constant `cardH` of `exportDeckImage`. -/
def cardH : Nat := 320

/-- The constant `gap` of `exportDeckImage`. -/
def gap : Nat := 16

/-- The value `rows = Math.ceil(entries.length / perRow)` for `n` entries. -/
def tileRows (n : Nat) : Nat := (n + perRow - 1) / perRow

/-- The value `baseWidth`. -/
def baseWidth : Nat := gap + perRow * (cardW + gap)

/-- The value `baseHeight` for `n` entries. -/
def baseHeight (n : Nat) : Nat := gap + tileRows n * (cardH + gap)

/-- The value `scale`, from `window.devicePixelRatio`. -/
def imageScale (devicePixelRatio : ℚ) : Nat := if devicePixelRatio > 1 then 2 else 1

/-- The arguments of a call `drawCardTile(ctx, card, count, x, y, w, h)`. -/
structure Tile where
  card : Option Card
  count : JsNum
  x : Nat
  y : Nat
  w : Nat
  h : Nat
  deriving DecidableEq, Repr

/-- The tile drawn for the entry at index `i`. -/
def tileAt (i : Nat) (e : DeckEntry) : Tile :=
  { card := e.card, count := e.count,
    x := gap + (i % perRow) * (cardW + gap),
    y := gap + (i / perRow) * (cardH + gap),
    w := cardW, h := cardH }

/-- The `for` loop of `exportDeckImage` from index `i` over the entries left. -/
def drawTiles (i : Nat) : List DeckEntry → List Tile
  | [] => []
  | e :: rest => tileAt i e :: drawTiles (i + 1) rest

/-- The canvas of `exportDeckImage`: its pixel size, the scale of its drawing
context, and the tiles drawn in unscaled coordinates. -/
structure DeckImage where
  width : Nat
  height : Nat
  scale : Nat
  tiles : List Tile
  deriving DecidableEq, Repr

/-- Function `exportDeckImage`: `none` when the deck has no entries (a warning
is reported and nothing is drawn). -/
def exportDeckImage (d : Deck) (devicePixelRatio : ℚ) : Option DeckImage :=
  let entries := d.map Prod.snd
  if entries.length = 0 then none
  else
    some { width := baseWidth * imageScale devicePixelRatio,
           height := baseHeight entries.length * imageScale devicePixelRatio,
           scale := imageScale devicePixelRatio,
           tiles := drawTiles 0 entries }

/-- Two tiles with at least a gap between them, side by side or one above the
other. -/
def Tile.apart (a b : Tile) : Prop :=
  a.x + a.w + gap ≤ b.x ∨ b.x + b.w + gap ≤ a.x ∨ a.y + a.h + gap ≤ b.y ∨ b.y + b.h + gap ≤ a.y

/-- A deck of five different cards. -/
def fiveDeck : Deck :=
  [("PR-036", { card := some cardA, count := 2 }),
   ("BP01-001", { card := some cardB, count := 1 }),
   ("BP01-002", { card := some [("number", JsVal.str "BP01-002")], count := 4 }),
   ("BP01-003", { card := some [("number", JsVal.str "BP01-003")], count := 3 }),
   ("BP01-004", { card := some [("number", JsVal.str "BP01-004")], count := 1 })]

/-! ## Artwork placement -/

/-- The arguments of `ctx.drawImage(img, dx, dy, drawW, drawH)`. -/
structure Placement where
  dx : ℚ
  dy : ℚ
  drawW : ℚ
  drawH : ℚ

/-- Rounding of a rational to the nearest integer, ties to the even integer. -/
def roundNearestEven (q : ℚ) : ℤ :=
  if q - ⌊q⌋ < 1 / 2 then ⌊q⌋
  else if 1 / 2 < q - ⌊q⌋ then ⌊q⌋ + 1
  else if ⌊q⌋ % 2 = 0 then ⌊q⌋ else ⌊q⌋ + 1

/-- The binary64 number nearest to `x`, ties to even: 53 significant bits at
the binary exponent of `x`.  The exponent is not bounded, so this is the
rounding of IEEE 754 for results in the normal range (no overflow, no
subnormal result). -/
def binary64 (x : ℚ) : ℚ :=
  if x = 0 then 0
  else (roundNearestEven (x / (2 : ℚ) ^ (Int.log 2 |x| - 52)) : ℚ)
    * (2 : ℚ) ^ (Int.log 2 |x| - 52)

/-- The artwork placement of `drawCardTile` for a loaded image of size
`iw x ih` in the tile `(x, y, w, h)`: every arithmetic operation of the program
is followed by the rounding to binary64 (`Math.min` is exact). -/
def artworkPlacement (iw ih x y w h : ℚ) : Placement :=
  let padding : ℚ := 10
  let imgAreaW := binary64 (w - binary64 (padding * 2))
  let imgAreaH := binary64 (h - 90)
  let ratio := min (binary64 (imgAreaW / iw)) (binary64 (imgAreaH / ih))
  let drawW := binary64 (iw * ratio)
  let drawH := binary64 (ih * ratio)
  { dx := binary64 (x + binary64 (binary64 (w - drawW) / 2)),
    dy := binary64 (y + padding), drawW := drawW, drawH := drawH }

/-- The formula of the artwork placement read over the rationals, without any
rounding: the placement that the specification describes. -/
def artworkPlacementExact (iw ih x y w h : ℚ) : Placement :=
  let padding : ℚ := 10
  let imgAreaW := w - padding * 2
  let imgAreaH := h - 90
  let ratio := min (imgAreaW / iw) (imgAreaH / ih)
  let drawW := iw * ratio
  let drawH := ih * ratio
  { dx := x + (w - drawW) / 2, dy := y + padding, drawW := drawW, drawH := drawH }

/-! ## Lemmas on objects -/

namespace JsObject

variable {α : Type}

theorem get_eq_none_iff (o : JsObject α) (k : String) : o.get k = none ↔ k ∉ o.keys := by
  induction o with
  | nil => simp [get, keys]
  | cons p rest ih =>
    obtain ⟨k', v⟩ := p
    by_cases h : k' = k
    · simp [get, keys, h]
    · have h2 : ¬ k = k' := fun e => h e.symm
      simpa [get, keys, h, h2] using ih

theorem mem_of_get (o : JsObject α) (k : String) (v : α) (h : o.get k = some v) :
    (k, v) ∈ o := by
  induction o with
  | nil => simp [get] at h
  | cons p rest ih =>
    obtain ⟨k', v'⟩ := p
    by_cases hk : k' = k
    · simp [get, hk] at h
      simp [hk, h]
    · simp [get, hk] at h
      exact List.mem_cons_of_mem _ (ih h)

theorem get_of_mem (o : JsObject α) (k : String) (v : α) (hn : o.keys.Nodup)
    (h : (k, v) ∈ o) : o.get k = some v := by
  induction o with
  | nil => simp at h
  | cons p rest ih =>
    obtain ⟨k', v'⟩ := p
    simp only [keys, List.map_cons, List.nodup_cons] at hn
    rcases List.mem_cons.mp h with h1 | h1
    · cases h1
      simp [get]
    · have hk : k' ≠ k := by
        intro e
        subst e
        exact hn.1 (List.mem_map.mpr ⟨(k', v), h1, rfl⟩)
      simp only [get, hk, if_false]
      exact ih hn.2 h1

theorem get_replace (o : JsObject α) (k k' : String) (v : α) :
    (o.replace k v).get k' = if k' = k then (o.get k).map (fun _ => v) else o.get k' := by
  induction o with
  | nil => simp [replace, get]
  | cons p rest ih =>
    obtain ⟨k0, v0⟩ := p
    by_cases h0 : k0 = k
    · subst h0
      by_cases h1 : k0 = k'
      · subst h1
        simp [replace, get]
      · have h2 : ¬ k' = k0 := fun e => h1 e.symm
        simp [replace, get, h1, h2]
    · by_cases h1 : k0 = k'
      · subst h1
        simp [replace, get, h0]
      · simp only [replace, h0, if_false, get, h1]
        exact ih

theorem keys_replace (o : JsObject α) (k : String) (v : α) : (o.replace k v).keys = o.keys := by
  induction o with
  | nil => simp [replace]
  | cons p rest ih =>
    obtain ⟨k0, v0⟩ := p
    by_cases h0 : k0 = k
    · simp [replace, keys, h0]
    · simp only [replace, h0, if_false, keys, List.map_cons] at ih ⊢
      rw [ih]

theorem mem_replace (o : JsObject α) (k : String) (v : α) (p : String × α)
    (h : p ∈ o.replace k v) : p ∈ o ∨ p = (k, v) := by
  induction o with
  | nil => simp [replace] at h
  | cons q rest ih =>
    obtain ⟨k0, v0⟩ := q
    by_cases h0 : k0 = k
    · simp only [replace, h0, if_true, List.mem_cons] at h
      rcases h with h | h
      · exact Or.inr h
      · exact Or.inl (List.mem_cons_of_mem _ h)
    · simp only [replace, h0, if_false, List.mem_cons] at h
      rcases h with h | h
      · exact Or.inl (h ▸ List.mem_cons_self _ _)
      · rcases ih h with h | h
        · exact Or.inl (List.mem_cons_of_mem _ h)
        · exact Or.inr h

theorem insertIndexed_perm (n : Nat) (k : String) (v : α) (o : JsObject α) :
    (insertIndexed n k v o).Perm ((k, v) :: o) := by
  induction o with
  | nil => simp [insertIndexed]
  | cons q rest ih =>
    obtain ⟨k0, v0⟩ := q
    simp only [insertIndexed]
    split
    · split
      · exact (List.Perm.cons _ ih).trans (List.Perm.swap _ _ _)
      · exact List.Perm.refl _
    · exact List.Perm.refl _

theorem insertNew_perm (o : JsObject α) (k : String) (v : α) :
    (o.insertNew k v).Perm ((k, v) :: o) := by
  unfold insertNew
  split
  · exact insertIndexed_perm _ k v o
  · exact List.perm_append_comm

theorem get_insertIndexed (n : Nat) (o : JsObject α) (k k' : String) (v : α)
    (h : o.get k = none) :
    (insertIndexed n k v o).get k' = if k' = k then some v else o.get k' := by
  induction o with
  | nil =>
    by_cases e : k = k'
    · simp [insertIndexed, get, e]
    · have e2 : ¬ k' = k := fun x => e x.symm
      simp [insertIndexed, get, e, e2]
  | cons q rest ih =>
    obtain ⟨k0, v0⟩ := q
    have h0 : k0 ≠ k := by
      intro e
      simp [get, e] at h
    have hr : get rest k = none := by simpa [get, h0] using h
    have front : get ((k, v) :: (k0, v0) :: rest) k' =
        if k' = k then some v else get ((k0, v0) :: rest) k' := by
      by_cases e : k = k'
      · simp [get, e]
      · have e2 : ¬ k' = k := fun x => e x.symm
        simp [get, e, e2]
    simp only [insertIndexed]
    split
    · split
      · by_cases e0 : k0 = k'
        · have e1 : ¬ k' = k := fun x => h0 (e0.trans x)
          simp [get, e0, e1]
        · simp only [get, e0, if_false]
          exact ih hr
      · exact front
    · exact front

theorem get_append_new (o : JsObject α) (k k' : String) (v : α) (h : o.get k = none) :
    get (o ++ [(k, v)]) k' = if k' = k then some v else o.get k' := by
  induction o with
  | nil =>
    by_cases e : k = k'
    · simp [get, e]
    · have e2 : ¬ k' = k := fun x => e x.symm
      simp [get, e, e2]
  | cons q rest ih =>
    obtain ⟨k0, v0⟩ := q
    have h0 : k0 ≠ k := by
      intro e
      simp [get, e] at h
    have hr : get rest k = none := by simpa [get, h0] using h
    by_cases e0 : k0 = k'
    · have e1 : ¬ k' = k := fun x => h0 (e0.trans x)
      simp [get, e0, e1]
    · simp only [List.cons_append, get, e0, if_false]
      exact ih hr

theorem get_insertNew (o : JsObject α) (k k' : String) (v : α) (h : o.get k = none) :
    (o.insertNew k v).get k' = if k' = k then some v else o.get k' := by
  unfold insertNew
  split
  · exact get_insertIndexed _ o k k' v h
  · exact get_append_new o k k' v h

theorem get_set (o : JsObject α) (k k' : String) (v : α) :
    (o.set k v).get k' = if k' = k then some v else o.get k' := by
  unfold set
  cases h : o.get k with
  | none => simpa using get_insertNew o k k' v h
  | some old =>
    simp only [Option.isSome_some, if_true]
    rw [get_replace, h]
    rfl

theorem get_delete (o : JsObject α) (k k' : String) :
    (o.delete k).get k' = if k' = k then none else o.get k' := by
  induction o with
  | nil => simp [delete, get]
  | cons q rest ih =>
    obtain ⟨k0, v0⟩ := q
    by_cases h0 : k0 = k
    · subst h0
      have : delete ((k0, v0) :: rest) k0 = delete rest k0 := by simp [delete]
      rw [this, ih]
      by_cases e : k' = k0
      · simp [e]
      · have e2 : ¬ k0 = k' := fun x => e x.symm
        simp [get, e, e2]
    · have : delete ((k0, v0) :: rest) k = (k0, v0) :: delete rest k := by simp [delete, h0]
      rw [this]
      by_cases e0 : k0 = k'
      · have e1 : ¬ k' = k := fun x => h0 (e0.trans x)
        simp [get, e0, e1]
      · simp only [get, e0, if_false]
        exact ih

theorem mem_set (o : JsObject α) (k : String) (v : α) (p : String × α)
    (h : p ∈ o.set k v) : p ∈ o ∨ p = (k, v) := by
  unfold set at h
  split at h
  · exact mem_replace o k v p h
  · rcases List.mem_cons.mp ((insertNew_perm o k v).mem_iff.mp h) with h | h
    · exact Or.inr h
    · exact Or.inl h

theorem mem_delete (o : JsObject α) (k : String) (p : String × α)
    (h : p ∈ o.delete k) : p ∈ o ∧ p.1 ≠ k := by
  simpa [delete] using h

theorem nodup_set (o : JsObject α) (k : String) (v : α) (hn : o.keys.Nodup) :
    (o.set k v).keys.Nodup := by
  unfold set
  cases h : o.get k with
  | some old =>
    simp only [Option.isSome_some, if_true]
    rw [keys_replace]
    exact hn
  | none =>
    have hk : k ∉ o.keys := (get_eq_none_iff o k).mp h
    have hp : (o.insertNew k v).keys.Perm (k :: o.keys) := by
      simpa [keys] using (insertNew_perm o k v).map Prod.fst
    simpa using hp.nodup_iff.mpr (List.nodup_cons.mpr ⟨hk, hn⟩)

theorem nodup_delete (o : JsObject α) (k : String) (hn : o.keys.Nodup) :
    (o.delete k).keys.Nodup := by
  unfold delete keys
  exact (List.filter_sublist o).map Prod.fst |>.nodup hn

theorem delete_absent (o : JsObject α) (k : String) (h : k ∉ o.keys) : o.delete k = o := by
  unfold delete
  rw [List.filter_eq_self]
  intro p hp
  have : p.1 ≠ k := by
    intro e
    exact h (List.mem_map.mpr ⟨p, hp, e⟩)
  simpa using this

end JsObject

/-! ## Lemmas on numbers, the deck total and the limits -/

theorem JsNum.le_iff (a b : JsNum) :
    JsNum.le a b = true ↔ ∃ x y, a = JsNum.int x ∧ b = JsNum.int y ∧ x ≤ y := by
  cases a <;> cases b <;> simp [JsNum.le]

theorem JsNum.lt_iff (a b : JsNum) :
    JsNum.lt a b = true ↔ ∃ x y, a = JsNum.int x ∧ b = JsNum.int y ∧ x < y := by
  cases a <;> cases b <;> simp [JsNum.lt]

theorem JsNum.le_int_int (x y : Int) : JsNum.le (JsNum.int x) (JsNum.int y) = decide (x ≤ y) := rfl

theorem JsNum.lt_int_int (x y : Int) : JsNum.lt (JsNum.int x) (JsNum.int y) = decide (x < y) := rfl

theorem JsNum.add_int_int (x y : Int) :
    JsNum.add (JsNum.int x) (JsNum.int y) = JsNum.int (x + y) := rfl

theorem JsNum.sub_int_int (x y : Int) :
    JsNum.sub (JsNum.int x) (JsNum.int y) = JsNum.int (x - y) := rfl

theorem JsNum.min_int_int (x y : Int) :
    JsNum.min (JsNum.int x) (JsNum.int y) = JsNum.int (Min.min x y) := rfl

theorem JsNum.ofNat_eq (n : Nat) : (OfNat.ofNat n : JsNum) = JsNum.int n := rfl

theorem JsNum.zero_eq : (0 : JsNum) = JsNum.int 0 := rfl

theorem JsNum.one_eq : (1 : JsNum) = JsNum.int 1 := rfl

theorem JsNum.fifty_eq : (50 : JsNum) = JsNum.int 50 := rfl

theorem foldl_count_nan (d : Deck) :
    d.foldl (fun sum p => JsNum.add sum p.2.count) JsNum.nan = JsNum.nan := by
  induction d with
  | nil => rfl
  | cons p rest ih =>
    simp only [List.foldl_cons]
    have : JsNum.add JsNum.nan p.2.count = JsNum.nan := by cases p.2.count <;> rfl
    rw [this, ih]

theorem foldl_count_int (d : Deck) (init : Int) (h : NumericDeck d) :
    d.foldl (fun sum p => JsNum.add sum p.2.count) (JsNum.int init)
      = JsNum.int (init + deckTotal d) := by
  induction d generalizing init with
  | nil => simp [deckTotal]
  | cons p rest ih =>
    obtain ⟨n, hn⟩ := h p (List.mem_cons_self _ _)
    simp only [List.foldl_cons, hn, JsNum.add_int_int]
    rw [ih _ (fun q hq => h q (List.mem_cons_of_mem _ hq))]
    simp only [deckTotal, List.map_cons, List.sum_cons, hn, JsNum.toInt]
    congr 1
    ring

theorem foldl_count_numeric (d : Deck) (init : JsNum) (t : Int)
    (h : d.foldl (fun sum p => JsNum.add sum p.2.count) init = JsNum.int t) :
    NumericDeck d := by
  induction d generalizing init with
  | nil =>
    intro p hp
    cases hp
  | cons p rest ih =>
    simp only [List.foldl_cons] at h
    intro q hq
    rcases List.mem_cons.mp hq with hq | hq
    · subst hq
      cases hc : q.2.count with
      | int n => exact ⟨n, rfl⟩
      | nan =>
        rw [hc] at h
        have : JsNum.add init JsNum.nan = JsNum.nan := by cases init <;> rfl
        rw [this, foldl_count_nan] at h
        cases h
    · exact ih _ h q hq

theorem deckCount_of_numeric (d : Deck) (h : NumericDeck d) :
    deckCount d = JsNum.int (deckTotal d) := by
  unfold deckCount
  rw [JsNum.zero_eq, foldl_count_int d 0 h]
  simp

theorem deckCount_int (d : Deck) (t : Int) (h : deckCount d = JsNum.int t) :
    NumericDeck d ∧ deckTotal d = t := by
  have hn := foldl_count_numeric d 0 t h
  rw [deckCount_of_numeric d hn] at h
  exact ⟨hn, by cases h; rfl⟩

theorem deckCount_le_fifty (d : Deck) (h : JsNum.le (deckCount d) 50 = true) :
    NumericDeck d ∧ deckCount d = JsNum.int (deckTotal d) ∧ deckTotal d ≤ 50 := by
  obtain ⟨x, y, hx, hy, hxy⟩ := (JsNum.le_iff _ _).mp h
  obtain ⟨hn, ht⟩ := deckCount_int d x hx
  rw [JsNum.fifty_eq] at hy
  cases hy
  exact ⟨hn, by rw [hx, ht], by omega⟩

theorem deckTotal_nil : deckTotal [] = 0 := rfl

theorem deckTotal_cons (p : String × DeckEntry) (d : Deck) :
    deckTotal (p :: d) = p.2.count.toInt + deckTotal d := by
  simp [deckTotal]

theorem deckTotal_perm (d d' : Deck) (h : d.Perm d') : deckTotal d = deckTotal d' := by
  unfold deckTotal
  exact (h.map _).sum_eq

theorem deckTotal_insertNew (d : Deck) (k : String) (e : DeckEntry) :
    deckTotal (JsObject.insertNew d k e) = deckTotal d + e.count.toInt := by
  rw [deckTotal_perm _ _ (JsObject.insertNew_perm d k e), deckTotal_cons]
  ring

theorem deckTotal_replace (d : Deck) (k : String) (e old : DeckEntry)
    (h : JsObject.get d k = some old) :
    deckTotal (JsObject.replace d k e) = deckTotal d - old.count.toInt + e.count.toInt := by
  induction d with
  | nil => simp [JsObject.get] at h
  | cons q rest ih =>
    obtain ⟨k0, v0⟩ := q
    by_cases h0 : k0 = k
    · simp only [JsObject.get, h0, if_true, Option.some.injEq] at h
      subst h
      simp only [JsObject.replace, h0, if_true, deckTotal_cons]
      ring
    · simp only [JsObject.get, h0, if_false] at h
      simp only [JsObject.replace, h0, if_false, deckTotal_cons]
      rw [ih h]
      ring

theorem deckTotal_set (d : Deck) (k : String) (e : DeckEntry) :
    deckTotal (JsObject.set d k e) =
      deckTotal d - ((JsObject.get d k).map (fun x => x.count.toInt)).getD 0 + e.count.toInt := by
  unfold JsObject.set
  cases h : JsObject.get d k with
  | none => simpa using deckTotal_insertNew d k e
  | some old => simpa using deckTotal_replace d k e old h

theorem deckTotal_delete (d : Deck) (k : String) (hn : JsObject.keys d |>.Nodup) :
    deckTotal (JsObject.delete d k) =
      deckTotal d - ((JsObject.get d k).map (fun x => x.count.toInt)).getD 0 := by
  induction d with
  | nil => simp [JsObject.delete, JsObject.get, deckTotal_nil]
  | cons q rest ih =>
    obtain ⟨k0, v0⟩ := q
    simp only [JsObject.keys, List.map_cons, List.nodup_cons] at hn
    by_cases h0 : k0 = k
    · subst h0
      have h1 : JsObject.delete ((k0, v0) :: rest) k0 = JsObject.delete rest k0 := by
        simp [JsObject.delete]
      rw [h1, JsObject.delete_absent rest k0 hn.1]
      simp [JsObject.get, deckTotal_cons]
    · have h1 : JsObject.delete ((k0, v0) :: rest) k = (k0, v0) :: JsObject.delete rest k := by
        simp [JsObject.delete, h0]
      rw [h1, deckTotal_cons, deckTotal_cons, ih hn.2]
      simp only [JsObject.get, h0, if_false]
      ring

theorem numeric_set (d : Deck) (k : String) (e : DeckEntry) (n : Int)
    (he : e.count = JsNum.int n) (h : NumericDeck d) : NumericDeck (JsObject.set d k e) := by
  intro p hp
  rcases JsObject.mem_set _ _ _ _ hp with hp | hp
  · exact h p hp
  · subst hp
    exact ⟨n, he⟩

theorem numeric_delete (d : Deck) (k : String) (h : NumericDeck d) :
    NumericDeck (JsObject.delete d k) :=
  fun p hp => h p (JsObject.mem_delete _ _ _ hp).1

theorem perCardLimit_num_ge (card : Option Card) (n : Int)
    (h : perCardLimit card = JsLimit.num n) : 4 ≤ n := by
  unfold perCardLimit at h
  cases card with
  | none =>
    simp only [JsLimit.num.injEq] at h
    omega
  | some c =>
    simp only [cardCopyOverrides, JsObject.get] at h
    split_ifs at h <;> simp at h <;> omega

theorem perCardLimit_toNum (card : Option Card) (m : Int)
    (h : (perCardLimit card).toNum = JsNum.int m) : perCardLimit card = JsLimit.num m ∧ 4 ≤ m := by
  cases hl : perCardLimit card with
  | num n =>
    rw [hl] at h
    simp only [JsLimit.toNum, JsNum.int.injEq] at h
    subst h
    exact ⟨rfl, perCardLimit_num_ge card n hl⟩
  | inherited name =>
    rw [hl] at h
    cases h

theorem perCardLimit_plain (c : Card) (h : cardKey c ∉ objectPrototypeNames) :
    ∃ n, perCardLimit (some c) = JsLimit.num n := by
  unfold perCardLimit
  simp only
  cases JsObject.get cardCopyOverrides (cardKey c) with
  | some n =>
    simp only
    split_ifs
    · exact ⟨n, rfl⟩
    · exact ⟨4, rfl⟩
  | none =>
    simp only [if_neg h]
    exact ⟨4, rfl⟩

theorem perCardLimit_none : perCardLimit none = JsLimit.num 4 := rfl

theorem deckInv_nil : DeckInv ([] : Deck) := by
  refine ⟨by simp [JsObject.keys], ?_, by decide⟩
  intro p hp
  simp at hp

/-- The invariants in integers: unique names, numeric counts between 1 and a
numeric limit, and an integer total of at most 50. -/
theorem deckInv_iff (d : Deck) :
    DeckInv d ↔ d.keys.Nodup ∧
      (∀ p ∈ d, ∃ n m, p.2.count = JsNum.int n ∧ perCardLimit p.2.card = JsLimit.num m ∧
        1 ≤ n ∧ n ≤ m) ∧
      deckTotal d ≤ 50 := by
  constructor
  · rintro ⟨hn, hc, ht⟩
    refine ⟨hn, ?_, (deckCount_le_fifty d ht).2.2⟩
    intro p hp
    obtain ⟨h1, h2⟩ := hc p hp
    obtain ⟨x, y, hx, hy, hxy⟩ := (JsNum.le_iff _ _).mp h2
    obtain ⟨x1, y1, hx1, hy1, hxy1⟩ := (JsNum.le_iff _ _).mp h1
    rw [hx] at hy1
    rw [JsNum.one_eq] at hx1
    cases hx1
    cases hy1
    exact ⟨x, y, hx, (perCardLimit_toNum _ y hy).1, hxy1, hxy⟩
  · rintro ⟨hn, hc, ht⟩
    have hnum : NumericDeck d := fun p hp => by
      obtain ⟨n, _, h, _⟩ := hc p hp
      exact ⟨n, h⟩
    refine ⟨hn, ?_, ?_⟩
    · intro p hp
      obtain ⟨n, m, h1, h2, h3, h4⟩ := hc p hp
      rw [h1, h2]
      simp [JsNum.one_eq, JsNum.le, JsLimit.toNum, h3, h4]
    · rw [deckCount_of_numeric d hnum, JsNum.fifty_eq]
      simp [JsNum.le, ht]

/-! ## Live mutation: `addCardToDeck` and `changeDeckCount` -/

theorem readDeck_own (d : Deck) (proto : Option DeckEntry) (key : String) (e : DeckEntry)
    (h : JsObject.get d key = some e) : readDeck d proto key = DeckRead.own e := by
  simp [readDeck, h]

theorem readDeck_plain (d : Deck) (key : String) (hk : key ∉ objectPrototypeNames) :
    readDeck d none key =
      match JsObject.get d key with
      | some e => DeckRead.own e
      | none => DeckRead.missing := by
  unfold readDeck
  cases JsObject.get d key with
  | some e => rfl
  | none => simp [hk]

theorem currentCountOf_own (d : Deck) (proto : Option DeckEntry) (key : String) (e : DeckEntry)
    (h : JsObject.get d key = some e) : currentCountOf d proto key = some e.count := by
  simp [currentCountOf, readDeck_own d proto key e h]

theorem currentCountOf_plain (d : Deck) (key : String) (hk : key ∉ objectPrototypeNames) :
    currentCountOf d none key = some (currentCount d key) := by
  unfold currentCountOf currentCount
  rw [readDeck_plain d key hk]
  cases JsObject.get d key <;> rfl

theorem deckCardOf_plain (d : Deck) (key : String) (hk : key ∉ objectPrototypeNames) :
    deckCardOf d none key = (JsObject.get d key).bind DeckEntry.card := by
  unfold deckCardOf
  rw [readDeck_plain d key hk]
  cases JsObject.get d key <;> rfl

theorem not_proto_of_plain (key : String) (hk : key ∉ objectPrototypeNames) :
    key ≠ "__proto__" := by
  intro h
  subst h
  exact hk (by decide)

theorem assignEntry_set (d : Deck) (proto : Option DeckEntry) (key : String) (e : DeckEntry)
    (hk : key ≠ "__proto__") : assignEntry d proto key e = (JsObject.set d key e, proto) := by
  unfold assignEntry
  split_ifs <;> rfl

theorem assignEntry_own (d : Deck) (proto : Option DeckEntry) (key : String) (e old : DeckEntry)
    (h : JsObject.get d key = some old) :
    assignEntry d proto key e = (JsObject.set d key e, proto) := by
  simp [assignEntry, h]

/-- The effect of `addCardToDeck` on the deck, for a deck with the prototype
`Object.prototype` and a key that is not a name of `Object.prototype`. -/
theorem addCardToDeck_plain (env : Env) (s : State) (key : JsVal)
    (hproto : s.deckProto = none) (hk : key.toStr ∉ objectPrototypeNames) :
    ∃ s', addCardToDeck env s key = some s' ∧ s'.deckProto = none ∧
      s'.cardIndex = (resolveCard env s key.toStr).2 ∧
      (s'.deck = s.deck ∨
       ∃ card, (resolveCard env s key.toStr).1 = some card ∧
         JsNum.le 50 (deckCount s.deck) = false ∧
         JsNum.le (perCardLimit (some card)).toNum (currentCount s.deck key.toStr) = false ∧
         s'.deck = JsObject.set s.deck key.toStr
           { card := some card, count := (currentCount s.deck key.toStr).add 1 }) := by
  unfold addCardToDeck
  simp only []
  cases hres : (resolveCard env s key.toStr).1 with
  | none => exact ⟨_, rfl, hproto, rfl, Or.inl rfl⟩
  | some card =>
    simp only []
    cases hfull : JsNum.le 50 (deckCount s.deck) with
    | true => exact ⟨_, rfl, hproto, rfl, Or.inl rfl⟩
    | false =>
      simp only [hproto, currentCountOf_plain s.deck key.toStr hk, Bool.false_eq_true, if_false]
      cases hlim : JsNum.le (perCardLimit (some card)).toNum (currentCount s.deck key.toStr) with
      | true => exact ⟨_, rfl, rfl, rfl, Or.inl rfl⟩
      | false =>
        simp only [Bool.false_eq_true, if_false,
          assignEntry_set _ _ _ _ (not_proto_of_plain _ hk)]
        exact ⟨_, rfl, rfl, rfl, Or.inr ⟨card, rfl, trivial, hlim, rfl⟩⟩

theorem mem_JsMap_set {α : Type} (m : JsMap α) (k : String) (v : α) (p : String × α)
    (h : p ∈ JsMap.set m k v) : p ∈ m ∨ p = (k, v) := by
  unfold JsMap.set at h
  split_ifs at h
  · exact JsObject.mem_replace m k v p h
  · simpa using h

theorem fetchCard_plain (env : Env) (base key : String) (c : Card)
    (hf : ∀ url c, env.fetchJson url = some c → cardKey c ∉ objectPrototypeNames)
    (h : fetchCard env base key = some c) : cardKey c ∉ objectPrototypeNames := by
  unfold fetchCard at h
  cases hj : env.fetchJson (sanitizeBase base ++ "/card/" ++ env.encodeURIComponent key) with
  | none => simp [hj] at h
  | some c0 =>
    simp only [hj] at h
    split_ifs at h
    · cases h
      exact hf _ _ hj

/-- The card resolved by `addCardToDeck` has a numeric limit, and the cache
stays free of cards named after members of `Object.prototype`. -/
theorem resolveCard_plain (env : Env) (s : State) (key : String)
    (hproto : s.deckProto = none) (hk : key ∉ objectPrototypeNames)
    (hcards : ∀ p ∈ s.deck, ∃ m, perCardLimit p.2.card = JsLimit.num m)
    (hcat : PlainCatalog env s.cardIndex) :
    PlainCatalog env (resolveCard env s key).2 ∧
    ∀ card, (resolveCard env s key).1 = some card →
      ∃ m, perCardLimit (some card) = JsLimit.num m := by
  obtain ⟨hf, hidx⟩ := hcat
  unfold resolveCard
  simp only [hproto, deckCardOf_plain s.deck key hk]
  cases hc : JsMap.get s.cardIndex key with
  | some c =>
    simp only [Option.isNone_some, Bool.false_and, Bool.false_eq_true, if_false]
    refine ⟨⟨hf, hidx⟩, ?_⟩
    intro card h
    cases h
    exact perCardLimit_plain c (hidx _ (JsObject.mem_of_get _ _ _ hc))
  | none =>
    simp only []
    cases hd : (JsObject.get s.deck key).bind DeckEntry.card with
    | some c =>
      simp only [Option.isNone_some, Bool.false_and, Bool.false_eq_true, if_false]
      refine ⟨⟨hf, hidx⟩, ?_⟩
      intro card h
      cases h
      cases hg : JsObject.get s.deck key with
      | none => simp [hg] at hd
      | some e =>
        simp only [hg, Option.some_bind] at hd
        obtain ⟨m, hm⟩ := hcards _ (JsObject.mem_of_get _ _ _ hg)
        simp only [hd] at hm
        exact ⟨m, hm⟩
    | none =>
      simp only [Option.isNone_none, Bool.true_and, decide_eq_true_eq]
      split_ifs with hb
      · cases hfc : fetchCard env s.apiBase key with
        | none => exact ⟨⟨hf, hidx⟩, fun card h => by cases h⟩
        | some c =>
          have hp := fetchCard_plain env s.apiBase key c hf hfc
          refine ⟨⟨hf, ?_⟩, ?_⟩
          · intro p hp2
            rcases mem_JsMap_set _ _ _ _ hp2 with h | h
            · exact hidx p h
            · subst h
              exact hp
          · intro card h
            cases h
            exact perCardLimit_plain c hp
      · exact ⟨⟨hf, hidx⟩, fun card h => by cases h⟩

theorem currentCount_numeric (d : Deck) (key : String)
    (h : ∀ p ∈ d, ∃ n, p.2.count = JsNum.int n ∧ 1 ≤ n) :
    ∃ n, currentCount d key = JsNum.int n ∧ 0 ≤ n ∧
      ((JsObject.get d key).map (fun x => x.count.toInt)).getD 0 = n := by
  unfold currentCount
  cases hg : JsObject.get d key with
  | none => exact ⟨0, rfl, le_refl _, rfl⟩
  | some e =>
    obtain ⟨n, hn, h1⟩ := h _ (JsObject.mem_of_get d key e hg)
    have hn' : e.count = JsNum.int n := hn
    refine ⟨n, by simp [hn'], by omega, by simp [hn', JsNum.toInt]⟩

theorem deckInv_set (d : Deck) (key : String) (card : Option Card) (n m cur : Int)
    (hinv : DeckInv d) (hl : perCardLimit card = JsLimit.num m) (h1 : 1 ≤ n) (hnm : n ≤ m)
    (hcur : ((JsObject.get d key).map (fun x => x.count.toInt)).getD 0 = cur)
    (htot : deckTotal d - cur + n ≤ 50) :
    DeckInv (JsObject.set d key { card := card, count := JsNum.int n }) := by
  rw [deckInv_iff] at hinv ⊢
  obtain ⟨hn, hc, ht⟩ := hinv
  refine ⟨JsObject.nodup_set _ _ _ hn, ?_, ?_⟩
  · intro p hp
    rcases JsObject.mem_set _ _ _ _ hp with hp | hp
    · exact hc p hp
    · subst hp
      exact ⟨n, m, rfl, hl, h1, hnm⟩
  · rw [deckTotal_set, hcur]
    exact htot

theorem deckInv_add (env : Env) (s : State) (key : JsVal)
    (hproto : s.deckProto = none) (hk : key.toStr ∉ objectPrototypeNames)
    (hcat : PlainCatalog env s.cardIndex) (h : DeckInv s.deck) :
    ∃ s', addCardToDeck env s key = some s' ∧ s'.deckProto = none ∧
      PlainCatalog env s'.cardIndex ∧ DeckInv s'.deck := by
  have hinv := (deckInv_iff s.deck).mp h
  obtain ⟨hn, hc, ht⟩ := hinv
  have hres := resolveCard_plain env s key.toStr hproto hk
    (fun p hp => by
      obtain ⟨_, m, _, hm, _⟩ := hc p hp
      exact ⟨m, hm⟩) hcat
  obtain ⟨s', hs', hp', hidx, hdeck⟩ := addCardToDeck_plain env s key hproto hk
  refine ⟨s', hs', hp', by rw [hidx]; exact hres.1, ?_⟩
  rcases hdeck with hdeck | ⟨card, hcard, hfull, hlim, hdeck⟩
  · rw [hdeck]
    exact h
  · rw [hdeck]
    obtain ⟨m, hm⟩ := hres.2 card hcard
    obtain ⟨cur, hcur, hcur0, hget⟩ := currentCount_numeric s.deck key.toStr
      (fun p hp => by
        obtain ⟨n, _, h1, _, h2, _⟩ := hc p hp
        exact ⟨n, h1, h2⟩)
    obtain ⟨_, hcount, _⟩ := deckCount_le_fifty s.deck h.2.2
    rw [hcount, JsNum.fifty_eq, JsNum.le_int_int, decide_eq_false_iff_not] at hfull
    rw [hm, hcur] at hlim
    simp only [JsLimit.toNum, JsNum.le_int_int, decide_eq_false_iff_not] at hlim
    rw [hcur, JsNum.one_eq, JsNum.add_int_int]
    exact deckInv_set s.deck key.toStr (some card) (cur + 1) m cur h hm (by omega) (by omega)
      hget (by omega)

theorem deckInv_change (s : State) (key : JsVal) (delta : Int) (hd : delta ≤ 0)
    (hproto : s.deckProto = none) (hk : key.toStr ∉ objectPrototypeNames)
    (h : DeckInv s.deck) :
    ∃ s', changeDeckCount s key delta = some s' ∧ s'.deckProto = none ∧
      s'.cardIndex = s.cardIndex ∧ DeckInv s'.deck := by
  have hinv := (deckInv_iff s.deck).mp h
  obtain ⟨hn, hc, ht⟩ := hinv
  unfold changeDeckCount
  simp only [hproto, readDeck_plain s.deck key.toStr hk]
  cases hg : JsObject.get s.deck key.toStr with
  | none => exact ⟨s, rfl, hproto, rfl, h⟩
  | some entry =>
    obtain ⟨n, m, hcount, hm, h1, hnm⟩ := hc _ (JsObject.mem_of_get _ _ _ hg)
    have hcount' : entry.count = JsNum.int n := hcount
    have hm' : perCardLimit entry.card = JsLimit.num m := hm
    simp only [hcount', JsNum.add_int_int, JsNum.zero_eq, JsNum.le_int_int, decide_eq_true_eq]
    have hget : ((JsObject.get s.deck key.toStr).map (fun x => x.count.toInt)).getD 0 = n := by
      simp [hg, hcount', JsNum.toInt]
    split_ifs with hz
    · refine ⟨_, rfl, rfl, rfl, ?_⟩
      rw [deckInv_iff]
      refine ⟨JsObject.nodup_delete _ _ hn, ?_, ?_⟩
      · intro p hp
        exact hc p (JsObject.mem_delete _ _ _ hp).1
      · show deckTotal (JsObject.delete s.deck key.toStr) ≤ 50
        rw [deckTotal_delete _ _ hn, hget]
        omega
    · refine ⟨_, rfl, rfl, rfl, ?_⟩
      exact deckInv_set s.deck key.toStr entry.card (n + delta) m n h hm' (by omega) (by omega)
        hget (by omega)

theorem deckInv_applyOp (env : Env) (s : State) (op : DeckOp) (hg : op.guarded)
    (hproto : s.deckProto = none) (hcat : PlainCatalog env s.cardIndex) (h : DeckInv s.deck) :
    ∃ s', applyOp env s op = some s' ∧ s'.deckProto = none ∧
      PlainCatalog env s'.cardIndex ∧ DeckInv s'.deck := by
  cases op with
  | add key => exact deckInv_add env s key hproto hg hcat h
  | change key delta =>
    obtain ⟨s', h1, h2, h3, h4⟩ := deckInv_change s key delta hg.1 hproto hg.2 h
    exact ⟨s', h1, h2, by rw [h3]; exact hcat, h4⟩

theorem deckInv_runOps (env : Env) (ops : List DeckOp) (s : State)
    (hg : ∀ op ∈ ops, op.guarded) (hproto : s.deckProto = none)
    (hcat : PlainCatalog env s.cardIndex) (h : DeckInv s.deck) :
    ∃ s', runOps env s ops = some s' ∧ s'.deckProto = none ∧ DeckInv s'.deck := by
  induction ops generalizing s with
  | nil => exact ⟨s, rfl, hproto, h⟩
  | cons op rest ih =>
    obtain ⟨s1, h1, h2, h3, h4⟩ :=
      deckInv_applyOp env s op (hg op (List.mem_cons_self _ _)) hproto hcat h
    simp only [runOps, h1]
    exact ih s1 (fun o ho => hg o (List.mem_cons_of_mem _ ho)) h2 h3 h4

/-- The rejection of `addCardToDeck` for an own entry at its per-card limit. -/
theorem addCardToDeck_at_limit (env : Env) (s : State) (key : JsVal) (card : Card)
    (entry : DeckEntry)
    (hres : (resolveCard env s key.toStr).1 = some card)
    (hent : JsObject.get s.deck key.toStr = some entry)
    (hlim : JsNum.le (perCardLimit (some card)).toNum entry.count = true) :
    ∃ s' m, addCardToDeck env s key = some s' ∧ perCardLimit (some card) = JsLimit.num m ∧
      s'.deck = s.deck ∧ s'.deckProto = s.deckProto ∧
      deckCount s'.deck = deckCount s.deck ∧
      (JsNum.le 50 (deckCount s.deck) = false → s'.status =
        { message := "You can only run " ++ toString m ++ " copies of this card.",
          tone := "warn" }) ∧
      (JsNum.le 50 (deckCount s.deck) = true → s'.status =
        { message := "Deck is full (50 card limit). Remove a card first.", tone := "warn" }) := by
  obtain ⟨x, y, hx, hy, hxy⟩ := (JsNum.le_iff _ _).mp hlim
  obtain ⟨hm, _⟩ := perCardLimit_toNum (some card) x hx
  unfold addCardToDeck
  simp only [hres]
  cases hfull : JsNum.le 50 (deckCount s.deck) with
  | true =>
    refine ⟨_, x, rfl, hm, rfl, rfl, rfl, fun h => (by cases h), fun _ => rfl⟩
  | false =>
    simp only [Bool.false_eq_true, if_false,
      currentCountOf_own s.deck s.deckProto key.toStr entry hent, hlim, if_true]
    refine ⟨_, x, rfl, hm, rfl, rfl, rfl, fun _ => ?_, fun h => (by cases h)⟩
    simp only [updateStatus, hm, JsLimit.toStr]


/-- C1, as stated, fails: from the empty deck, one `addCardToDeck` followed by
`changeDeckCount` with `delta = 100` leaves a single entry of 101 copies, above
the total cap of 50 and above the per-card limit 4 of its card. -/
theorem change_positive_delta_breaks_invariants :
    DeckInv scenarioStart.deck ∧ scenarioStart.deckProto = none ∧
    (runOps offline scenarioStart
      [DeckOp.add (JsVal.str "BP01-001"), DeckOp.change (JsVal.str "BP01-001") 100]).map
        State.deck
      = some [("BP01-001", { card := some cardB, count := 101 })] ∧
    JsNum.le (deckCount [("BP01-001", { card := some cardB, count := 101 })]) 50 = false ∧
    JsNum.le 101 (perCardLimit (some cardB)).toNum = false ∧
    ¬ DeckInv [("BP01-001", { card := some cardB, count := 101 })] :=
  ⟨deckInv_nil, rfl, (by decide), (by decide), (by decide), fun h => absurd h.2.2 (by decide)⟩

/-- C1 (amended): from a deck with the prototype `Object.prototype` that
satisfies the deck invariants, with a catalog free of cards named after a
member of `Object.prototype`, every finite sequence of `addCardToDeck(key)` and
`changeDeckCount(key, delta)` calls with `delta ≤ 0` and keys that are not
names of `Object.prototype` runs to the end, and the deck satisfies the
invariants after each call (after every initial part of the sequence): keys
unique, every count between 1 and the per-card limit of the entry card, total
at most 50. -/
theorem deck_invariants_preserved (env : Env) (s : State) (ops : List DeckOp)
    (hinv : DeckInv s.deck) (hproto : s.deckProto = none)
    (hcat : PlainCatalog env s.cardIndex) (hops : ∀ op ∈ ops, op.guarded) :
    ∀ n : Nat, ∃ s', runOps env s (ops.take n) = some s' ∧ s'.deckProto = none ∧
      DeckInv s'.deck := by
  intro n
  exact deckInv_runOps env (ops.take n) s (fun op h => hops op (List.mem_of_mem_take h))
    hproto hcat hinv

theorem deck_invariants_preserved_witness :
    DeckInv scenarioStart.deck ∧ PlainCatalog offline scenarioStart.cardIndex ∧
    (∀ op ∈ sampleOps, op.guarded) ∧
    ∀ n : Nat, ∃ s', runOps offline scenarioStart (sampleOps.take n) = some s' ∧
      s'.deckProto = none ∧ DeckInv s'.deck :=
  have hcat : PlainCatalog offline scenarioStart.cardIndex :=
    ⟨fun _ _ h => (by cases h), (by decide)⟩
  have hops : ∀ op ∈ sampleOps, op.guarded := by
    intro op hop
    simp only [sampleOps, List.mem_cons, List.mem_singleton, List.not_mem_nil, or_false] at hop
    rcases hop with rfl | rfl | rfl | rfl | rfl <;> simp only [DeckOp.guarded] <;> decide
  ⟨deckInv_nil, hcat, hops,
   deck_invariants_preserved offline scenarioStart sampleOps deckInv_nil rfl hcat hops⟩

/-- C9, as stated, fails: with fifty copies of `PR-036` (its per-card limit) the
entry is at its limit, the deck is unchanged, but the status reported is the
deck-full warning, not the per-card-limit warning. -/
theorem add_at_limit_in_full_deck_reports_deck_full :
    (resolveCard offline fullState "PR-036").1 = some cardA ∧
    JsObject.get fullState.deck "PR-036" = some { card := some cardA, count := 50 } ∧
    JsNum.le (perCardLimit (some cardA)).toNum 50 = true ∧
    (addCardToDeck offline fullState (JsVal.str "PR-036")).map State.deck
      = some fullState.deck ∧
    (addCardToDeck offline fullState (JsVal.str "PR-036")).map State.status =
      some { message := "Deck is full (50 card limit). Remove a card first.", tone := "warn" } ∧
    (addCardToDeck offline fullState (JsVal.str "PR-036")).map State.status ≠
      some { message := "You can only run 50 copies of this card.", tone := "warn" } := by
  decide

/-- C9 (amended): when the card resolved for `key` has an own entry whose count
is at least `perCardLimit(card)` (as the program tests it, so the limit is a
number), `addCardToDeck(key)` returns and leaves the whole deck and its total
unchanged; the status is the per-card-limit warning naming that limit when the
test `total >= 50` fails, and the deck-full warning when it succeeds. -/
theorem add_at_card_limit (env : Env) (s : State) (key : JsVal) (card : Card)
    (entry : DeckEntry)
    (hres : (resolveCard env s key.toStr).1 = some card)
    (hent : JsObject.get s.deck key.toStr = some entry)
    (hlim : JsNum.le (perCardLimit (some card)).toNum entry.count = true) :
    ∃ s' m, addCardToDeck env s key = some s' ∧ perCardLimit (some card) = JsLimit.num m ∧
      s'.deck = s.deck ∧ s'.deckProto = s.deckProto ∧
      deckCount s'.deck = deckCount s.deck ∧
      (JsNum.le 50 (deckCount s.deck) = false → s'.status =
        { message := "You can only run " ++ toString m ++ " copies of this card.",
          tone := "warn" }) ∧
      (JsNum.le 50 (deckCount s.deck) = true → s'.status =
        { message := "Deck is full (50 card limit). Remove a card first.", tone := "warn" }) :=
  addCardToDeck_at_limit env s key card entry hres hent hlim

theorem add_at_card_limit_witness :
    (resolveCard offline limitState "BP01-001").1 = some cardB ∧
    JsObject.get limitState.deck "BP01-001" = some { card := some cardB, count := 4 } ∧
    ∃ s' m, addCardToDeck offline limitState (JsVal.str "BP01-001") = some s' ∧
      perCardLimit (some cardB) = JsLimit.num m ∧ s'.deck = limitState.deck ∧
      (JsNum.le 50 (deckCount limitState.deck) = false → s'.status =
        { message := "You can only run " ++ toString m ++ " copies of this card.",
          tone := "warn" }) :=
  have h := add_at_card_limit offline limitState (JsVal.str "BP01-001") cardB
    { card := some cardB, count := 4 } (by decide) (by decide) (by decide)
  ⟨by decide, by decide, h.imp (fun _ h1 => h1.imp (fun _ h2 =>
    ⟨h2.1, h2.2.1, h2.2.2.1, h2.2.2.2.2.2.1⟩))⟩

/-- C10: when the test `total >= 50` succeeds on the deck, `addCardToDeck(key)`
returns and leaves the deck unchanged for every key (whatever the per-card
limit of its card, and whether or not the key is in the deck), and reports a
warning. -/
theorem add_to_full_deck_unchanged (env : Env) (s : State) (key : JsVal)
    (hfull : JsNum.le 50 (deckCount s.deck) = true) :
    ∃ s', addCardToDeck env s key = some s' ∧ s'.deck = s.deck ∧
      s'.deckProto = s.deckProto ∧ s'.status.tone = "warn" := by
  unfold addCardToDeck
  simp only []
  cases (resolveCard env s key.toStr).1 with
  | none => exact ⟨_, rfl, rfl, rfl, rfl⟩
  | some card =>
    simp only [hfull, if_true]
    exact ⟨_, rfl, rfl, rfl, rfl⟩

theorem add_to_full_deck_unchanged_witness :
    JsNum.le 50 (deckCount fullState.deck) = true ∧
    (∃ s', addCardToDeck offline fullState (JsVal.str "BP01-001") = some s' ∧
      s'.deck = fullState.deck ∧ s'.deckProto = fullState.deckProto ∧
      s'.status.tone = "warn") ∧
    (addCardToDeck offline fullState (JsVal.str "PR-036")).map State.deck
      = some fullState.deck :=
  ⟨by decide, add_to_full_deck_unchanged offline fullState (JsVal.str "BP01-001") (by decide),
   by decide⟩

/-- C11 fails on the code: the cache holds a card `T` (per-card limit 4) under
the key `toString`, the deck is empty and the total is 0, so the key is absent
with current count 0; `addCardToDeck("toString")` reads the inherited function
`Object.prototype.toString` as the current entry, stores the count `NaN`
instead of 1, the total becomes `NaN` instead of 1, and the status reports
`NaN/4`. -/
theorem add_inherited_name_stores_nan :
    (resolveCard offline toStringState "toString").1 = some cardT ∧
    perCardLimit (some cardT) = JsLimit.num 4 ∧
    JsObject.get toStringState.deck "toString" = none ∧
    deckCount toStringState.deck = 0 ∧
    (addCardToDeck offline toStringState (JsVal.str "toString")).map State.deck
      = some [("toString", { card := some cardT, count := JsNum.nan })] ∧
    (addCardToDeck offline toStringState (JsVal.str "toString")).map
        (fun s => deckCount s.deck) = some JsNum.nan ∧
    (addCardToDeck offline toStringState (JsVal.str "toString")).map State.status
      = some { message := "Added T (NaN/4).", tone := "info" } := by
  decide

theorem keys_delete_length {α : Type} (o : JsObject α) (k : String) (v : α)
    (hn : o.keys.Nodup) (h : JsObject.get o k = some v) :
    (JsObject.delete o k).keys.length + 1 = o.keys.length := by
  induction o with
  | nil => simp [JsObject.get] at h
  | cons q rest ih =>
    obtain ⟨k0, v0⟩ := q
    simp only [JsObject.keys, List.map_cons, List.nodup_cons] at hn
    by_cases h0 : k0 = k
    · subst h0
      have h1 : JsObject.delete ((k0, v0) :: rest) k0 = JsObject.delete rest k0 := by
        simp [JsObject.delete]
      rw [h1, JsObject.delete_absent rest k0 hn.1]
      simp [JsObject.keys]
    · have h1 : JsObject.delete ((k0, v0) :: rest) k = (k0, v0) :: JsObject.delete rest k := by
        simp [JsObject.delete, h0]
      simp only [JsObject.get, h0, if_false] at h
      have := ih hn.2 h
      rw [h1]
      simp only [JsObject.keys, List.map_cons, List.length_cons] at this ⊢
      omega

theorem deckCount_nan_of_not_numeric (d : Deck) (h : ¬ NumericDeck d) :
    deckCount d = JsNum.nan := by
  cases hc : deckCount d with
  | int t => exact absurd (deckCount_int d t hc).1 h
  | nan => rfl

/-- C12: for a deck (unique property names) and a key present in it with the
numeric count `c`, `changeDeckCount(key, -c)` returns and removes the key: the
key is absent afterwards, the number of keys has dropped by one and the total
by exactly `c`. -/
theorem change_by_full_count_removes (s : State) (key : JsVal) (entry : DeckEntry) (c : Int)
    (hn : s.deck.keys.Nodup)
    (hent : JsObject.get s.deck key.toStr = some entry)
    (hc : entry.count = JsNum.int c) :
    ∃ s', changeDeckCount s key (-c) = some s' ∧
      JsObject.get s'.deck key.toStr = none ∧
      s'.deck.keys.length + 1 = s.deck.keys.length ∧
      deckCount s'.deck = (deckCount s.deck).sub (JsNum.int c) ∧
      deckTotal s'.deck = deckTotal s.deck - c ∧
      s'.deckProto = s.deckProto := by
  have hrun : changeDeckCount s key (-c)
      = some { s with deck := JsObject.delete s.deck key.toStr } := by
    unfold changeDeckCount
    simp [readDeck_own s.deck s.deckProto key.toStr entry hent, hc, JsNum.add_int_int,
      JsNum.zero_eq, JsNum.le_int_int]
  have htot : deckTotal (JsObject.delete s.deck key.toStr) = deckTotal s.deck - c := by
    rw [deckTotal_delete _ _ hn, hent]
    simp [hc, JsNum.toInt]
  refine ⟨_, hrun, ?_, keys_delete_length s.deck key.toStr entry hn hent, ?_, htot, rfl⟩
  · show JsObject.get (JsObject.delete s.deck key.toStr) key.toStr = none
    rw [JsObject.get_delete]
    simp
  · show deckCount (JsObject.delete s.deck key.toStr) = _
    by_cases hnum : NumericDeck s.deck
    · rw [deckCount_of_numeric _ (numeric_delete _ _ hnum), deckCount_of_numeric _ hnum, htot]
      rfl
    · rw [deckCount_nan_of_not_numeric _ hnum]
      have hnot : ¬ NumericDeck (JsObject.delete s.deck key.toStr) := by
        intro hd
        apply hnum
        intro p hp
        by_cases hk : p.1 = key.toStr
        · have hget := JsObject.get_of_mem s.deck p.1 p.2 hn hp
          rw [hk, hent] at hget
          cases hget
          exact ⟨c, hc⟩
        · exact hd p (by
            unfold JsObject.delete
            simp [hp, hk])
      rw [deckCount_nan_of_not_numeric _ hnot]
      rfl

/-- C12 at the removal of the four copies of `cardB`. -/
theorem change_by_full_count_removes_witness :
    JsObject.get limitState.deck "BP01-001" = some { card := some cardB, count := 4 } ∧
    ∃ s', changeDeckCount limitState (JsVal.str "BP01-001") (-4) = some s' ∧
      JsObject.get s'.deck "BP01-001" = none ∧
      s'.deck.keys.length + 1 = limitState.deck.keys.length ∧
      deckCount s'.deck = (deckCount limitState.deck).sub (JsNum.int 4) :=
  have h := change_by_full_count_removes limitState (JsVal.str "BP01-001")
    { card := some cardB, count := 4 } 4 (by decide) (by decide) rfl
  ⟨by decide, h.imp (fun _ h1 => ⟨h1.1, h1.2.1, h1.2.2.1, h1.2.2.2.1⟩)⟩

/-- C13 fails on the code: the key `constructor` is absent from the empty deck,
yet `changeDeckCount("constructor", -1)` does not leave the deck unchanged: it
reads the inherited function `Object.prototype.constructor` as the entry and
stores it under a new own key, without card and with the count `NaN`. -/
theorem change_absent_inherited_name_adds_entry :
    JsObject.get scenarioStart.deck "constructor" = none ∧
    scenarioStart.deck = [] ∧
    (changeDeckCount scenarioStart (JsVal.str "constructor") (-1)).map State.deck
      = some [("constructor", { card := none, count := JsNum.nan })] ∧
    (changeDeckCount scenarioStart (JsVal.str "constructor") (-1)).map State.deck
      ≠ some scenarioStart.deck := by
  decide

/-! ## The live mutators away from the defect of the deck lookup -/

/-- Away from the defect of the deck lookup a successful add increments one
entry by one: for a deck object with the prototype
`Object.prototype` and a key that is not a name of `Object.prototype`, when a
card with a numeric limit `m` is resolved, the total `t` is below 50 and the
current count `c` of the key (0 if absent) is below `m`, the call returns; the
entry for the key is the resolved card with count `c + 1`, every other key
reads as before, the total is `t + 1`, and the status reports `c + 1` and
`m`. -/
theorem add_success_of_plain (env : Env) (s : State) (key : JsVal) (card : Card) (t c m : Int)
    (hproto : s.deckProto = none) (hk : key.toStr ∉ objectPrototypeNames)
    (hres : (resolveCard env s key.toStr).1 = some card)
    (ht : deckCount s.deck = JsNum.int t) (htot : t < 50)
    (hc : currentCount s.deck key.toStr = JsNum.int c)
    (hm : perCardLimit (some card) = JsLimit.num m) (hlim : c < m) :
    ∃ s', addCardToDeck env s key = some s' ∧
      JsObject.get s'.deck key.toStr = some { card := some card, count := JsNum.int (c + 1) } ∧
      (∀ k, k ≠ key.toStr → JsObject.get s'.deck k = JsObject.get s.deck k) ∧
      deckCount s'.deck = JsNum.int (t + 1) ∧
      s'.deckProto = none ∧
      s'.status =
        { message := "Added " ++ (card.field "name").toStr ++ " (" ++ toString (c + 1) ++ "/"
            ++ toString m ++ ").",
          tone := "info" } := by
  have hfull : JsNum.le 50 (deckCount s.deck) = false := by
    rw [ht, JsNum.fifty_eq, JsNum.le_int_int, decide_eq_false_iff_not]
    omega
  have hl2 : JsNum.le (JsLimit.num m).toNum (JsNum.int c) = false := by
    simp only [JsLimit.toNum, JsNum.le_int_int, decide_eq_false_iff_not]
    omega
  have hrun : addCardToDeck env s key = some (updateStatus
      { s with deck := JsObject.set s.deck key.toStr
                 { card := some card, count := JsNum.int (c + 1) },
               cardIndex := (resolveCard env s key.toStr).2 }
      ("Added " ++ (card.field "name").toStr ++ " (" ++ toString (c + 1) ++ "/"
        ++ toString m ++ ").") "info") := by
    unfold addCardToDeck
    simp only [hres, hfull, hproto, currentCountOf_plain s.deck key.toStr hk, hc, hm, hl2,
      Bool.false_eq_true, if_false, assignEntry_set _ _ _ _ (not_proto_of_plain _ hk),
      JsNum.one_eq, JsNum.add_int_int, JsLimit.toStr, JsNum.toStr]
  obtain ⟨hnum, htotal⟩ := deckCount_int s.deck t ht
  refine ⟨_, hrun, ?_, ?_, ?_, hproto, rfl⟩
  · show JsObject.get (JsObject.set s.deck key.toStr _) key.toStr = _
    rw [JsObject.get_set]
    simp
  · intro k hk2
    show JsObject.get (JsObject.set s.deck key.toStr _) k = _
    rw [JsObject.get_set]
    simp [hk2]
  · show deckCount (JsObject.set s.deck key.toStr _) = _
    rw [deckCount_of_numeric _ (numeric_set _ _ _ (c + 1) rfl hnum), deckTotal_set]
    have hcur : ((JsObject.get s.deck key.toStr).map (fun x => x.count.toInt)).getD 0 = c := by
      unfold currentCount at hc
      cases hg : JsObject.get s.deck key.toStr with
      | none =>
        rw [hg] at hc
        simp only [Option.map_none', Option.getD_none, JsNum.zero_eq, JsNum.int.injEq] at hc
        simp [hc]
      | some e =>
        rw [hg] at hc
        simp only [Option.map_some', Option.getD_some] at hc
        simp [hc, JsNum.toInt]
    rw [hcur, htotal]
    simp only [JsNum.toInt]
    congr 1
    omega

theorem add_success_of_plain_witness :
    (resolveCard offline scenarioStart "BP01-001").1 = some cardB ∧
    ∃ s', addCardToDeck offline scenarioStart (JsVal.str "BP01-001") = some s' ∧
      JsObject.get s'.deck "BP01-001" = some { card := some cardB, count := JsNum.int 1 } ∧
      deckCount s'.deck = JsNum.int 1 :=
  have h := add_success_of_plain offline scenarioStart (JsVal.str "BP01-001") cardB 0 0 4
    rfl (by decide) (by decide) (by decide) (by decide) (by decide) (by decide) (by decide)
  ⟨by decide, h.imp (fun _ h1 => ⟨h1.1, h1.2.1, h1.2.2.2.1⟩)⟩

/-- Away from the defect of the deck lookup `changeDeckCount` touches only the
named entry: for a deck object with the prototype
`Object.prototype` and a key that is not a name of `Object.prototype`, the call
returns; an absent key leaves the deck as it is; a key present with the numeric
count `c` is absent afterwards when `c + delta ≤ 0` and otherwise maps to the
same card with count `c + delta`; every other key reads as before. -/
theorem change_touches_only_named_entry_of_plain (s : State) (key : JsVal) (delta : Int)
    (hproto : s.deckProto = none) (hk : key.toStr ∉ objectPrototypeNames) :
    ∃ s', changeDeckCount s key delta = some s' ∧ s'.deckProto = none ∧
      (JsObject.get s.deck key.toStr = none → s'.deck = s.deck) ∧
      (∀ entry c, JsObject.get s.deck key.toStr = some entry → entry.count = JsNum.int c →
        (c + delta ≤ 0 → JsObject.get s'.deck key.toStr = none) ∧
        (0 < c + delta → JsObject.get s'.deck key.toStr
          = some { card := entry.card, count := JsNum.int (c + delta) })) ∧
      (∀ k, k ≠ key.toStr → JsObject.get s'.deck k = JsObject.get s.deck k) := by
  unfold changeDeckCount
  simp only [hproto, readDeck_plain s.deck key.toStr hk]
  cases hg : JsObject.get s.deck key.toStr with
  | none =>
    exact ⟨s, rfl, hproto, fun _ => rfl, fun entry c h => (by cases h), fun _ _ => rfl⟩
  | some entry =>
    simp only []
    split_ifs with hz
    · refine ⟨_, rfl, rfl, fun h => (by cases h), ?_, ?_⟩
      · intro e c he hc
        cases he
        refine ⟨fun _ => ?_, fun hpos => ?_⟩
        · show JsObject.get (JsObject.delete s.deck key.toStr) key.toStr = none
          rw [JsObject.get_delete]
          simp
        · rw [hc, JsNum.add_int_int, JsNum.zero_eq, JsNum.le_int_int, decide_eq_true_eq] at hz
          omega
      · intro k hk2
        show JsObject.get (JsObject.delete s.deck key.toStr) k = _
        rw [JsObject.get_delete]
        simp [hk2]
    · refine ⟨_, rfl, rfl, fun h => (by cases h), ?_, ?_⟩
      · intro e c he hc
        cases he
        refine ⟨fun hneg => ?_, fun _ => ?_⟩
        · rw [hc, JsNum.add_int_int, JsNum.zero_eq, JsNum.le_int_int, decide_eq_true_eq] at hz
          omega
        · show JsObject.get (JsObject.set s.deck key.toStr _) key.toStr = _
          rw [JsObject.get_set, hc, JsNum.add_int_int]
          simp
      · intro k hk2
        show JsObject.get (JsObject.set s.deck key.toStr _) k = _
        rw [JsObject.get_set]
        simp [hk2]

theorem change_touches_only_named_entry_of_plain_witness :
    ∃ s', changeDeckCount limitState (JsVal.str "PR-036") (-1) = some s' ∧
      (JsObject.get limitState.deck "PR-036" = none → s'.deck = limitState.deck) :=
  (change_touches_only_named_entry_of_plain limitState (JsVal.str "PR-036") (-1) rfl
    (by decide)).imp (fun _ h => ⟨h.1, h.2.2.1⟩)

/-! ## The concrete scenario, the limits and the card key -/

theorem resolveCard_cached (env : Env) (s : State) (key : String) (c : Card)
    (h : JsMap.get s.cardIndex key = some c) : resolveCard env s key = (some c, s.cardIndex) := by
  simp [resolveCard, h]

theorem addCardToDeck_cached (env env' : Env) (s s' : State) (key : JsVal) (c : Card) (m : Int)
    (h : JsMap.get s.cardIndex key.toStr = some c) (hm : perCardLimit (some c) = JsLimit.num m)
    (ha : Agree s s') :
    AgreeResult (addCardToDeck env s key) (addCardToDeck env' s' key) ∧
    ∀ s1, addCardToDeck env s key = some s1 → s1.cardIndex = s.cardIndex := by
  obtain ⟨hd, hp, hc, hs⟩ := ha
  have h' : JsMap.get s'.cardIndex key.toStr = some c := by rw [← hc]; exact h
  unfold addCardToDeck
  simp only [resolveCard_cached env s key.toStr c h, resolveCard_cached env' s' key.toStr c h',
    ← hd, ← hc, ← hp, hm, JsLimit.toStr]
  cases JsNum.le 50 (deckCount s.deck) with
  | true =>
    simp only [if_true]
    exact ⟨Or.inr ⟨_, _, rfl, rfl, rfl, rfl, rfl, rfl⟩, fun s1 h1 => by cases h1; rfl⟩
  | false =>
    simp only [Bool.false_eq_true, if_false]
    cases currentCountOf s.deck s.deckProto key.toStr with
    | none => exact ⟨Or.inl ⟨rfl, rfl⟩, fun s1 h1 => by cases h1⟩
    | some current =>
      simp only []
      cases JsNum.le (JsLimit.num m).toNum current with
      | true =>
        simp only [if_true]
        exact ⟨Or.inr ⟨_, _, rfl, rfl, rfl, rfl, rfl, rfl⟩, fun s1 h1 => by cases h1; rfl⟩
      | false =>
        simp only [Bool.false_eq_true, if_false]
        exact ⟨Or.inr ⟨_, _, rfl, rfl, rfl, rfl, rfl, rfl⟩, fun s1 h1 => by cases h1; rfl⟩

theorem changeDeckCount_agree (s s' : State) (key : JsVal) (delta : Int) (ha : Agree s s') :
    AgreeResult (changeDeckCount s key delta) (changeDeckCount s' key delta) ∧
    ∀ s1, changeDeckCount s key delta = some s1 → s1.cardIndex = s.cardIndex := by
  obtain ⟨hd, hp, hc, hs⟩ := ha
  unfold changeDeckCount
  simp only [← hd, ← hp]
  cases readDeck s.deck s.deckProto key.toStr with
  | missing => exact ⟨Or.inr ⟨_, _, rfl, rfl, hd, hp, hc, hs⟩, fun s1 h1 => by cases h1; rfl⟩
  | own entry =>
    simp only []
    split_ifs
    · exact ⟨Or.inr ⟨_, _, rfl, rfl, rfl, rfl, hc, hs⟩, fun s1 h1 => by cases h1; rfl⟩
    · exact ⟨Or.inr ⟨_, _, rfl, rfl, rfl, rfl, hc, hs⟩, fun s1 h1 => by cases h1; rfl⟩
  | hidden p => exact ⟨Or.inr ⟨_, _, rfl, rfl, rfl, rfl, hc, hs⟩, fun s1 h1 => by cases h1; rfl⟩
  | builtin =>
    simp only []
    split_ifs
    · exact ⟨Or.inr ⟨_, _, rfl, rfl, hd, hp, hc, hs⟩, fun s1 h1 => by cases h1; rfl⟩
    · exact ⟨Or.inr ⟨_, _, rfl, rfl, rfl, rfl, hc, hs⟩, fun s1 h1 => by cases h1; rfl⟩
  | shadow p => exact ⟨Or.inl ⟨rfl, rfl⟩, fun s1 h1 => by cases h1⟩

theorem runOps_cached (env env' : Env) (ops : List DeckOp) (s s' : State)
    (hops : ∀ op ∈ ops, op.cachedIn s.cardIndex) (ha : Agree s s') :
    AgreeResult (runOps env s ops) (runOps env' s' ops) := by
  induction ops generalizing s s' with
  | nil => exact Or.inr ⟨s, s', rfl, rfl, ha⟩
  | cons op rest ih =>
    have hstep : AgreeResult (applyOp env s op) (applyOp env' s' op) ∧
        ∀ s1, applyOp env s op = some s1 → s1.cardIndex = s.cardIndex := by
      cases op with
      | add key =>
        obtain ⟨c, m, hc, hm⟩ := hops _ (List.mem_cons_self _ _)
        exact addCardToDeck_cached env env' s s' key c m hc hm ha
      | change key delta => exact changeDeckCount_agree s s' key delta ha
    rcases hstep.1 with ⟨h1, h2⟩ | ⟨s1, s2, h1, h2, hagree⟩
    · simp only [runOps, h1, h2]
      exact Or.inl ⟨rfl, rfl⟩
    · simp only [runOps, h1, h2]
      refine ih s1 s2 ?_ hagree
      intro o ho
      rw [hstep.2 s1 h1]
      exact hops o (List.mem_cons_of_mem _ ho)

theorem agreeResult_some (r : Option State) (s' : State) (h : AgreeResult r (some s')) :
    ∃ s, r = some s ∧ Agree s s' := by
  rcases h with ⟨_, h2⟩ | ⟨s1, s2, h1, h2, ha⟩
  · cases h2
  · cases h2
    exact ⟨s1, h1, ha⟩

theorem scenario_offline_runs : (runOps offline scenarioStart scenarioOps).isSome = true := by
  decide

theorem scenario_offline_deck :
    (runOps offline scenarioStart scenarioOps).map State.deck = some
      [("PR-036", { card := some cardA, count := 5 }),
       ("BP01-001", { card := some cardB, count := 4 })] := by
  decide

theorem scenario_offline_proto :
    (runOps offline scenarioStart scenarioOps).map State.deckProto = some none := by
  decide

theorem scenario_offline_cache :
    (runOps offline scenarioStart scenarioOps).map State.cardIndex
      = some scenarioStart.cardIndex := by
  decide

/-- C14: from the empty deck with the cache holding card A (`PR-036`) and card
B (`BP01-001`), for every API base and catalog, five `addCardToDeck("PR-036")`
then five `addCardToDeck("BP01-001")` run to the end and yield the deck
`{PR-036: 5, BP01-001: 4}` with total 9, and one more
`addCardToDeck("BP01-001")` is rejected with the per-card warning and leaves
that deck unchanged. -/
theorem scenario_five_and_four (env : Env) (base : String) :
    ∃ s, runOps env (scenarioAt base) scenarioOps = some s ∧
      s.deck = [("PR-036", { card := some cardA, count := 5 }),
                ("BP01-001", { card := some cardB, count := 4 })] ∧
      s.deckProto = none ∧
      deckCount s.deck = 9 ∧
      ∃ s', addCardToDeck env s (JsVal.str "BP01-001") = some s' ∧
        s'.deck = s.deck ∧
        s'.status = { message := "You can only run 4 copies of this card.", tone := "warn" } := by
  have hops : ∀ op ∈ scenarioOps, op.cachedIn (scenarioAt base).cardIndex := by
    intro op hop
    simp only [scenarioOps, List.mem_append, List.mem_replicate] at hop
    rcases hop with ⟨_, rfl⟩ | ⟨_, rfl⟩
    · exact ⟨cardA, 50, (by decide : JsMap.get scenarioStart.cardIndex "PR-036" = some cardA),
        (by decide : perCardLimit (some cardA) = JsLimit.num 50)⟩
    · exact ⟨cardB, 4, (by decide : JsMap.get scenarioStart.cardIndex "BP01-001" = some cardB),
        (by decide : perCardLimit (some cardB) = JsLimit.num 4)⟩
  have hstart : Agree (scenarioAt base) scenarioStart := ⟨rfl, rfl, rfl, rfl⟩
  have h10 := runOps_cached env offline scenarioOps _ _ hops hstart
  obtain ⟨S0, hS0⟩ : ∃ S0, runOps offline scenarioStart scenarioOps = some S0 :=
    Option.isSome_iff_exists.mp scenario_offline_runs
  have hdeck0 := scenario_offline_deck
  have hproto0 := scenario_offline_proto
  have hidx0 := scenario_offline_cache
  rw [hS0] at h10 hdeck0 hproto0 hidx0
  simp only [Option.map_some', Option.some.injEq] at hdeck0 hproto0 hidx0
  obtain ⟨S, hS, hd, hp, hc, _⟩ := agreeResult_some _ _ h10
  rw [hdeck0] at hd
  rw [hproto0] at hp
  rw [hidx0] at hc
  have hres : (resolveCard env S (JsVal.str "BP01-001").toStr).1 = some cardB := by
    rw [resolveCard_cached env S _ cardB (by rw [hc]; decide)]
  obtain ⟨S', m, hS', hm, hd', _, _, hst, _⟩ :=
    addCardToDeck_at_limit env S (JsVal.str "BP01-001") cardB { card := some cardB, count := 4 }
      hres (by rw [hd]; decide) (by decide)
  have hm4 : m = 4 := by
    have h4 : perCardLimit (some cardB) = JsLimit.num 4 := by decide
    rw [h4] at hm
    cases hm
    rfl
  subst hm4
  refine ⟨S, hS, hd, hp, by rw [hd]; decide, S', hS', hd', ?_⟩
  rw [hst (by rw [hd]; decide)]
  decide

theorem perCardLimit_cases (c : Card) :
    perCardLimit (some c) =
      if cardKey c = "PR-036" then JsLimit.num 50
      else if cardKey c = "PR-107" then JsLimit.num 8
      else if cardKey c ∈ objectPrototypeNames then JsLimit.inherited (cardKey c)
      else JsLimit.num 4 := by
  unfold perCardLimit
  simp only [cardCopyOverrides, JsObject.get]
  by_cases h1 : cardKey c = "PR-036"
  · simp [h1]
  · by_cases h2 : cardKey c = "PR-107"
    · simp [h2]
    · have h3 : ¬ "PR-036" = cardKey c := fun e => h1 e.symm
      have h4 : ¬ "PR-107" = cardKey c := fun e => h2 e.symm
      simp only [h1, h2, h3, h4, if_false]

/-- C15 fails on the code: for a card whose key is `constructor`, not in the
table of overrides, `perCardLimit` does not return the default 4 but the
function that the table inherits from `Object.prototype` under that name, which
is not a number (`NaN` in the comparisons and in `Math.min`). -/
theorem perCardLimit_returns_inherited_member :
    cardKey cardCtor = "constructor" ∧
    JsObject.get cardCopyOverrides (cardKey cardCtor) = none ∧
    perCardLimit (some cardCtor) = JsLimit.inherited "constructor" ∧
    perCardLimit (some cardCtor) ≠ JsLimit.num 4 ∧
    (perCardLimit (some cardCtor)).toNum = JsNum.nan := by
  decide

/-- C16, as stated, fails: a card whose `number` is present and is the empty
string, with `id` `X1`, has the key `X1` and not the text of its number. -/
theorem cardKey_skips_blank_number :
    cardBlankNumber.field "number" ≠ JsVal.undefined ∧
    (cardBlankNumber.field "number").toStr = "" ∧
    cardKey cardBlankNumber = "X1" ∧
    cardKey cardBlankNumber ≠ (cardBlankNumber.field "number").toStr := by
  decide

/-- C16 (amended): `cardKey(card)` is the number coerced to text whenever the
number is truthy, and otherwise the id coerced to text (the text `undefined`
when the card has no id either). -/
theorem cardKey_number_or_id (c : Card) :
    ((c.field "number").truthy = true → cardKey c = (c.field "number").toStr) ∧
    ((c.field "number").truthy = false → cardKey c = (c.field "id").toStr) ∧
    ((c.field "number").truthy = false → c.field "id" = JsVal.undefined →
      cardKey c = "undefined") := by
  refine ⟨?_, ?_, ?_⟩
  · intro h
    simp [cardKey, JsVal.or, h]
  · intro h
    simp [cardKey, JsVal.or, h]
  · intro h hid
    simp [cardKey, JsVal.or, h, hid, JsVal.toStr]

/-- C16 (amended) at `cardB` and at the card with a blank number. -/
theorem cardKey_number_or_id_witness :
    cardKey cardB = "BP01-001" ∧ cardKey cardBlankNumber = "X1" :=
  ⟨(cardKey_number_or_id cardB).1 (by decide),
   (cardKey_number_or_id cardBlankNumber).2.1 (by decide)⟩

/-! ## The import loop -/

theorem skipped_false_iff (env : Env) (e : ImportEntry) :
    skipped env e = false ↔
      ∃ k, importKey e = some k ∧ k ≠ "" ∧ 0 < desiredCount env e := by
  unfold skipped
  cases h : importKey e with
  | none => simp
  | some k => simp

theorem entryKey_of_importKey (e : ImportEntry) (k : String) (h : importKey e = some k) :
    entryKey e = k := by
  simp [entryKey, h]

theorem desired_pos_of_not_skipped (env : Env) (e : ImportEntry) (h : skipped env e = false) :
    0 < desiredCount env e := by
  obtain ⟨_, _, _, hd⟩ := (skipped_false_iff env e).mp h
  exact hd

/-- Case analysis of one iteration of the import loop. -/
theorem importLoop_cases (env : Env) (base : String) (e : ImportEntry)
    (rest : List ImportEntry) (acc : ImportAcc) :
    (skipped env e = true ∧
      importLoop env base (e :: rest) acc = importLoop env base rest acc) ∨
    (skipped env e = false ∧ acc.remaining.le 0 = true ∧
      importLoop env base (e :: rest) acc = { acc with truncated := true }) ∨
    (skipped env e = false ∧ acc.remaining.le 0 = false ∧
      importCard env base (entryKey e) e = none ∧
      importLoop env base (e :: rest) acc = importLoop env base rest acc) ∨
    (∃ card, skipped env e = false ∧ acc.remaining.le 0 = false ∧
      importCard env base (entryKey e) e = some card ∧
      importLoop env base (e :: rest) acc
        = importLoop env base rest (recordEntry env acc e card)) := by
  cases hs : skipped env e with
  | true => exact Or.inl ⟨rfl, by simp [importLoop, hs]⟩
  | false =>
    cases hr : acc.remaining.le 0 with
    | true => exact Or.inr (Or.inl ⟨rfl, rfl, by simp [importLoop, hs, hr]⟩)
    | false =>
      cases hc : importCard env base (entryKey e) e with
      | none =>
        exact Or.inr (Or.inr (Or.inl ⟨rfl, rfl, rfl, by simp [importLoop, hs, hr, hc]⟩))
      | some card =>
        exact Or.inr (Or.inr (Or.inr ⟨card, rfl, rfl, rfl, by simp [importLoop, hs, hr, hc]⟩))

theorem handleImportData_deck (env : Env) (s : State) (cards : List ImportEntry) :
    (handleImportData env s (docOf cards)).deck = (importRun env s cards).imported := rfl

theorem handleImportData_proto (env : Env) (s : State) (cards : List ImportEntry) :
    (handleImportData env s (docOf cards)).deckProto = (importRun env s cards).importedProto :=
  rfl

theorem handleImportData_message (env : Env) (s : State) (cards : List ImportEntry) :
    (handleImportData env s (docOf cards)).status.message =
      if (importRun env s cards).truncated then "Deck imported with truncation to fit limits."
      else "Deck imported from JSON." := rfl

theorem get_assignEntry_ne (d : Deck) (proto : Option DeckEntry) (key k : String)
    (e : DeckEntry) (h : k ≠ key) :
    JsObject.get (assignEntry d proto key e).1 k = JsObject.get d k := by
  unfold assignEntry
  split_ifs
  · simp only [JsObject.get_set, if_neg h]
  · rfl
  · simp only [JsObject.get_set, if_neg h]

theorem importLoop_frame (env : Env) (base : String) (k : String) (cards : List ImportEntry)
    (acc : ImportAcc) (h : ∀ e ∈ cards, skipped env e = false → entryKey e ≠ k) :
    JsObject.get (importLoop env base cards acc).imported k = JsObject.get acc.imported k := by
  induction cards generalizing acc with
  | nil => rfl
  | cons e rest ih =>
    have hrest : ∀ x ∈ rest, skipped env x = false → entryKey x ≠ k :=
      fun x hx => h x (List.mem_cons_of_mem _ hx)
    rcases importLoop_cases env base e rest acc with
      ⟨_, hl⟩ | ⟨_, _, hl⟩ | ⟨_, _, _, hl⟩ | ⟨card, hs, _, _, hl⟩
    · rw [hl]; exact ih acc hrest
    · rw [hl]
    · rw [hl]; exact ih acc hrest
    · rw [hl, ih _ hrest]
      have hk : k ≠ entryKey e := fun x => h e (List.mem_cons_self _ _) hs x.symm
      simp only [recordEntry]
      exact get_assignEntry_ne _ _ _ _ _ hk

theorem importLoop_proto_frame (env : Env) (base : String) (cards : List ImportEntry)
    (acc : ImportAcc) (h : ∀ e ∈ cards, skipped env e = false → entryKey e ≠ "__proto__") :
    (importLoop env base cards acc).importedProto = acc.importedProto := by
  induction cards generalizing acc with
  | nil => rfl
  | cons e rest ih =>
    have hrest : ∀ x ∈ rest, skipped env x = false → entryKey x ≠ "__proto__" :=
      fun x hx => h x (List.mem_cons_of_mem _ hx)
    rcases importLoop_cases env base e rest acc with
      ⟨_, hl⟩ | ⟨_, _, hl⟩ | ⟨_, _, _, hl⟩ | ⟨card, hs, _, _, hl⟩
    · rw [hl]; exact ih acc hrest
    · rw [hl]
    · rw [hl]; exact ih acc hrest
    · rw [hl, ih _ hrest]
      simp only [recordEntry]
      rw [assignEntry_set _ _ _ _ (h e (List.mem_cons_self _ _) hs)]

theorem importLoop_cache_irrelevant (env : Env) (base : String) (cards : List ImportEntry)
    (i : Deck) (p : Option DeckEntry) (r : JsNum) (t : Bool) (c c' : JsMap Card) :
    (importLoop env base cards
        { imported := i, importedProto := p, remaining := r, truncated := t,
          cardIndex := c }).imported
      = (importLoop env base cards
        { imported := i, importedProto := p, remaining := r, truncated := t,
          cardIndex := c' }).imported ∧
    (importLoop env base cards
        { imported := i, importedProto := p, remaining := r, truncated := t,
          cardIndex := c }).importedProto
      = (importLoop env base cards
        { imported := i, importedProto := p, remaining := r, truncated := t,
          cardIndex := c' }).importedProto ∧
    (importLoop env base cards
        { imported := i, importedProto := p, remaining := r, truncated := t,
          cardIndex := c }).truncated
      = (importLoop env base cards
        { imported := i, importedProto := p, remaining := r, truncated := t,
          cardIndex := c' }).truncated := by
  induction cards generalizing i p r t c c' with
  | nil => exact ⟨rfl, rfl, rfl⟩
  | cons e rest ih =>
    simp only [importLoop]
    split_ifs
    · exact ih i p r t c c'
    · exact ⟨rfl, rfl, rfl⟩
    · cases importCard env base (entryKey e) e with
      | none => exact ih i p r t c c'
      | some card => exact ih _ _ _ _ _ _

theorem importCard_embedded (env : Env) (base key : String) (e : ImportEntry) (c : Card)
    (h : e.card = some c) : importCard env base key e = some c := by
  simp [importCard, h]

theorem requested_cons (env : Env) (e : ImportEntry) (rest : List ImportEntry) :
    requested env (e :: rest) = desiredCount env e + requested env rest := by
  simp [requested]

theorem requested_nonneg (env : Env) (cards : List ImportEntry)
    (h : ∀ e ∈ cards, CleanEntry env e) : 0 ≤ requested env cards := by
  induction cards with
  | nil => simp [requested]
  | cons e rest ih =>
    rw [requested_cons]
    have h1 := desired_pos_of_not_skipped env e (h e (List.mem_cons_self _ _)).1
    have h2 := ih (fun x hx => h x (List.mem_cons_of_mem _ hx))
    omega

/-- One iteration on a clean entry with enough budget: the entry is stored with
its requested count, and the flag and the prototype are left alone. -/
theorem recordEntry_clean (env : Env) (acc : ImportAcc) (e : ImportEntry) (c : Card) (r : Int)
    (hkey : entryKey e ≠ "__proto__")
    (hlim : JsNum.le (JsNum.int (desiredCount env e)) (perCardLimit (some c)).toNum = true)
    (hrem : acc.remaining = JsNum.int r) (hfit : desiredCount env e ≤ r) :
    recordEntry env acc e c =
      { imported := JsObject.set acc.imported (entryKey e)
          { card := some c, count := JsNum.int (desiredCount env e) }
        importedProto := acc.importedProto
        remaining := JsNum.int (r - desiredCount env e)
        truncated := acc.truncated
        cardIndex := acc.cardIndex.set (entryKey e) c } := by
  obtain ⟨x, y, hx, hy, hxy⟩ := (JsNum.le_iff _ _).mp hlim
  cases hx
  have hall : allowedCount env acc e c = JsNum.int (desiredCount env e) := by
    unfold allowedCount
    rw [hy, hrem, JsNum.min_int_int, JsNum.min_int_int]
    congr 1
    omega
  unfold recordEntry
  rw [hall, assignEntry_set _ _ _ _ hkey, hrem]
  simp [JsNum.sub_int_int, JsNum.lt_int_int]

theorem importLoop_clean_fit (env : Env) (base : String) (cards : List ImportEntry)
    (acc : ImportAcc) (r : Int)
    (hclean : ∀ e ∈ cards, CleanEntry env e)
    (hkeys : (cards.map entryKey).Nodup)
    (hrem : acc.remaining = JsNum.int r)
    (hfit : requested env cards ≤ r) :
    (importLoop env base cards acc).truncated = acc.truncated ∧
    (importLoop env base cards acc).importedProto = acc.importedProto ∧
    ∀ e ∈ cards,
      (JsObject.get (importLoop env base cards acc).imported (entryKey e)).map DeckEntry.count
        = some (JsNum.int (desiredCount env e)) := by
  induction cards generalizing acc r with
  | nil => exact ⟨rfl, rfl, fun e he => by cases he⟩
  | cons e rest ih =>
    rw [requested_cons] at hfit
    rw [List.map_cons, List.nodup_cons] at hkeys
    have hrest : ∀ x ∈ rest, CleanEntry env x := fun x hx => hclean x (List.mem_cons_of_mem _ hx)
    have hnn := requested_nonneg env rest hrest
    obtain ⟨hs, hkey, c, hc, hlim⟩ := hclean e (List.mem_cons_self _ _)
    have hd := desired_pos_of_not_skipped env e hs
    have hr0 : acc.remaining.le 0 = false := by
      rw [hrem, JsNum.zero_eq, JsNum.le_int_int, decide_eq_false_iff_not]
      omega
    have hstep : importLoop env base (e :: rest) acc
        = importLoop env base rest (recordEntry env acc e c) := by
      simp [importLoop, hs, hr0, importCard_embedded env base _ e c hc]
    have hrec := recordEntry_clean env acc e c r hkey hlim hrem (by omega)
    obtain ⟨h1, h2, h3⟩ := ih (recordEntry env acc e c) (r - desiredCount env e) hrest hkeys.2
      (by rw [hrec]) (by omega)
    rw [hstep]
    refine ⟨by rw [h1, hrec], by rw [h2, hrec], ?_⟩
    intro x hx
    rcases List.mem_cons.mp hx with hx | hx
    · subst hx
      rw [importLoop_frame env base (entryKey x) rest _
        (fun y hy _ heq => hkeys.1 (List.mem_map.mpr ⟨y, hy, heq⟩))]
      rw [hrec]
      simp only [JsObject.get_set, if_true, Option.map_some']
    · exact h3 x hx

theorem snapshot_fold_get (c : Card) (fs : List String) (init : Card) (f : String) :
    JsObject.get (fs.foldl
      (fun copy g =>
        if c.field g ≠ JsVal.undefined then JsObject.set copy g (c.field g) else copy) init) f
      = if f ∈ fs ∧ c.field f ≠ JsVal.undefined then some (c.field f)
        else JsObject.get init f := by
  induction fs generalizing init with
  | nil => simp
  | cons g rest ih =>
    rw [List.foldl_cons, ih]
    by_cases hin : f ∈ rest ∧ c.field f ≠ JsVal.undefined
    · have hin2 : f ∈ g :: rest ∧ c.field f ≠ JsVal.undefined :=
        ⟨List.mem_cons_of_mem _ hin.1, hin.2⟩
      rw [if_pos hin, if_pos hin2]
    · rw [if_neg hin]
      by_cases hfg : f = g
      · subst hfg
        by_cases hu : c.field f ≠ JsVal.undefined
        · rw [if_pos hu, JsObject.get_set]
          simp [hu]
        · rw [if_neg hu]
          have : ¬ (f ∈ f :: rest ∧ c.field f ≠ JsVal.undefined) := fun h => hu h.2
          rw [if_neg this]
      · have hout : ¬ (f ∈ g :: rest ∧ c.field f ≠ JsVal.undefined) := by
          rintro ⟨h1, h2⟩
          rcases List.mem_cons.mp h1 with h1 | h1
          · exact hfg h1
          · exact hin ⟨h1, h2⟩
        rw [if_neg hout]
        by_cases hu : c.field g ≠ JsVal.undefined
        · rw [if_pos hu, JsObject.get_set]
          simp [hfg]
        · rw [if_neg hu]

/-- A field of the snapshot is the field of the card when it is one of the
snapshot fields, and `undefined` otherwise. -/
theorem snapshot_field (c snap : Card) (f : String) (h : snapshotCard (some c) = some snap) :
    snap.field f = if f ∈ snapshotFields then c.field f else JsVal.undefined := by
  simp only [snapshotCard, Option.some.injEq] at h
  subst h
  have hg := snapshot_fold_get c snapshotFields [] f
  show (JsObject.get _ f).getD JsVal.undefined = _
  rw [hg]
  by_cases hin : f ∈ snapshotFields
  · by_cases hu : c.field f ≠ JsVal.undefined
    · have : f ∈ snapshotFields ∧ c.field f ≠ JsVal.undefined := ⟨hin, hu⟩
      rw [if_pos this, if_pos hin]
      rfl
    · have : ¬ (f ∈ snapshotFields ∧ c.field f ≠ JsVal.undefined) := fun h => hu h.2
      rw [if_neg this, if_pos hin]
      simp only [ne_eq, not_not] at hu
      rw [hu]
      rfl
  · have : ¬ (f ∈ snapshotFields ∧ c.field f ≠ JsVal.undefined) := fun h => hin h.1
    rw [if_neg this, if_neg hin]
    rfl

/-- The snapshot keeps the per-card limit of a card whose `number` is truthy
(its key is then its number, which the snapshot keeps). -/
theorem perCardLimit_snapshot (c : Card) (h : (c.field "number").truthy = true) :
    perCardLimit (snapshotCard (some c)) = perCardLimit (some c) := by
  have hs : snapshotCard (some c) = some (snapshotFields.foldl
      (fun copy f =>
        if c.field f ≠ JsVal.undefined then JsObject.set copy f (c.field f) else copy) []) := rfl
  have hnum := snapshot_field c _ "number" hs
  have hkey : cardKey (snapshotFields.foldl
      (fun copy f =>
        if c.field f ≠ JsVal.undefined then JsObject.set copy f (c.field f) else copy) [])
      = cardKey c := by
    unfold cardKey
    rw [hnum]
    have hmem : "number" ∈ snapshotFields := by decide
    rw [if_pos hmem]
    simp [JsVal.or, h]
  rw [hs]
  unfold perCardLimit
  simp only [hkey]


/-- C3 fails on the code: a document with seven copies of a card whose key is
`constructor`, then nine copies of `cardB`.  `perCardLimit` returns an
inherited function for the first card, so `allowed` and `remaining` are `NaN`;
both entries are stored with the count `NaN`, the total is `NaN`, and neither
`total <= 50` nor `count <= perCardLimit(card)` holds. -/
theorem import_inherited_limit_stores_nan :
    (handleImportData offline scenarioStart (docOf ctorThenBeta)).deck
      = [("X1", { card := some cardCtor, count := JsNum.nan }),
         ("BP01-001", { card := some cardB, count := JsNum.nan })] ∧
    deckCount (handleImportData offline scenarioStart (docOf ctorThenBeta)).deck = JsNum.nan ∧
    JsNum.le (deckCount (handleImportData offline scenarioStart (docOf ctorThenBeta)).deck) 50
      = false ∧
    (∀ p ∈ (handleImportData offline scenarioStart (docOf ctorThenBeta)).deck,
      JsNum.le p.2.count (perCardLimit p.2.card).toNum = false) ∧
    (importRun offline scenarioStart ctorThenBeta).truncated = false := by
  decide

/-- C4 fails on the code: a document of two distinct keys, four copies of
`cardB` under `__proto__` and fifty of `cardA` under `PR-036`, requests 54
copies within the per-card limits.  The assignment to `__proto__` replaces the
prototype of the imported object and creates no own entry, while it spends 4 of
the budget; the imported deck is `{PR-036: 46}` with total 46, not 50. -/
theorem import_proto_key_total_below_fifty :
    requested offline protoThenFifty = 54 ∧
    (protoThenFifty.map entryKey).Nodup ∧
    perCardLimit (some cardB) = JsLimit.num 4 ∧ perCardLimit (some cardA) = JsLimit.num 50 ∧
    (handleImportData offline scenarioStart (docOf protoThenFifty)).deck
      = [("PR-036", { card := some cardA, count := 46 })] ∧
    deckCount (handleImportData offline scenarioStart (docOf protoThenFifty)).deck = 46 ∧
    (handleImportData offline scenarioStart (docOf protoThenFifty)).deckProto
      = some { card := some cardB, count := 4 } ∧
    (importRun offline scenarioStart protoThenFifty).truncated = true := by
  decide

/-- C5 fails on the code: one entry with the key `__proto__`, the embedded card
`cardB` (limit 4) and seven copies requested.  The flag is set, but the
imported deck has no entry under the key: the clamped entry becomes the
prototype of the deck object, and the deck has no own entry and total 0. -/
theorem import_proto_key_not_stored :
    perCardLimit (some cardB) = JsLimit.num 4 ∧
    (handleImportData offline scenarioStart (docOf protoSeven)).deck = [] ∧
    JsObject.get (handleImportData offline scenarioStart (docOf protoSeven)).deck "__proto__"
      = none ∧
    deckCount (handleImportData offline scenarioStart (docOf protoSeven)).deck = 0 ∧
    (handleImportData offline scenarioStart (docOf protoSeven)).deckProto
      = some { card := some cardB, count := 4 } ∧
    (importRun offline scenarioStart protoSeven).truncated = true := by
  decide

/-- C6: for every prior state, when `data` is falsy or its `cards` field is not
an array, `handleImportData` reports the invalid-format error and leaves the
deck (own entries and prototype) and the card cache as they were. -/
theorem import_rejects_malformed (env : Env) (s : State) (data : Option ImportDoc)
    (h : data = none ∨ ∃ doc, data = some doc ∧ doc.cards = none) :
    (handleImportData env s data).status
      = { message := "Invalid deck file format.", tone := "error" } ∧
    (handleImportData env s data).deck = s.deck ∧
    (handleImportData env s data).deckProto = s.deckProto ∧
    (handleImportData env s data).cardIndex = s.cardIndex ∧
    (handleImportData env s data).apiBase = s.apiBase := by
  rcases h with h | ⟨doc, h, hc⟩
  · subst h
    exact ⟨rfl, rfl, rfl, rfl, rfl⟩
  · subst h
    simp [handleImportData, hc, updateStatus]

/-- C6 at a document without `cards` array, on a deck of four cards. -/
theorem import_rejects_malformed_witness :
    (handleImportData offline limitState (some { cards := none })).status
      = { message := "Invalid deck file format.", tone := "error" } ∧
    (handleImportData offline limitState (some { cards := none })).deck = limitState.deck ∧
    (handleImportData offline limitState none).deck = limitState.deck :=
  have h1 := import_rejects_malformed offline limitState (some { cards := none })
    (Or.inr ⟨_, rfl, rfl⟩)
  have h2 := import_rejects_malformed offline limitState none (Or.inl rfl)
  ⟨h1.1, h1.2.1, h2.2.1⟩

/-- C7: for every document with an array-valued `cards` field the deck after
`handleImportData` (own entries and prototype) does not depend on the prior
deck, prototype or cache (same API base and lookup results); a key that no
entry of the document supplies is absent afterwards, the deck object has the
prototype `Object.prototype` when no entry supplies the key `__proto__`, and
an empty `cards` array yields the empty deck. -/
theorem import_is_full_replace (env : Env) (s : State) (d' : Deck) (p' : Option DeckEntry)
    (c' : JsMap Card) (cards : List ImportEntry) :
    (handleImportData env { s with deck := d', deckProto := p', cardIndex := c' }
        (docOf cards)).deck
      = (handleImportData env s (docOf cards)).deck ∧
    (handleImportData env { s with deck := d', deckProto := p', cardIndex := c' }
        (docOf cards)).deckProto
      = (handleImportData env s (docOf cards)).deckProto ∧
    (∀ k, (∀ e ∈ cards, importKey e ≠ some k) →
      JsObject.get (handleImportData env s (docOf cards)).deck k = none) ∧
    ((∀ e ∈ cards, importKey e ≠ some "__proto__") →
      (handleImportData env s (docOf cards)).deckProto = none) ∧
    (handleImportData env s (docOf [])).deck = [] ∧
    (handleImportData env s (docOf [])).deckProto = none := by
  refine ⟨?_, ?_, ?_, ?_, rfl, rfl⟩
  · rw [handleImportData_deck, handleImportData_deck]
    exact (importLoop_cache_irrelevant env s.apiBase cards [] none 50 false c' s.cardIndex).1
  · rw [handleImportData_proto, handleImportData_proto]
    exact (importLoop_cache_irrelevant env s.apiBase cards [] none 50 false c' s.cardIndex).2.1
  · intro k hk
    rw [handleImportData_deck]
    unfold importRun
    rw [importLoop_frame env s.apiBase k cards _ ?_]
    · rfl
    · intro e he hs hkey
      obtain ⟨k0, h0, _, _⟩ := (skipped_false_iff env e).mp hs
      rw [entryKey_of_importKey e k0 h0] at hkey
      exact hk e he (hkey ▸ h0)
  · intro hk
    rw [handleImportData_proto]
    unfold importRun
    rw [importLoop_proto_frame env s.apiBase cards _ ?_]
    intro e he hs hkey
    obtain ⟨k0, h0, _, _⟩ := (skipped_false_iff env e).mp hs
    rw [entryKey_of_importKey e k0 h0] at hkey
    exact hk e he (hkey ▸ h0)

/-- C7 at a deck of four `cardB` and a document that supplies `cardA` only. -/
theorem import_is_full_replace_witness :
    JsObject.get limitState.deck "BP01-001" = some { card := some cardB, count := 4 } ∧
    (∀ e ∈ alphaCards, importKey e ≠ some "BP01-001") ∧
    JsObject.get (handleImportData offline limitState (docOf alphaCards)).deck "BP01-001" = none :=
  ⟨by decide, by decide,
   (import_is_full_replace offline limitState [] none [] alphaCards).2.2.1 "BP01-001"
     (by decide)⟩

/-- C8 fails on the code: one entry with the usable key `__proto__`, the
embedded card `cardB` and three copies requested (within the limit 4 and the
budget).  `handleImportData` ends with `truncated = false` and the plain import
message, yet the entry is not in the imported deck: the assignment to
`__proto__` creates no own entry. -/
theorem import_proto_key_dropped_without_flag :
    skipped offline (entryOf "__proto__" 3 cardB) = false ∧
    desiredCount offline (entryOf "__proto__" 3 cardB) = 3 ∧
    (importRun offline scenarioStart protoThree).truncated = false ∧
    (handleImportData offline scenarioStart (docOf protoThree)).status.message
      = "Deck imported from JSON." ∧
    (handleImportData offline scenarioStart (docOf protoThree)).deck = [] ∧
    (JsObject.get (handleImportData offline scenarioStart (docOf protoThree)).deck
      (entryKey (entryOf "__proto__" 3 cardB))).map DeckEntry.count = none := by
  decide

/-! ## Export followed by import -/

theorem exportEntries_desired (env : Env) (p : String × DeckEntry) (n : Int)
    (hc : p.2.count = JsNum.int n) (h : 1 ≤ n) :
    desiredCount env
      { key := JsVal.str p.1, count := p.2.count.toVal, card := snapshotCard p.2.card }
      = n := by
  have : n ≠ 0 := by omega
  simp [desiredCount, JsVal.toNumber, JsNum.toVal, hc, this]

theorem exportEntries_key (p : String × DeckEntry) (h : p.1 ≠ "") :
    entryKey
      { key := JsVal.str p.1, count := p.2.count.toVal, card := snapshotCard p.2.card }
      = p.1 := by
  simp [entryKey, importKey, JsVal.truthy, JsVal.toStr, h]

theorem exportEntries_clean (env : Env) (d : Deck)
    (hent : ∀ p ∈ d, p.1 ≠ "" ∧ p.1 ≠ "__proto__" ∧ JsNum.le 1 p.2.count = true ∧
      p.2.card.isSome = true ∧
      JsNum.le p.2.count (perCardLimit (snapshotCard p.2.card)).toNum = true) :
    ∀ e ∈ exportEntries d, CleanEntry env e := by
  intro e he
  obtain ⟨p, hp, rfl⟩ := List.mem_map.mp he
  obtain ⟨hk, hpk, hc, hcard, hlim⟩ := hent p hp
  obtain ⟨x, n, hx, hn, hxn⟩ := (JsNum.le_iff _ _).mp hc
  rw [JsNum.one_eq] at hx
  cases hx
  have hd := exportEntries_desired env p n hn hxn
  have hkey := exportEntries_key p hk
  refine ⟨?_, by rw [hkey]; exact hpk, ?_⟩
  · rw [skipped_false_iff]
    refine ⟨p.1, ?_, hk, ?_⟩
    · simp [importKey, JsVal.truthy, JsVal.toStr, hk]
    · rw [hd]; omega
  · obtain ⟨c, hcd⟩ := Option.isSome_iff_exists.mp hcard
    rw [hd]
    rw [hcd, hn] at hlim
    refine ⟨_, ?_, hlim⟩
    show snapshotCard p.2.card = _
    rw [hcd]
    rfl

theorem exportEntries_keys (d : Deck) (h : ∀ p ∈ d, p.1 ≠ "") :
    (exportEntries d).map entryKey = JsObject.keys d := by
  induction d with
  | nil => rfl
  | cons p rest ih =>
    simp only [exportEntries, List.map_cons, JsObject.keys] at ih ⊢
    rw [exportEntries_key p (h p (List.mem_cons_self _ _)),
      ih (fun q hq => h q (List.mem_cons_of_mem _ hq))]

theorem exportEntries_requested (env : Env) (d : Deck)
    (h : ∀ p ∈ d, JsNum.le 1 p.2.count = true) :
    requested env (exportEntries d) = deckTotal d := by
  induction d with
  | nil => rfl
  | cons p rest ih =>
    have hr := ih (fun q hq => h q (List.mem_cons_of_mem _ hq))
    obtain ⟨x, n, hx, hn, hxn⟩ := (JsNum.le_iff _ _).mp (h p (List.mem_cons_self _ _))
    rw [JsNum.one_eq] at hx
    cases hx
    simp only [exportEntries, List.map_cons] at hr ⊢
    rw [requested_cons, exportEntries_desired env p n hn hxn, deckTotal_cons, hr, hn]
    rfl

/-- C2, as stated, fails: a deck whose only key is the empty string satisfies
the invariants and carries a card, but the importer skips the exported entry
(its key is falsy), so the key is missing after the round trip. -/
theorem roundtrip_drops_blank_key :
    DeckInv blankKeyDeck ∧ (∀ p ∈ blankKeyDeck, p.2.card.isSome = true) ∧
    (JsObject.get blankKeyDeck "").map DeckEntry.count = some 1 ∧
    (JsObject.get (handleImportData offline scenarioStart (some (exportDeck blankKeyDeck))).deck
      "").map DeckEntry.count = none := by
  unfold DeckInv
  decide

/-- A second failure of the round trip: the snapshot has no `id`, so a card that
is identified by its `id` loses the override limit of its key; five copies under
`PR-036` come back as four, with `truncated = true`. -/
theorem roundtrip_clamps_id_keyed_override :
    DeckInv idKeyDeck ∧ (∀ p ∈ idKeyDeck, p.2.card.isSome = true) ∧
    (JsObject.get idKeyDeck "PR-036").map DeckEntry.count = some 5 ∧
    (JsObject.get (handleImportData offline scenarioStart (some (exportDeck idKeyDeck))).deck
      "PR-036").map DeckEntry.count = some 4 ∧
    (importRun offline scenarioStart (exportEntries idKeyDeck)).truncated = true := by
  unfold DeckInv
  decide

/-- A third failure of the round trip: a deck with the own key `__proto__` (as
read back from storage) satisfies the invariants, but the importer assigns the
entry to `__proto__`, which creates no own entry, so the key is missing after
the round trip. -/
theorem roundtrip_drops_proto_key :
    DeckInv protoKeyDeck ∧ (∀ p ∈ protoKeyDeck, p.2.card.isSome = true) ∧
    (JsObject.get protoKeyDeck "__proto__").map DeckEntry.count = some 2 ∧
    (JsObject.get (handleImportData offline scenarioStart (some (exportDeck protoKeyDeck))).deck
      "__proto__").map DeckEntry.count = none := by
  unfold DeckInv
  decide

/-- C2 (amended): for every deck with unique, non-empty keys other than
`__proto__` whose entries all carry a card, with every count at least 1 and at
most `perCardLimit(snapshotCard(entry.card))` and a total of at most 50, running
`handleImportData` on the document built by `exportDeck` yields a deck with the
same keys and the same count for each key, and `truncated = false` (the
plain import message is reported). -/
theorem export_import_roundtrip (env : Env) (s : State) (d : Deck)
    (hn : d.keys.Nodup)
    (hent : ∀ p ∈ d, p.1 ≠ "" ∧ p.1 ≠ "__proto__" ∧ JsNum.le 1 p.2.count = true ∧
      p.2.card.isSome = true ∧
      JsNum.le p.2.count (perCardLimit (snapshotCard p.2.card)).toNum = true)
    (htot : JsNum.le (deckCount d) 50 = true) :
    (∀ k, (JsObject.get (handleImportData env s (some (exportDeck d))).deck k).map
        DeckEntry.count = (JsObject.get d k).map DeckEntry.count) ∧
    (handleImportData env s (some (exportDeck d))).deckProto = none ∧
    (importRun env s (exportEntries d)).truncated = false ∧
    (handleImportData env s (some (exportDeck d))).status.message
      = "Deck imported from JSON." := by
  have hdoc : some (exportDeck d) = docOf (exportEntries d) := rfl
  have hclean := exportEntries_clean env d hent
  have hkeys := exportEntries_keys d (fun p hp => (hent p hp).1)
  have hreq := exportEntries_requested env d (fun p hp => (hent p hp).2.2.1)
  have hfit := importLoop_clean_fit env s.apiBase (exportEntries d)
    { imported := [], importedProto := none, remaining := 50, truncated := false,
      cardIndex := s.cardIndex } 50 hclean (by rw [hkeys]; exact hn) rfl
    (by rw [hreq]; exact (deckCount_le_fifty d htot).2.2)
  obtain ⟨htr, hpr, hall⟩ := hfit
  have hcounts : ∀ k, (JsObject.get (handleImportData env s (some (exportDeck d))).deck k).map
      DeckEntry.count = (JsObject.get d k).map DeckEntry.count := by
    intro k
    rw [hdoc]
    cases hg : JsObject.get d k with
    | none =>
      rw [handleImportData_deck]
      unfold importRun
      rw [importLoop_frame env s.apiBase k (exportEntries d) _ ?_]
      · rfl
      · intro e he _ heq
        have hk : k ∈ (exportEntries d).map entryKey := List.mem_map.mpr ⟨e, he, heq⟩
        rw [hkeys] at hk
        exact (JsObject.get_eq_none_iff d k).mp hg hk
    | some entry =>
      have hp := JsObject.mem_of_get d k entry hg
      obtain ⟨hk, _, hc, _, _⟩ := hent _ hp
      obtain ⟨x, n, hx, hcn, hxn⟩ := (JsNum.le_iff _ _).mp hc
      rw [JsNum.one_eq] at hx
      cases hx
      have he : ({ key := JsVal.str k, count := entry.count.toVal,
                   card := snapshotCard entry.card } : ImportEntry) ∈ exportEntries d :=
        List.mem_map.mpr ⟨(k, entry), hp, rfl⟩
      have := hall _ he
      rw [exportEntries_key (k, entry) hk, exportEntries_desired env (k, entry) n hcn hxn] at this
      rw [handleImportData_deck]
      have hcn' : entry.count = JsNum.int n := hcn
      simp only [Option.map_some', hcn']
      exact this
  refine ⟨hcounts, hpr, htr, ?_⟩
  · rw [hdoc, handleImportData_message]
    have htr' : (importRun env s (exportEntries d)).truncated = false := htr
    rw [htr']
    rfl

/-- C2 (amended) at a deck of five `cardA` and four `cardB`. -/
theorem export_import_roundtrip_witness :
    (∀ k, (JsObject.get (handleImportData offline scenarioStart
        (some (exportDeck nineDeck))).deck k).map DeckEntry.count
      = (JsObject.get nineDeck k).map DeckEntry.count) ∧
    (importRun offline scenarioStart (exportEntries nineDeck)).truncated = false :=
  have h := export_import_roundtrip offline scenarioStart nineDeck (by decide) (by decide)
    (by decide)
  ⟨h.1, h.2.2.1⟩

/-- C22 fails on the code: the two valid entries of the document (distinct
non-empty keys, embedded cards, four copies of `cardB` under `__proto__` and 46
of `cardA` under `PR-036`, within the limits 4 and 50) request exactly 50
copies.  `handleImportData` reports `truncated = false`, but the entry under
`__proto__` is not stored at its requested count: the deck is `{PR-036: 46}`. -/
theorem import_exact_budget_loses_proto_key :
    requested offline protoExactFifty = 50 ∧
    (∀ e ∈ protoExactFifty, skipped offline e = false) ∧
    (protoExactFifty.map entryKey).Nodup ∧
    perCardLimit (some cardB) = JsLimit.num 4 ∧ perCardLimit (some cardA) = JsLimit.num 50 ∧
    (importRun offline scenarioStart protoExactFifty).truncated = false ∧
    (handleImportData offline scenarioStart (docOf protoExactFifty)).deck
      = [("PR-036", { card := some cardA, count := 46 })] ∧
    (JsObject.get (handleImportData offline scenarioStart (docOf protoExactFifty)).deck
      "__proto__").map DeckEntry.count = none := by
  decide

/-- C23 fails on the code: a document with seven copies (an integer) of a card
whose key is `constructor`.  `perCardLimit` returns an inherited function, so
`allowed = Math.min(limit, 7, 50)` is `NaN`, not a positive number, and the
entry is recorded with the count `NaN`, which is no integer `>= 1`. -/
theorem import_records_nan_count :
    desiredCount offline (entryOf "X1" 7 cardCtor) = 7 ∧
    allowedCount offline
      { imported := [], importedProto := none, remaining := 50, truncated := false,
        cardIndex := scenarioStart.cardIndex } (entryOf "X1" 7 cardCtor) cardCtor = JsNum.nan ∧
    (handleImportData offline scenarioStart (docOf ctorSevenCards)).deck
      = [("X1", { card := some cardCtor, count := JsNum.nan })] ∧
    (∀ p ∈ (handleImportData offline scenarioStart (docOf ctorSevenCards)).deck,
      JsNum.le 1 p.2.count = false) := by
  decide

/-! ## The import loop away from the defects -/

theorem importCard_plain (env : Env) (base : String) (e : ImportEntry) (c : Card)
    (hf : ∀ url c, env.fetchJson url = some c → cardKey c ∉ objectPrototypeNames)
    (he : ∀ c, e.card = some c → cardKey c ∉ objectPrototypeNames)
    (h : importCard env base (entryKey e) e = some c) : cardKey c ∉ objectPrototypeNames := by
  unfold importCard at h
  cases hc : e.card with
  | some c0 =>
    simp only [hc, Option.some.injEq] at h
    subst h
    exact he c0 hc
  | none =>
    simp only [hc] at h
    split_ifs at h
    exact fetchCard_plain env base _ c hf h

theorem importInv_record (env : Env) (acc : ImportAcc) (e : ImportEntry) (card : Card)
    (hplain : cardKey card ∉ objectPrototypeNames)
    (hd : 0 < desiredCount env e) (hr : acc.remaining.le 0 = false) (h : ImportInv acc) :
    ImportInv (recordEntry env acc e card) := by
  obtain ⟨r, hrem, hr0, hsum, hn, hc⟩ := h
  obtain ⟨m, hm⟩ := perCardLimit_plain card hplain
  have hm4 := perCardLimit_num_ge (some card) m hm
  rw [hrem, JsNum.zero_eq, JsNum.le_int_int, decide_eq_false_iff_not] at hr
  have hall : allowedCount env acc e card
      = JsNum.int (min (min m (desiredCount env e)) r) := by
    unfold allowedCount
    rw [hm, hrem]
    rfl
  have ha1 : 1 ≤ min (min m (desiredCount env e)) r := by omega
  have ha2 : min (min m (desiredCount env e)) r ≤ m := by omega
  have ha3 : min (min m (desiredCount env e)) r ≤ r := by omega
  have hcur := currentCount_numeric acc.imported (entryKey e)
    (fun p hp => by
      obtain ⟨n, _, h1, _, h2, _⟩ := hc p hp
      exact ⟨n, h1, h2⟩)
  obtain ⟨cur, _, hcur0, hget⟩ := hcur
  refine ⟨r - min (min m (desiredCount env e)) r, ?_, by omega, ?_, ?_, ?_⟩
  · simp only [recordEntry, hall, hrem, JsNum.sub_int_int]
  · simp only [recordEntry, hall]
    unfold assignEntry
    split_ifs
    · rw [deckTotal_set, hget]
      simp only [JsNum.toInt]
      omega
    · simp only
      omega
    · rw [deckTotal_set, hget]
      simp only [JsNum.toInt]
      omega
  · simp only [recordEntry]
    unfold assignEntry
    split_ifs
    · exact JsObject.nodup_set _ _ _ hn
    · exact hn
    · exact JsObject.nodup_set _ _ _ hn
  · intro p hp
    simp only [recordEntry, hall] at hp
    unfold assignEntry at hp
    split_ifs at hp
    · rcases JsObject.mem_set _ _ _ _ hp with hp | hp
      · exact hc p hp
      · subst hp
        exact ⟨_, m, rfl, hm, ha1, ha2⟩
    · exact hc p hp
    · rcases JsObject.mem_set _ _ _ _ hp with hp | hp
      · exact hc p hp
      · subst hp
        exact ⟨_, m, rfl, hm, ha1, ha2⟩

theorem importInv_loop (env : Env) (base : String) (cards : List ImportEntry) (acc : ImportAcc)
    (hdoc : PlainDocument env cards) (h : ImportInv acc) :
    ImportInv (importLoop env base cards acc) := by
  induction cards generalizing acc with
  | nil => exact h
  | cons e rest ih =>
    have hrest : PlainDocument env rest :=
      ⟨hdoc.1, fun x hx => hdoc.2 x (List.mem_cons_of_mem _ hx)⟩
    rcases importLoop_cases env base e rest acc with
      ⟨_, hl⟩ | ⟨_, _, hl⟩ | ⟨_, _, _, hl⟩ | ⟨card, hs, hr, hcard, hl⟩
    · rw [hl]; exact ih acc hrest h
    · rw [hl]; exact h
    · rw [hl]; exact ih acc hrest h
    · rw [hl]
      exact ih _ hrest (importInv_record env acc e card
        (importCard_plain env base e card hdoc.1 (hdoc.2 e (List.mem_cons_self _ _)) hcard)
        (desired_pos_of_not_skipped env e hs) hr h)

theorem importInv_run (env : Env) (s : State) (cards : List ImportEntry)
    (hdoc : PlainDocument env cards) : ImportInv (importRun env s cards) :=
  importInv_loop env s.apiBase cards _ hdoc
    ⟨50, rfl, by decide, by simp [deckTotal_nil], by simp [JsObject.keys],
     fun p hp => by cases hp⟩

/-- Away from the defect of `perCardLimit` the import enforces the limits: when
no card of the document or of the catalog is named after a member of
`Object.prototype`, for any order of entries, any keys
(repeated keys and `__proto__` included) and any requested counts, the
installed deck satisfies the deck invariants: unique keys, every count an
integer between 1 and the per-card limit of the stored card, total at most
50. -/
theorem import_enforces_limits_of_plain (env : Env) (s : State) (cards : List ImportEntry)
    (hdoc : PlainDocument env cards) :
    DeckInv (handleImportData env s (docOf cards)).deck := by
  rw [handleImportData_deck, deckInv_iff]
  obtain ⟨r, _, hr0, hsum, hn, hc⟩ := importInv_run env s cards hdoc
  exact ⟨hn, hc, by omega⟩

theorem import_enforces_limits_of_plain_witness :
    PlainDocument offline messyCards ∧
    DeckInv (handleImportData offline limitState (docOf messyCards)).deck :=
  have hdoc : PlainDocument offline messyCards := ⟨fun _ _ h => (by cases h), (by decide)⟩
  ⟨hdoc, import_enforces_limits_of_plain offline limitState messyCards hdoc⟩

theorem recordEntry_numeric (env : Env) (acc : ImportAcc) (e : ImportEntry) (c : Card)
    (m r : Int) (hkey : entryKey e ≠ "__proto__")
    (hm : perCardLimit (some c) = JsLimit.num m) (hrem : acc.remaining = JsNum.int r) :
    recordEntry env acc e c =
      { imported := JsObject.set acc.imported (entryKey e)
          { card := some c, count := JsNum.int (min (min m (desiredCount env e)) r) }
        importedProto := acc.importedProto
        remaining := JsNum.int (r - min (min m (desiredCount env e)) r)
        truncated := acc.truncated ||
          decide (min (min m (desiredCount env e)) r < desiredCount env e)
        cardIndex := acc.cardIndex.set (entryKey e) c } := by
  have hall : allowedCount env acc e c
      = JsNum.int (min (min m (desiredCount env e)) r) := by
    unfold allowedCount
    rw [hm, hrem]
    rfl
  unfold recordEntry
  rw [hall, assignEntry_set _ _ _ _ hkey, hrem]
  rfl

theorem processed_cons_skip (env : Env) (e : ImportEntry) (rest : List ImportEntry)
    (h : skipped env e = true) : processed env (e :: rest) = processed env rest := by
  simp [processed, h]

theorem processed_cons_keep (env : Env) (e : ImportEntry) (rest : List ImportEntry)
    (h : skipped env e = false) : processed env (e :: rest) = e :: processed env rest := by
  simp [processed, h]

theorem mem_processed (env : Env) (cards : List ImportEntry) (e : ImportEntry)
    (he : e ∈ cards) (h : skipped env e = false) : e ∈ processed env cards := by
  simp [processed, he, h]

theorem importLoop_exhausted (env : Env) (base : String) (cards : List ImportEntry)
    (acc : ImportAcc) (h : acc.remaining.le 0 = true) :
    (importLoop env base cards acc).imported = acc.imported := by
  induction cards with
  | nil => rfl
  | cons e rest ih =>
    rcases importLoop_cases env base e rest acc with
      ⟨_, hl⟩ | ⟨_, _, hl⟩ | ⟨_, hr, _, _⟩ | ⟨card, _, hr, _, _⟩
    · rw [hl]; exact ih
    · rw [hl]
    · rw [h] at hr
      cases hr
    · rw [h] at hr
      cases hr

theorem importLoop_truncated_mono (env : Env) (base : String) (cards : List ImportEntry)
    (acc : ImportAcc) (h : acc.truncated = true) :
    (importLoop env base cards acc).truncated = true := by
  induction cards generalizing acc with
  | nil => exact h
  | cons e rest ih =>
    rcases importLoop_cases env base e rest acc with
      ⟨_, hl⟩ | ⟨_, _, hl⟩ | ⟨_, _, _, hl⟩ | ⟨card, _, _, _, hl⟩
    · rw [hl]; exact ih acc h
    · rw [hl]
    · rw [hl]; exact ih acc h
    · rw [hl]
      exact ih _ (by simp [recordEntry, h])

/-- The flag is left alone exactly when every processed entry is stored with
its requested count (storable entries with distinct keys). -/
theorem importLoop_truncated_iff (env : Env) (base : String) (cards : List ImportEntry)
    (acc : ImportAcc) (r : Int) (hrem : acc.remaining = JsNum.int r)
    (hcards : ∀ e ∈ cards, skipped env e = false → StorableEntry e)
    (hkeys : ((processed env cards).map entryKey).Nodup)
    (hfresh : ∀ e ∈ cards, skipped env e = false →
      JsObject.get acc.imported (entryKey e) = none) :
    (importLoop env base cards acc).truncated = false ↔
      acc.truncated = false ∧ ∀ e ∈ cards, skipped env e = false →
        (JsObject.get (importLoop env base cards acc).imported (entryKey e)).map DeckEntry.count
          = some (JsNum.int (desiredCount env e)) := by
  induction cards generalizing acc r with
  | nil => simp [importLoop]
  | cons e rest ih =>
    have hcards2 : ∀ x ∈ rest, skipped env x = false → StorableEntry x :=
      fun x hx => hcards x (List.mem_cons_of_mem _ hx)
    have hfresh2 : ∀ x ∈ rest, skipped env x = false →
        JsObject.get acc.imported (entryKey x) = none :=
      fun x hx => hfresh x (List.mem_cons_of_mem _ hx)
    rcases importLoop_cases env base e rest acc with
      ⟨hs, hl⟩ | ⟨hs, _, hl⟩ | ⟨hs, _, hc, _⟩ | ⟨card, hs, _, hc, hl⟩
    · rw [hl]
      rw [processed_cons_skip env e rest hs] at hkeys
      rw [ih acc r hrem hcards2 hkeys hfresh2]
      constructor
      · rintro ⟨h1, h2⟩
        refine ⟨h1, fun x hx hsx => ?_⟩
        rcases List.mem_cons.mp hx with hx | hx
        · subst hx
          rw [hs] at hsx
          cases hsx
        · exact h2 x hx hsx
      · rintro ⟨h1, h2⟩
        exact ⟨h1, fun x hx hsx => h2 x (List.mem_cons_of_mem _ hx) hsx⟩
    · rw [hl]
      constructor
      · intro h
        simp at h
      · rintro ⟨_, h2⟩
        have := h2 e (List.mem_cons_self _ _) hs
        rw [hfresh e (List.mem_cons_self _ _) hs] at this
        simp at this
    · obtain ⟨_, c, _, hce, _⟩ := hcards e (List.mem_cons_self _ _) hs
      rw [importCard_embedded env base _ e c hce] at hc
      cases hc
    · obtain ⟨hkey, c, m, hce, hm⟩ := hcards e (List.mem_cons_self _ _) hs
      rw [importCard_embedded env base _ e c hce] at hc
      have hcc : c = card := Option.some.inj hc
      subst hcc
      have hrec := recordEntry_numeric env acc e c m r hkey hm hrem
      rw [hl]
      rw [processed_cons_keep env e rest hs, List.map_cons, List.nodup_cons] at hkeys
      have hne : ∀ x ∈ rest, skipped env x = false → entryKey x ≠ entryKey e := by
        intro x hx hsx heq
        exact hkeys.1 (List.mem_map.mpr ⟨x, mem_processed env rest x hx hsx, heq⟩)
      have hfresh3 : ∀ x ∈ rest, skipped env x = false →
          JsObject.get (recordEntry env acc e c).imported (entryKey x) = none := by
        intro x hx hsx
        rw [hrec]
        simp only [JsObject.get_set, if_neg (hne x hx hsx), hfresh2 x hx hsx]
      have hself : JsObject.get
          (importLoop env base rest (recordEntry env acc e c)).imported (entryKey e)
          = some { card := some c,
                   count := JsNum.int (min (min m (desiredCount env e)) r) } := by
        rw [importLoop_frame env base (entryKey e) rest _ hne, hrec]
        simp only [JsObject.get_set, if_true]
      rw [ih _ (r - min (min m (desiredCount env e)) r) (by rw [hrec]) hcards2 hkeys.2 hfresh3]
      have htr : (recordEntry env acc e c).truncated = false ↔
          acc.truncated = false ∧ min (min m (desiredCount env e)) r = desiredCount env e := by
        rw [hrec]
        simp only [Bool.or_eq_false_iff, decide_eq_false_iff_not, not_lt]
        constructor
        · rintro ⟨h1, h2⟩
          exact ⟨h1, by omega⟩
        · rintro ⟨h1, h2⟩
          exact ⟨h1, by omega⟩
      rw [htr]
      constructor
      · rintro ⟨⟨h1, h2⟩, h3⟩
        refine ⟨h1, fun x hx hsx => ?_⟩
        rcases List.mem_cons.mp hx with hx | hx
        · subst hx
          rw [hself]
          simp [h2]
        · exact h3 x hx hsx
      · rintro ⟨h1, h2⟩
        refine ⟨⟨h1, ?_⟩, fun x hx hsx => h2 x (List.mem_cons_of_mem _ hx) hsx⟩
        have := h2 e (List.mem_cons_self _ _) hs
        rw [hself] at this
        simpa using this

theorem handleImportData_plain_message_iff (env : Env) (s : State) (cards : List ImportEntry) :
    (handleImportData env s (docOf cards)).status.message = "Deck imported from JSON." ↔
      (importRun env s cards).truncated = false := by
  rw [handleImportData_message]
  cases (importRun env s cards).truncated <;> decide

/-- Away from the two defects the flag reports exactly whether a request was
reduced: for a document whose processed entries (usable
key, positive requested count) have a key other than `__proto__`, embed a card
with a numeric limit and have distinct keys, `handleImportData` ends with
`truncated = false` (and reports the plain import message) if and only if every
such entry is in the imported deck with exactly its requested count. -/
theorem truncated_false_iff_all_requests_kept (env : Env) (s : State)
    (cards : List ImportEntry)
    (hcards : ∀ e ∈ cards, skipped env e = false → StorableEntry e)
    (hkeys : ((processed env cards).map entryKey).Nodup) :
    ((importRun env s cards).truncated = false ↔
      ∀ e ∈ cards, skipped env e = false →
        (JsObject.get (handleImportData env s (docOf cards)).deck (entryKey e)).map
          DeckEntry.count = some (JsNum.int (desiredCount env e))) ∧
    ((handleImportData env s (docOf cards)).status.message = "Deck imported from JSON." ↔
      (importRun env s cards).truncated = false) := by
  refine ⟨?_, handleImportData_plain_message_iff env s cards⟩
  rw [handleImportData_deck]
  unfold importRun
  rw [importLoop_truncated_iff env s.apiBase cards
    { imported := [], importedProto := none, remaining := 50, truncated := false,
      cardIndex := s.cardIndex } 50 rfl hcards hkeys (fun _ _ _ => rfl)]
  simp

theorem truncated_false_iff_all_requests_kept_witness :
    (∀ e ∈ alphaCards, skipped offline e = false →
      (JsObject.get (handleImportData offline scenarioStart (docOf alphaCards)).deck
        (entryKey e)).map DeckEntry.count = some (JsNum.int (desiredCount offline e))) ∧
    ¬ (∀ e ∈ sevenCards, skipped offline e = false →
      (JsObject.get (handleImportData offline scenarioStart (docOf sevenCards)).deck
        (entryKey e)).map DeckEntry.count = some (JsNum.int (desiredCount offline e))) :=
  ⟨(truncated_false_iff_all_requests_kept offline scenarioStart alphaCards
      (by
        intro e he _
        simp only [alphaCards, List.mem_singleton] at he
        subst he
        exact ⟨by decide, cardA, 50, rfl, by decide⟩)
      (by decide)).1.mp (by decide),
   fun h => absurd
     ((truncated_false_iff_all_requests_kept offline scenarioStart sevenCards
       (by
        intro e he _
        simp only [sevenCards, List.mem_singleton] at he
        subst he
        exact ⟨by decide, cardB, 4, rfl, by decide⟩)
       (by decide)).1.mpr h) (by decide)⟩

/-- Away from the defect of the `__proto__` key the import clamps a single
request to the per-card limit: a document with one entry
that has a non-empty key `k` other than `__proto__`, an embedded card whose
per-card limit is 4 and a requested count above 4 is imported as the deck
`{k: 4}` with `truncated = true` (the truncation message is reported). -/
theorem import_clamps_to_card_limit (env : Env) (s : State) (e : ImportEntry) (k : String)
    (c : Card) (hk : importKey e = some k) (hne : k ≠ "") (hproto : k ≠ "__proto__")
    (hc : e.card = some c) (hl : perCardLimit (some c) = JsLimit.num 4)
    (hd : 4 < desiredCount env e) :
    (handleImportData env s (docOf [e])).deck
      = [(k, { card := some c, count := JsNum.int 4 })] ∧
    (importRun env s [e]).truncated = true ∧
    (handleImportData env s (docOf [e])).status.message
      = "Deck imported with truncation to fit limits." := by
  have hs : skipped env e = false :=
    (skipped_false_iff env e).mpr ⟨k, hk, hne, by omega⟩
  have hkey : entryKey e = k := entryKey_of_importKey e k hk
  have hrun : importRun env s [e] = recordEntry env
      { imported := [], importedProto := none, remaining := 50, truncated := false,
        cardIndex := s.cardIndex } e c := by
    unfold importRun
    simp [importLoop, hs, importCard_embedded env s.apiBase _ e c hc, JsNum.le]
  have hrec := recordEntry_numeric env
    { imported := [], importedProto := none, remaining := 50, truncated := false,
      cardIndex := s.cardIndex } e c 4 50 (by rw [hkey]; exact hproto) hl rfl
  have hmin : min (min (4 : Int) (desiredCount env e)) 50 = 4 := by omega
  rw [hmin] at hrec
  have htr : (importRun env s [e]).truncated = true := by
    rw [hrun, hrec]
    simpa using hd
  refine ⟨?_, htr, ?_⟩
  · rw [handleImportData_deck, hrun, hrec, hkey]
    show JsObject.set [] k _ = _
    unfold JsObject.set JsObject.insertNew
    cases arrayIndex? k <;> simp [JsObject.get, JsObject.insertIndexed]
  · rw [handleImportData_message, htr]
    rfl

theorem import_clamps_to_card_limit_witness :
    (handleImportData offline scenarioStart (docOf sevenCards)).deck
      = [("BP01-001", { card := some cardB, count := JsNum.int 4 })] ∧
    (importRun offline scenarioStart sevenCards).truncated = true :=
  have h := import_clamps_to_card_limit offline scenarioStart (entryOf "BP01-001" 7 cardB)
    "BP01-001" cardB (by decide) (by decide) (by decide) (by decide) (by decide) (by decide)
  ⟨h.1, h.2.1⟩

theorem cleanEntry_storable (env : Env) (e : ImportEntry) (h : CleanEntry env e) :
    StorableEntry e ∧ ∃ c m, e.card = some c ∧ perCardLimit (some c) = JsLimit.num m ∧
      desiredCount env e ≤ m := by
  obtain ⟨_, hkey, c, hc, hlim⟩ := h
  obtain ⟨x, m, hx, hm, hxm⟩ := (JsNum.le_iff _ _).mp hlim
  cases hx
  obtain ⟨hm', _⟩ := perCardLimit_toNum (some c) m hm
  exact ⟨⟨hkey, c, m, hc, hm'⟩, c, m, hc, hm', hxm⟩

/-- One iteration on a clean entry: either the loop stops, or the entry is
recorded with `min(desired, remaining)` copies. -/
theorem importLoop_clean_cases (env : Env) (base : String) (e : ImportEntry)
    (rest : List ImportEntry) (acc : ImportAcc) (r : Int) (hrem : acc.remaining = JsNum.int r)
    (h : CleanEntry env e) :
    (r ≤ 0 ∧ importLoop env base (e :: rest) acc = { acc with truncated := true }) ∨
    (∃ card, 0 < r ∧ 0 < desiredCount env e ∧
      importLoop env base (e :: rest) acc
        = importLoop env base rest (recordEntry env acc e card) ∧
      recordEntry env acc e card =
        { imported := JsObject.set acc.imported (entryKey e)
            { card := some card, count := JsNum.int (min (desiredCount env e) r) }
          importedProto := acc.importedProto
          remaining := JsNum.int (r - min (desiredCount env e) r)
          truncated := acc.truncated || decide (r < desiredCount env e)
          cardIndex := acc.cardIndex.set (entryKey e) card }) := by
  obtain ⟨⟨hkey, _⟩, c, m, hc, hm, hdm⟩ := cleanEntry_storable env e h
  have hs := h.1
  have hd := desired_pos_of_not_skipped env e hs
  by_cases hr : r ≤ 0
  · left
    refine ⟨hr, ?_⟩
    have : acc.remaining.le 0 = true := by
      rw [hrem, JsNum.zero_eq, JsNum.le_int_int, decide_eq_true_eq]
      exact hr
    simp [importLoop, hs, this]
  · right
    have hr0 : acc.remaining.le 0 = false := by
      rw [hrem, JsNum.zero_eq, JsNum.le_int_int, decide_eq_false_iff_not]
      exact hr
    refine ⟨c, by omega, hd, ?_, ?_⟩
    · simp [importLoop, hs, hr0, importCard_embedded env base _ e c hc]
    · rw [recordEntry_numeric env acc e c m r hkey hm hrem]
      have h1 : min (min m (desiredCount env e)) r = min (desiredCount env e) r := by omega
      have h2 : decide (min (desiredCount env e) r < desiredCount env e)
          = decide (r < desiredCount env e) := by
        apply decide_eq_decide.mpr
        constructor <;> intro h <;> omega
      rw [h1, h2]

theorem processed_clean (env : Env) (cards : List ImportEntry)
    (hmixed : ∀ e ∈ cards, skipped env e = true ∨ CleanEntry env e) :
    ∀ e ∈ processed env cards, CleanEntry env e := by
  intro e he
  simp only [processed, List.mem_filter, Bool.not_eq_true'] at he
  rcases hmixed e he.1 with h | h
  · rw [he.2] at h
    cases h
  · exact h

theorem importLoop_within_budget_mixed (env : Env) (base : String) (cards : List ImportEntry)
    (acc : ImportAcc) (r : Int) (hrem : acc.remaining = JsNum.int r)
    (hmixed : ∀ e ∈ cards, skipped env e = true ∨ CleanEntry env e)
    (hfit : requested env (processed env cards) ≤ r) :
    (importLoop env base cards acc).truncated = acc.truncated := by
  induction cards generalizing acc r with
  | nil => rfl
  | cons e rest ih =>
    have hrest : ∀ x ∈ rest, skipped env x = true ∨ CleanEntry env x :=
      fun x hx => hmixed x (List.mem_cons_of_mem _ hx)
    rcases hmixed e (List.mem_cons_self _ _) with hs | hc
    · have hl : importLoop env base (e :: rest) acc = importLoop env base rest acc := by
        simp [importLoop, hs]
      rw [hl]
      rw [processed_cons_skip env e rest hs] at hfit
      exact ih acc r hrem hrest hfit
    · rw [processed_cons_keep env e rest hc.1, requested_cons] at hfit
      have hnn := requested_nonneg env (processed env rest) (processed_clean env rest hrest)
      rcases importLoop_clean_cases env base e rest acc r hrem hc with
        ⟨hr, _⟩ | ⟨card, hr, hd, hl, hrec⟩
      · have hd := desired_pos_of_not_skipped env e hc.1
        omega
      · rw [hl, ih _ (r - min (desiredCount env e) r) (by rw [hrec]) hrest (by omega), hrec]
        have hno : ¬ r < desiredCount env e := by omega
        simp only [hno, decide_False, Bool.or_false]

/-- Away from the two defects, exhausting the budget exactly does not mark
truncation: for a document in which every entry either
fails the skip test (no usable key, or a count that coerces to `≤ 0`) or is
valid (usable key other than `__proto__`, embedded card, positive requested
count within the numeric per-card limit of its card), with distinct keys among
the valid entries and requests of at most 50 in total (in particular exactly
50), `handleImportData` reports `truncated = false` (the plain message) and
stores every valid entry with its full requested count, wherever the skipped
entries stand in the document. -/
theorem exact_budget_is_not_truncated (env : Env) (s : State) (cards : List ImportEntry)
    (hmixed : ∀ e ∈ cards, skipped env e = true ∨ CleanEntry env e)
    (hkeys : ((processed env cards).map entryKey).Nodup)
    (hsum : requested env (processed env cards) ≤ 50) :
    (importRun env s cards).truncated = false ∧
    (handleImportData env s (docOf cards)).status.message = "Deck imported from JSON." ∧
    ∀ e ∈ cards, skipped env e = false →
      (JsObject.get (handleImportData env s (docOf cards)).deck (entryKey e)).map
        DeckEntry.count = some (JsNum.int (desiredCount env e)) := by
  have htr : (importRun env s cards).truncated = false := by
    unfold importRun
    rw [importLoop_within_budget_mixed env s.apiBase cards
      { imported := [], importedProto := none, remaining := 50, truncated := false,
        cardIndex := s.cardIndex } 50 rfl hmixed hsum]
  have hall := ((importLoop_truncated_iff env s.apiBase cards
    { imported := [], importedProto := none, remaining := 50, truncated := false,
      cardIndex := s.cardIndex } 50 rfl
    (fun e he hs => by
      rcases hmixed e he with h | h
      · rw [hs] at h
        cases h
      · exact (cleanEntry_storable env e h).1)
    hkeys (fun _ _ _ => rfl)).mp htr).2
  refine ⟨htr, ?_, ?_⟩
  · rw [handleImportData_message, htr]
    rfl
  · intro e he hs
    rw [handleImportData_deck]
    exact hall e he hs

theorem exact_budget_is_not_truncated_witness :
    requested offline (processed offline exactFiftyCards) = 50 ∧
    (importRun offline scenarioStart exactFiftyCards).truncated = false ∧
    (JsObject.get (handleImportData offline scenarioStart (docOf exactFiftyCards)).deck
      "BP01-001").map DeckEntry.count = some (JsNum.int 4) :=
  have h := exact_budget_is_not_truncated offline scenarioStart exactFiftyCards
    (by
      intro e he
      simp only [exactFiftyCards, List.mem_cons, List.mem_singleton, List.not_mem_nil,
        or_false] at he
      rcases he with rfl | rfl | rfl | rfl | rfl | rfl | rfl
      · exact Or.inl (by decide)
      · exact Or.inr ⟨by decide, by decide, _, rfl, by decide⟩
      · exact Or.inl (by decide)
      · exact Or.inr ⟨by decide, by decide, _, rfl, by decide⟩
      · exact Or.inl (by decide)
      · exact Or.inl (by decide)
      · exact Or.inl (by decide))
    (by decide) (by decide)
  ⟨by decide, h.1, h.2.2 (entryOf "BP01-001" 4 cardB) (by decide) (by decide)⟩

theorem importLoop_over_budget (env : Env) (base : String) (cards : List ImportEntry)
    (acc : ImportAcc) (r : Int) (hrem : acc.remaining = JsNum.int r)
    (hclean : ∀ e ∈ cards, CleanEntry env e)
    (hkeys : (cards.map entryKey).Nodup)
    (hfresh : ∀ e ∈ cards, JsObject.get acc.imported (entryKey e) = none)
    (hnum : NumericDeck acc.imported)
    (h0 : 0 ≤ r) (hover : r < requested env cards) :
    (importLoop env base cards acc).truncated = true ∧
    NumericDeck (importLoop env base cards acc).imported ∧
    deckTotal (importLoop env base cards acc).imported = deckTotal acc.imported + r := by
  induction cards generalizing acc r with
  | nil => simp [requested] at hover; omega
  | cons e rest ih =>
    rw [requested_cons] at hover
    rw [List.map_cons, List.nodup_cons] at hkeys
    have hrest : ∀ x ∈ rest, CleanEntry env x := fun x hx => hclean x (List.mem_cons_of_mem _ hx)
    rcases importLoop_clean_cases env base e rest acc r hrem (hclean e (List.mem_cons_self _ _))
      with ⟨hr, hl⟩ | ⟨card, hr, hd, hl, hrec⟩
    · rw [hl]
      refine ⟨rfl, hnum, ?_⟩
      simp only
      omega
    · have hnum2 : NumericDeck (recordEntry env acc e card).imported := by
        rw [hrec]
        exact numeric_set _ _ _ _ rfl hnum
      have hdc : deckTotal (recordEntry env acc e card).imported
          = deckTotal acc.imported + min (desiredCount env e) r := by
        rw [hrec]
        simp only
        rw [deckTotal_set, hfresh e (List.mem_cons_self _ _)]
        simp [JsNum.toInt]
      rw [hl]
      by_cases hle : desiredCount env e ≤ r
      · have hfresh2 : ∀ x ∈ rest,
            JsObject.get (recordEntry env acc e card).imported (entryKey x) = none := by
          intro x hx
          have hne : entryKey x ≠ entryKey e := fun heq =>
            hkeys.1 (List.mem_map.mpr ⟨x, hx, heq⟩)
          rw [hrec]
          simp only [JsObject.get_set, if_neg hne, hfresh x (List.mem_cons_of_mem _ hx)]
        have hmin : min (desiredCount env e) r = desiredCount env e := by omega
        obtain ⟨h1, h2, h3⟩ := ih (recordEntry env acc e card) (r - min (desiredCount env e) r)
          (by rw [hrec]) hrest hkeys.2 hfresh2 hnum2 (by omega) (by omega)
        refine ⟨h1, h2, ?_⟩
        rw [h3, hdc]
        omega
      · have htr : (recordEntry env acc e card).truncated = true := by
          rw [hrec]
          simp only [Bool.or_eq_true, decide_eq_true_eq]
          right
          omega
        have hrem2 : (recordEntry env acc e card).remaining.le 0 = true := by
          rw [hrec]
          simp only [JsNum.zero_eq, JsNum.le_int_int, decide_eq_true_eq]
          omega
        refine ⟨importLoop_truncated_mono env base rest _ htr, ?_, ?_⟩
        · rw [importLoop_exhausted env base rest _ hrem2]
          exact hnum2
        · rw [importLoop_exhausted env base rest _ hrem2, hdc]
          omega

theorem importLoop_after_exhaustion (env : Env) (base : String)
    (pre post : List ImportEntry) (acc : ImportAcc) (r : Int)
    (hrem : acc.remaining = JsNum.int r)
    (hclean : ∀ e ∈ pre ++ post, CleanEntry env e)
    (hkeys : ((pre ++ post).map entryKey).Nodup)
    (hfresh : ∀ e ∈ pre ++ post, JsObject.get acc.imported (entryKey e) = none)
    (hspent : r ≤ requested env pre) :
    ∀ e ∈ post,
      JsObject.get (importLoop env base (pre ++ post) acc).imported (entryKey e) = none := by
  induction pre generalizing acc r with
  | nil =>
    intro e he
    simp only [requested, List.map_nil, List.sum_nil] at hspent
    have hex : acc.remaining.le 0 = true := by
      rw [hrem, JsNum.zero_eq, JsNum.le_int_int, decide_eq_true_eq]
      exact hspent
    rw [importLoop_exhausted env base _ acc hex]
    exact hfresh e (by simpa using he)
  | cons x pre ih =>
    intro e he
    rw [List.cons_append] at hclean hkeys hfresh ⊢
    rw [requested_cons] at hspent
    rw [List.map_cons, List.nodup_cons] at hkeys
    have hrest : ∀ y ∈ pre ++ post, CleanEntry env y :=
      fun y hy => hclean y (List.mem_cons_of_mem _ hy)
    have hnn := requested_nonneg env pre
      (fun y hy => hrest y (List.mem_append_left _ hy))
    rcases importLoop_clean_cases env base x (pre ++ post) acc r hrem
        (hclean x (List.mem_cons_self _ _)) with
      ⟨hr, hl⟩ | ⟨card, hr, hd, hl, hrec⟩
    · rw [hl]
      exact hfresh e (List.mem_cons_of_mem _ (List.mem_append_right _ he))
    · rw [hl]
      have hfresh2 : ∀ y ∈ pre ++ post,
          JsObject.get (recordEntry env acc x card).imported (entryKey y) = none := by
        intro y hy
        have hne : entryKey y ≠ entryKey x := fun heq =>
          hkeys.1 (List.mem_map.mpr ⟨y, hy, heq⟩)
        rw [hrec]
        simp only [JsObject.get_set, if_neg hne, hfresh y (List.mem_cons_of_mem _ hy)]
      exact ih (recordEntry env acc x card) (r - min (desiredCount env x) r) (by rw [hrec])
        hrest hkeys.2 hfresh2 (by omega) e he

/-- Away from the two defects the import caps the total at 50: for a document
whose entries all have usable non-empty keys other than `__proto__`, pairwise
distinct, embedded cards and positive requested counts
within the numeric per-card limit of their card, if the requests add up to more
than 50 then the imported deck has a total of exactly 50, `truncated = true`
(the truncation message is reported), and every entry after an initial part of
the document that already requests 50 or more is absent from the deck. -/
theorem import_caps_total_at_fifty (env : Env) (s : State) (cards : List ImportEntry)
    (hclean : ∀ e ∈ cards, CleanEntry env e)
    (hkeys : (cards.map entryKey).Nodup)
    (hover : 50 < requested env cards) :
    deckCount (handleImportData env s (docOf cards)).deck = JsNum.int 50 ∧
    (importRun env s cards).truncated = true ∧
    (handleImportData env s (docOf cards)).status.message
      = "Deck imported with truncation to fit limits." ∧
    ∀ pre post, cards = pre ++ post → 50 ≤ requested env pre →
      ∀ e ∈ post,
        JsObject.get (handleImportData env s (docOf cards)).deck (entryKey e) = none := by
  have hrun := importLoop_over_budget env s.apiBase cards
    { imported := [], importedProto := none, remaining := 50, truncated := false,
      cardIndex := s.cardIndex } 50 rfl hclean hkeys (fun _ _ => rfl)
    (fun p hp => by cases hp) (by decide) hover
  refine ⟨?_, hrun.1, ?_, ?_⟩
  · rw [handleImportData_deck]
    unfold importRun
    rw [deckCount_of_numeric _ hrun.2.1, hrun.2.2]
    rfl
  · rw [handleImportData_message]
    unfold importRun
    rw [hrun.1]
    rfl
  · intro pre post hsplit hpre e he
    subst hsplit
    rw [handleImportData_deck]
    exact importLoop_after_exhaustion env s.apiBase pre post
      { imported := [], importedProto := none, remaining := 50, truncated := false,
        cardIndex := s.cardIndex } 50 rfl hclean hkeys (fun _ _ => rfl) hpre e he

theorem import_caps_total_at_fifty_witness :
    50 < requested offline sixtyCards ∧
    deckCount (handleImportData offline scenarioStart (docOf sixtyCards)).deck = JsNum.int 50 ∧
    (importRun offline scenarioStart sixtyCards).truncated = true ∧
    JsObject.get (handleImportData offline scenarioStart (docOf sixtyCards)).deck "BP01-003"
      = none ∧
    JsObject.get (handleImportData offline scenarioStart (docOf sixtyCards)).deck "BP01-004"
      = none :=
  have h := import_caps_total_at_fifty offline scenarioStart sixtyCards
    (by
      intro e he
      simp only [sixtyCards, List.mem_cons, List.mem_singleton, List.not_mem_nil, or_false] at he
      rcases he with rfl | rfl | rfl | rfl | rfl <;>
        exact ⟨by decide, by decide, _, rfl, by decide⟩)
    (by decide) (by decide)
  ⟨by decide, h.1, h.2.1,
   h.2.2.2 (sixtyCards.take 3) (sixtyCards.drop 3) (by decide) (by decide)
     (entryOf "BP01-003" 4 [("number", JsVal.str "BP01-003")]) (by decide),
   h.2.2.2 (sixtyCards.take 3) (sixtyCards.drop 3) (by decide) (by decide)
     (entryOf "BP01-004" 4 [("number", JsVal.str "BP01-004")]) (by decide)⟩

/-! ## Text clamping -/

theorem clampSearch_unfold (measure : String → ℚ) (text : String) (maxWidth : ℚ)
    (left right : Nat) (result : String) :
    clampSearch measure text maxWidth left right result =
      if left < right then
        if measure (clampCandidate text ((left + right) / 2)) ≤ maxWidth then
          clampSearch measure text maxWidth ((left + right) / 2 + 1) right
            (clampCandidate text ((left + right) / 2))
        else
          clampSearch measure text maxWidth left ((left + right) / 2) result
      else result := by
  rw [clampSearch]
  split_ifs <;> rfl

theorem clampCandidate_zero (text : String) : clampCandidate text 0 = ellipsis := by
  unfold clampCandidate jsSlice
  simp

theorem clampCandidate_ne_empty (text : String) (k : Nat) : clampCandidate text k ≠ "" := by
  intro h
  have hl : (clampCandidate text k).length = 0 := by rw [h]; rfl
  simp [clampCandidate, ellipsis, String.length_append] at hl
  have : ("...".length) = 3 := by decide
  omega

/-- The loop exits within `fuel` iterations when the search interval is shorter
than `2 ^ fuel`, and the cut loop then returns the value of the loop. -/
theorem clampRun_eq_search (measure : String → ℚ) (text : String) (maxWidth : ℚ)
    (fuel left right : Nat) (result : String) (h : right - left < 2 ^ fuel) :
    clampRun measure text maxWidth fuel left right result
      = some (clampSearch measure text maxWidth left right result) := by
  induction fuel generalizing left right result with
  | zero =>
    have hle : ¬ left < right := by
      simp only [pow_zero] at h
      omega
    rw [clampSearch_unfold]
    simp [clampRun, hle]
  | succ fuel ih =>
    have hpow : 2 ^ (fuel + 1) = 2 * 2 ^ fuel := by ring
    rw [clampSearch_unfold]
    simp only [clampRun]
    by_cases hlt : left < right
    · simp only [hlt, if_true]
      by_cases hfit : measure (clampCandidate text ((left + right) / 2)) ≤ maxWidth
      · simp only [hfit, if_true]
        exact ih _ _ _ (by omega)
      · simp only [hfit, if_false]
        exact ih _ _ _ (by omega)
    · simp [hlt]

/-- What the loop returns, for any measurement: a candidate of the interval
that fits, or the incoming `result` after the candidate for `left` failed. -/
theorem clampSearch_cases (measure : String → ℚ) (text : String) (maxWidth : ℚ)
    (n : Nat) : ∀ (left right : Nat) (result : String), right - left = n →
      (∃ k, left ≤ k ∧ k < right ∧
        clampSearch measure text maxWidth left right result = clampCandidate text k ∧
        measure (clampCandidate text k) ≤ maxWidth) ∨
      (clampSearch measure text maxWidth left right result = result ∧
        (left < right → ¬ measure (clampCandidate text left) ≤ maxWidth)) := by
  induction n using Nat.strong_induction_on with
  | _ n ih =>
    intro left right result hn
    rw [clampSearch_unfold]
    by_cases hlt : left < right
    · rw [if_pos hlt]
      by_cases hfit : measure (clampCandidate text ((left + right) / 2)) ≤ maxWidth
      · rw [if_pos hfit]
        rcases ih (right - ((left + right) / 2 + 1)) (by omega) ((left + right) / 2 + 1) right
            (clampCandidate text ((left + right) / 2)) rfl with
          ⟨k, hk1, hk2, hk3, hk4⟩ | ⟨h1, _⟩
        · exact Or.inl ⟨k, by omega, hk2, hk3, hk4⟩
        · exact Or.inl ⟨(left + right) / 2, by omega, by omega, h1, hfit⟩
      · rw [if_neg hfit]
        rcases ih ((left + right) / 2 - left) (by omega) left ((left + right) / 2) result rfl with
          ⟨k, hk1, hk2, hk3, hk4⟩ | ⟨h1, h2⟩
        · exact Or.inl ⟨k, hk1, by omega, hk3, hk4⟩
        · refine Or.inr ⟨h1, fun _ => ?_⟩
          by_cases hm : left < (left + right) / 2
          · exact h2 hm
          · have : (left + right) / 2 = left := by omega
            rw [this] at hfit
            exact hfit
    · rw [if_neg hlt]
      exact Or.inr ⟨rfl, fun h => absurd h hlt⟩

/-- What the loop returns when the candidate widths do not decrease with the
prefix length: the candidate of the largest prefix length that fits, or the
incoming `result` when no candidate from `left` on fits. -/
theorem clampSearch_largest (measure : String → ℚ) (text : String) (maxWidth : ℚ)
    (hmono : ∀ j k, j ≤ k → k < text.length →
      measure (clampCandidate text j) ≤ measure (clampCandidate text k))
    (n : Nat) : ∀ (left right : Nat) (result : String), right - left = n →
      right ≤ text.length →
      (∀ j, right ≤ j → j < text.length → ¬ measure (clampCandidate text j) ≤ maxWidth) →
      (∃ k, left ≤ k ∧ k < right ∧
        clampSearch measure text maxWidth left right result = clampCandidate text k ∧
        measure (clampCandidate text k) ≤ maxWidth ∧
        ∀ j, k < j → j < text.length → ¬ measure (clampCandidate text j) ≤ maxWidth) ∨
      (clampSearch measure text maxWidth left right result = result ∧
        ∀ j, left ≤ j → j < text.length → ¬ measure (clampCandidate text j) ≤ maxWidth) := by
  induction n using Nat.strong_induction_on with
  | _ n ih =>
    intro left right result hn hr hout
    rw [clampSearch_unfold]
    by_cases hlt : left < right
    · rw [if_pos hlt]
      by_cases hfit : measure (clampCandidate text ((left + right) / 2)) ≤ maxWidth
      · rw [if_pos hfit]
        rcases ih (right - ((left + right) / 2 + 1)) (by omega) ((left + right) / 2 + 1) right
            (clampCandidate text ((left + right) / 2)) rfl hr hout with
          ⟨k, hk1, hk2, hk3, hk4, hk5⟩ | ⟨h1, h2⟩
        · exact Or.inl ⟨k, by omega, hk2, hk3, hk4, hk5⟩
        · exact Or.inl ⟨(left + right) / 2, by omega, by omega, h1, hfit,
            fun j hj hjl => h2 j (by omega) hjl⟩
      · rw [if_neg hfit]
        have hout2 : ∀ j, (left + right) / 2 ≤ j → j < text.length →
            ¬ measure (clampCandidate text j) ≤ maxWidth := by
          intro j hj hjl hjfit
          exact hfit (le_trans (hmono _ j hj hjl) hjfit)
        rcases ih ((left + right) / 2 - left) (by omega) left ((left + right) / 2) result rfl
            (by omega) hout2 with
          ⟨k, hk1, hk2, hk3, hk4, hk5⟩ | ⟨h1, h2⟩
        · exact Or.inl ⟨k, hk1, by omega, hk3, hk4, hk5⟩
        · exact Or.inr ⟨h1, h2⟩
    · rw [if_neg hlt]
      refine Or.inr ⟨rfl, fun j hj hjl => hout j (by omega) hjl⟩

theorem clampCanvasText_wide (measure : String → ℚ) (text : String) (maxWidth : ℚ)
    (hne : text ≠ "") (hwide : maxWidth < measure text) :
    clampCanvasText measure text maxWidth
      = clampSearch measure text maxWidth 0 text.length ellipsis := by
  have : ¬ measure text ≤ maxWidth := not_le.mpr hwide
  simp [clampCanvasText, hne, this]

theorem clampCanvasText_fits (measure : String → ℚ) (text : String) (maxWidth : ℚ)
    (hfit : measure text ≤ maxWidth) : clampCanvasText measure text maxWidth = text := by
  unfold clampCanvasText
  by_cases h : text = ""
  · simp [h]
  · simp [h, hfit]

theorem length_pos_of_ne_empty (text : String) (h : text ≠ "") : 0 < text.length := by
  obtain ⟨data⟩ := text
  cases data with
  | nil => exact absurd rfl h
  | cons c cs => simp [String.length]

/-- Evaluation of `clampCanvasText` on a text that is too wide, through the
loop cut after `|text|` iterations. -/
theorem clampCanvasText_of_run (measure : String → ℚ) (text : String) (maxWidth : ℚ)
    (r : String) (hne : text ≠ "") (hwide : maxWidth < measure text)
    (hrun : clampRun measure text maxWidth text.length 0 text.length ellipsis = some r) :
    clampCanvasText measure text maxWidth = r := by
  rw [clampCanvasText_wide measure text maxWidth hne hwide]
  rw [clampRun_eq_search measure text maxWidth text.length 0 text.length ellipsis
    (by simpa using Nat.lt_two_pow text.length)] at hrun
  exact Option.some.inj hrun

theorem jsSlice_length (text : String) (k : Nat) :
    (jsSlice text k).length = min k text.length := by
  obtain ⟨data⟩ := text
  exact List.length_take k data

theorem tenPerChar_candidate (text : String) (k : Nat) :
    tenPerChar (clampCandidate text k) = ((10 * (min k text.length + 3) : Nat) : ℚ) := by
  have h3 : ellipsis.length = 3 := by decide
  simp only [tenPerChar, clampCandidate, String.length_append, jsSlice_length, h3]

theorem tenPerChar_mono (text : String) (j k : Nat) (h : j ≤ k) :
    tenPerChar (clampCandidate text j) ≤ tenPerChar (clampCandidate text k) := by
  rw [tenPerChar_candidate, tenPerChar_candidate]
  exact Nat.cast_le.mpr (by omega)

/-- C17, as stated, fails: with every character 10 wide and `maxWidth = 5` the
text `abcd` is too wide, no candidate fits, and the result is the bare ellipsis,
whose width 30 exceeds `maxWidth`. -/
theorem clamp_bare_ellipsis_overflows :
    (5 : ℚ) < tenPerChar "abcd" ∧
    clampCanvasText tenPerChar "abcd" 5 = "..." ∧
    ¬ tenPerChar (clampCanvasText tenPerChar "abcd" 5) ≤ 5 :=
  have h : clampCanvasText tenPerChar "abcd" 5 = "..." :=
    clampCanvasText_of_run tenPerChar "abcd" 5 "..." (by decide) (by decide) (by decide)
  ⟨by decide, h, by rw [h]; decide⟩

/-- C17 (amended): for every non-empty text whose measured width exceeds
`maxWidth`, for every measurement and `maxWidth`, `clampCanvasText` returns a
prefix of the text shorter than the text followed by the ellipsis; its measured
width is at most `maxWidth` whenever the bare ellipsis fits, and otherwise the
result either fits or is the bare ellipsis. -/
theorem clamp_result_ends_in_ellipsis (measure : String → ℚ) (text : String) (maxWidth : ℚ)
    (hne : text ≠ "") (hwide : maxWidth < measure text) :
    (∃ k, k < text.length ∧
      clampCanvasText measure text maxWidth = jsSlice text k ++ ellipsis) ∧
    (measure ellipsis ≤ maxWidth →
      measure (clampCanvasText measure text maxWidth) ≤ maxWidth) ∧
    (measure (clampCanvasText measure text maxWidth) ≤ maxWidth ∨
      clampCanvasText measure text maxWidth = ellipsis) := by
  have hpos := length_pos_of_ne_empty text hne
  rw [clampCanvasText_wide measure text maxWidth hne hwide]
  rcases clampSearch_cases measure text maxWidth text.length 0 text.length ellipsis rfl with
    ⟨k, _, hk, hr, hfit⟩ | ⟨hr, hfail⟩
  · rw [hr]
    exact ⟨⟨k, hk, rfl⟩, fun _ => hfit, Or.inl hfit⟩
  · rw [hr]
    refine ⟨⟨0, hpos, (clampCandidate_zero text).symm⟩, fun h => ?_, Or.inr rfl⟩
    have := hfail hpos
    rw [clampCandidate_zero] at this
    exact absurd h this

/-- C17 (amended) at `abcdefgh` with every character 10 wide and `maxWidth = 55`:
the result is `ab...`, of width 50. -/
theorem clamp_result_ends_in_ellipsis_witness :
    (55 : ℚ) < tenPerChar "abcdefgh" ∧
    clampCanvasText tenPerChar "abcdefgh" 55 = "ab..." ∧
    tenPerChar (clampCanvasText tenPerChar "abcdefgh" 55) ≤ 55 :=
  ⟨by decide,
   clampCanvasText_of_run tenPerChar "abcdefgh" 55 "ab..." (by decide) (by decide) (by decide),
   (clamp_result_ends_in_ellipsis tenPerChar "abcdefgh" 55 (by decide) (by decide)).2.1
     (by decide)⟩

/-- C18, as stated, fails: under a measurement for which only the string of four
dots is narrow, `abcdefgh` is clamped to the bare ellipsis, and clamping the
bare ellipsis again returns four dots. -/
theorem clamp_twice_differs :
    clampCanvasText fourDotsNarrow "abcdefgh" 50 = "..." ∧
    clampCanvasText fourDotsNarrow (clampCanvasText fourDotsNarrow "abcdefgh" 50) 50 = "...." ∧
    clampCanvasText fourDotsNarrow (clampCanvasText fourDotsNarrow "abcdefgh" 50) 50
      ≠ clampCanvasText fourDotsNarrow "abcdefgh" 50 :=
  have h1 : clampCanvasText fourDotsNarrow "abcdefgh" 50 = "..." :=
    clampCanvasText_of_run fourDotsNarrow "abcdefgh" 50 "..." (by decide) (by decide) (by decide)
  have h2 : clampCanvasText fourDotsNarrow "..." 50 = "...." :=
    clampCanvasText_of_run fourDotsNarrow "..." 50 "...." (by decide) (by decide) (by decide)
  ⟨h1, by rw [h1, h2], by rw [h1, h2]; decide⟩

/-- C18 (amended): for every text, `maxWidth` and measurement under which the
bare ellipsis fits or four dots do not fit (so for every measurement that does
not shrink when a character is appended), clamping the output of
`clampCanvasText` again returns that output unchanged. -/
theorem clamp_idempotent (measure : String → ℚ) (text : String) (maxWidth : ℚ)
    (hdots : measure ellipsis ≤ maxWidth ∨ maxWidth < measure "....") :
    clampCanvasText measure (clampCanvasText measure text maxWidth) maxWidth
      = clampCanvasText measure text maxWidth := by
  by_cases hne : text = ""
  · subst hne
    simp [clampCanvasText]
  · by_cases hfit : measure text ≤ maxWidth
    · rw [clampCanvasText_fits measure text maxWidth hfit,
        clampCanvasText_fits measure text maxWidth hfit]
    · have hwide : maxWidth < measure text := not_le.mp hfit
      have hpos := length_pos_of_ne_empty text hne
      rw [clampCanvasText_wide measure text maxWidth hne hwide]
      rcases clampSearch_cases measure text maxWidth text.length 0 text.length ellipsis rfl with
        ⟨k, _, _, hr, hkfit⟩ | ⟨hr, hfail⟩
      · rw [hr]
        exact clampCanvasText_fits measure _ maxWidth hkfit
      · rw [hr]
        have hno : ¬ measure ellipsis ≤ maxWidth := by
          have := hfail hpos
          rwa [clampCandidate_zero] at this
        have h4 : ¬ measure "...." ≤ maxWidth := by
          rcases hdots with h | h
          · exact absurd h hno
          · exact not_le.mpr h
        have hc1 : clampCandidate ellipsis 1 = "...." := by decide
        have hc0 : clampCandidate ellipsis 0 = ellipsis := clampCandidate_zero ellipsis
        have hlen : ellipsis.length = 3 := by decide
        apply clampCanvasText_of_run measure ellipsis maxWidth ellipsis (by decide)
          (not_le.mp hno)
        rw [hlen]
        simp [clampRun, hc1, hc0, h4, hno]

/-- C18 (amended) at `abcdefgh` with every character 10 wide and
`maxWidth = 55`. -/
theorem clamp_idempotent_witness :
    (tenPerChar ellipsis ≤ 55 ∨ (55 : ℚ) < tenPerChar "....") ∧
    clampCanvasText tenPerChar (clampCanvasText tenPerChar "abcdefgh" 55) 55
      = clampCanvasText tenPerChar "abcdefgh" 55 :=
  ⟨by decide, clamp_idempotent tenPerChar "abcdefgh" 55 (by decide)⟩

/-- C19, as stated, fails: the empty text with `maxWidth = -1` is wider than
`maxWidth` and has no prefix that fits, yet the result is the empty text and
not the bare ellipsis. -/
theorem clamp_empty_text_stays_empty :
    ¬ tenPerChar "" ≤ -1 ∧
    (∀ j k, j ≤ k → k < "".length →
      tenPerChar (clampCandidate "" j) ≤ tenPerChar (clampCandidate "" k)) ∧
    (∀ k, 1 ≤ k → k < "".length → ¬ tenPerChar (clampCandidate "" k) ≤ -1) ∧
    clampCanvasText tenPerChar "" (-1) = "" ∧
    clampCanvasText tenPerChar "" (-1) ≠ "..." :=
  ⟨by decide, fun _ k _ hk => absurd hk (Nat.not_lt_zero k),
   fun k _ hk => absurd hk (Nat.not_lt_zero k), by simp [clampCanvasText],
   by simp [clampCanvasText]⟩

/-- C19 (amended): if the full text fits, `clampCanvasText` returns it
unmodified.  Otherwise, for a non-empty text whose candidate widths
(`text[0..k) + "..."`) do not decrease with `k`, the result is the candidate of
the largest prefix length `k < |text|` that fits, and the bare ellipsis when no
non-empty prefix fits.  The loop exits within `fuel` iterations whenever
`right - left < 2 ^ fuel`, so within `|text|` iterations from the start. -/
theorem clamp_keeps_longest_fit (measure : String → ℚ) (text : String)
    (maxWidth : ℚ) :
    (measure text ≤ maxWidth → clampCanvasText measure text maxWidth = text) ∧
    (text ≠ "" → maxWidth < measure text →
      (∀ j k, j ≤ k → k < text.length →
        measure (clampCandidate text j) ≤ measure (clampCandidate text k)) →
      (∀ k, k < text.length → measure (clampCandidate text k) ≤ maxWidth →
        (∀ j, j < text.length → measure (clampCandidate text j) ≤ maxWidth → j ≤ k) →
        clampCanvasText measure text maxWidth = jsSlice text k ++ ellipsis) ∧
      ((∀ k, 1 ≤ k → k < text.length → ¬ measure (clampCandidate text k) ≤ maxWidth) →
        clampCanvasText measure text maxWidth = ellipsis)) ∧
    (∀ fuel left right result, right - left < 2 ^ fuel →
      clampRun measure text maxWidth fuel left right result
        = some (clampSearch measure text maxWidth left right result)) ∧
    clampRun measure text maxWidth text.length 0 text.length ellipsis
      = some (clampSearch measure text maxWidth 0 text.length ellipsis) := by
  refine ⟨clampCanvasText_fits measure text maxWidth, ?_,
    fun fuel left right result h =>
      clampRun_eq_search measure text maxWidth fuel left right result h,
    clampRun_eq_search measure text maxWidth text.length 0 text.length ellipsis
      (by simpa using Nat.lt_two_pow text.length)⟩
  intro hne hwide hmono
  rw [clampCanvasText_wide measure text maxWidth hne hwide]
  have hcases := clampSearch_largest measure text maxWidth hmono text.length 0 text.length
    ellipsis rfl (le_refl _) (fun j hj hjl => absurd hjl (not_lt.mpr hj))
  constructor
  · intro k hk hkfit hmax
    rcases hcases with ⟨k0, _, hk0, hr, hfit0, habove⟩ | ⟨_, hnone⟩
    · have h1 : k0 ≤ k := hmax k0 hk0 hfit0
      have h2 : ¬ k0 < k := fun hlt => habove k hlt hk hkfit
      have : k0 = k := by omega
      rw [hr, this]
      rfl
    · exact absurd hkfit (hnone k (Nat.zero_le _) hk)
  · intro hnone
    rcases hcases with ⟨k0, _, hk0, hr, hfit0, _⟩ | ⟨hr, _⟩
    · have : k0 = 0 := by
        by_contra hk
        exact hnone k0 (by omega) hk0 hfit0
      rw [hr, this, clampCandidate_zero]
    · exact hr

/-- C19 (amended) at `abcdefgh` with every character 10 wide and
`maxWidth = 55`: the longest candidate that fits keeps two characters. -/
theorem clamp_keeps_longest_fit_witness :
    (55 : ℚ) < tenPerChar "abcdefgh" ∧
    clampCanvasText tenPerChar "abcdefgh" 55 = jsSlice "abcdefgh" 2 ++ ellipsis ∧
    clampCanvasText tenPerChar "ab" 55 = "ab" :=
  have h := clamp_keeps_longest_fit tenPerChar "abcdefgh" 55
  ⟨by decide,
   (h.2.1 (by decide) (by decide) (fun j k hjk _ => tenPerChar_mono "abcdefgh" j k hjk)).1 2
     (by decide) (by decide)
     (by
       intro j hj hfit
       rw [tenPerChar_candidate] at hfit
       have h8 : "abcdefgh".length = 8 := by decide
       rw [h8] at hj hfit
       have : (10 * (min j 8 + 3) : Nat) ≤ 55 := by exact_mod_cast hfit
       omega),
   (clamp_keeps_longest_fit tenPerChar "ab" 55).1 (by decide)⟩

/-! ## Grid layout of the deck image -/

theorem tileRows_eq_ceil (n : Nat) : tileRows n = ⌈(n : ℚ) / 4⌉₊ := by
  unfold tileRows perRow
  apply le_antisymm
  · have h := Nat.le_ceil ((n : ℚ) / 4)
    rw [div_le_iff₀ (by norm_num)] at h
    have h2 : n ≤ ⌈(n : ℚ) / 4⌉₊ * 4 := by exact_mod_cast h
    omega
  · rw [Nat.ceil_le, div_le_iff₀ (by norm_num)]
    have h2 : n ≤ (n + 4 - 1) / 4 * 4 := by omega
    exact_mod_cast h2

theorem drawTiles_length (i : Nat) (es : List DeckEntry) :
    (drawTiles i es).length = es.length := by
  induction es generalizing i with
  | nil => rfl
  | cons e rest ih => simp [drawTiles, ih]

theorem drawTiles_get (i j : Nat) (es : List DeckEntry) :
    (drawTiles i es)[j]? = (es[j]?).map (tileAt (i + j)) := by
  induction es generalizing i j with
  | nil => simp [drawTiles]
  | cons e rest ih =>
    cases j with
    | zero => simp [drawTiles]
    | succ j =>
      simp only [drawTiles, List.getElem?_cons_succ]
      rw [ih]
      have : i + 1 + j = i + (j + 1) := by omega
      rw [this]

theorem tileAt_apart (i j : Nat) (a b : DeckEntry) (h : i ≠ j) :
    (tileAt i a).apart (tileAt j b) := by
  simp only [Tile.apart, tileAt, gap, perRow, cardW, cardH]
  omega

/-- C20: for every deck with `n ≥ 1` entries the canvas is
`(gap + 4*(220+gap)) * scale = 960 * scale` wide and
`(gap + ceil(n/4)*(320+gap)) * scale` high with `scale` 1 or 2; one tile is
drawn per entry; the tile of index `i < n` is at
`x = gap + (i mod 4)*(220+gap)`, `y = gap + floor(i/4)*(320+gap)` with size
`220 x 320` and lies inside the unscaled canvas with a margin of at least `gap`
on every side; tiles of two different indices are at least `gap` apart, so they
never overlap. -/
theorem grid_layout_fits_canvas (d : Deck) (devicePixelRatio : ℚ) (hn : 1 ≤ d.length) :
    ∃ img, exportDeckImage d devicePixelRatio = some img ∧
      (img.scale = 1 ∨ img.scale = 2) ∧
      img.width = 960 * img.scale ∧
      img.height = (16 + ⌈(d.length : ℚ) / 4⌉₊ * (320 + 16)) * img.scale ∧
      img.tiles.length = d.length ∧
      (∀ i, i < d.length → ∃ t, img.tiles[i]? = some t ∧
        t.x = 16 + (i % 4) * (220 + 16) ∧ t.y = 16 + (i / 4) * (320 + 16) ∧
        t.w = 220 ∧ t.h = 320 ∧
        16 ≤ t.x ∧ t.x + t.w + 16 ≤ 960 ∧
        16 ≤ t.y ∧ t.y + t.h + 16 ≤ 16 + ⌈(d.length : ℚ) / 4⌉₊ * (320 + 16)) ∧
      (∀ (i j : Nat) (ti tj : Tile), i ≠ j →
        img.tiles[i]? = some ti → img.tiles[j]? = some tj → ti.apart tj) := by
  have hlen : (d.map Prod.snd).length = d.length := List.length_map _ _
  have hne : ¬ (d.map Prod.snd).length = 0 := by omega
  have hceil := tileRows_eq_ceil d.length
  refine ⟨{ width := baseWidth * imageScale devicePixelRatio,
            height := baseHeight (d.map Prod.snd).length * imageScale devicePixelRatio,
            scale := imageScale devicePixelRatio,
            tiles := drawTiles 0 (d.map Prod.snd) },
    by simp only [exportDeckImage, hne, if_false], ?_, ?_, ?_, ?_, ?_, ?_⟩
  · simp only [imageScale]
    split_ifs
    · exact Or.inr rfl
    · exact Or.inl rfl
  · rfl
  · simp only [hlen, baseHeight, hceil, gap, cardH]
  · simp only [drawTiles_length, hlen]
  · intro i hi
    have hget : (d.map Prod.snd)[i]? = some ((d.map Prod.snd)[i]) :=
      List.getElem?_eq_getElem (by omega)
    refine ⟨tileAt i ((d.map Prod.snd)[i]), ?_, rfl, rfl, rfl, rfl, ?_⟩
    · simp only [drawTiles_get, hget, Option.map_some', Nat.zero_add]
    · rw [← hceil]
      simp only [tileAt, tileRows, gap, perRow, cardW, cardH]
      omega
  · intro i j ti tj hij hi hj
    simp only [drawTiles_get, Nat.zero_add] at hi hj
    obtain ⟨a, _, rfl⟩ := Option.map_eq_some'.mp hi
    obtain ⟨b, _, rfl⟩ := Option.map_eq_some'.mp hj
    exact tileAt_apart i j a b hij

/-- C20 at a deck of five entries on a high-density display: two rows. -/
theorem grid_layout_fits_canvas_witness :
    1 ≤ fiveDeck.length ∧
    (exportDeckImage fiveDeck 2).map DeckImage.width = some 1920 ∧
    (exportDeckImage fiveDeck 2).map DeckImage.height = some 1376 ∧
    ∃ img, exportDeckImage fiveDeck 2 = some img ∧ img.width = 960 * img.scale ∧
      img.tiles.length = fiveDeck.length ∧
      ∃ t, img.tiles[4]? = some t ∧ t.x = 16 ∧ t.y = 352 :=
  ⟨by decide, by decide, by decide,
   (grid_layout_fits_canvas fiveDeck 2 (by decide)).imp (fun _ h =>
     ⟨h.1, h.2.2.1, h.2.2.2.2.1,
      (h.2.2.2.2.2.1 4 (by decide)).imp (fun _ ht => ⟨ht.1, ht.2.1, ht.2.2.1⟩)⟩)⟩

/-- A measurement that does not shrink when text is appended satisfies the
condition on the dots used for idempotence. -/
theorem dots_condition_of_monotone (measure : String → ℚ) (maxWidth : ℚ)
    (hmono : ∀ t u : String, measure t ≤ measure (t ++ u)) :
    measure ellipsis ≤ maxWidth ∨ maxWidth < measure "...." := by
  by_cases h : measure ellipsis ≤ maxWidth
  · exact Or.inl h
  · right
    have h4 : ellipsis ++ "." = "...." := by decide
    have := hmono ellipsis "."
    rw [h4] at this
    exact lt_of_lt_of_le (not_le.mp h) this

/-! ## Rounding to binary64 -/

theorem roundNearestEven_abs (q : ℚ) : |(roundNearestEven q : ℚ) - q| ≤ 1 / 2 := by
  have h1 := Int.floor_le q
  have h2 := Int.lt_floor_add_one q
  unfold roundNearestEven
  rw [abs_le]
  split_ifs with ha hb hc
  · constructor <;> linarith
  · push_cast
    constructor <;> linarith
  · constructor <;> linarith
  · push_cast
    constructor <;> linarith

theorem roundNearestEven_of_near (q : ℚ) (n : ℤ) (h : |q - n| < 1 / 2) :
    roundNearestEven q = n := by
  rw [abs_lt] at h
  obtain ⟨h1, h2⟩ := h
  unfold roundNearestEven
  by_cases hq : (n : ℚ) ≤ q
  · have hf : ⌊q⌋ = n := by
      rw [Int.floor_eq_iff]
      constructor <;> linarith
    rw [hf, if_pos (by linarith)]
  · push_neg at hq
    have hf : ⌊q⌋ = n - 1 := by
      rw [Int.floor_eq_iff]
      push_cast
      constructor <;> linarith
    rw [hf]
    push_cast
    rw [if_neg (by linarith), if_pos (by linarith)]
    ring

theorem roundNearestEven_intCast (n : ℤ) : roundNearestEven (n : ℚ) = n :=
  roundNearestEven_of_near _ n (by simp)

theorem log_two_spec (x : ℚ) (hx : 0 < x) :
    (2 : ℚ) ^ (Int.log 2 x) ≤ x ∧ x < (2 : ℚ) ^ (Int.log 2 x + 1) := by
  have h1 := Int.zpow_log_le_self (b := 2) (by norm_num) hx
  have h2 := Int.lt_zpow_succ_log_self (b := 2) (by norm_num) x
  exact ⟨by exact_mod_cast h1, by exact_mod_cast h2⟩

theorem log_two_eq (x : ℚ) (e : ℤ) (hx : 0 < x) (hlo : (2 : ℚ) ^ e ≤ x)
    (hhi : x < (2 : ℚ) ^ (e + 1)) : Int.log 2 x = e := by
  have h1 : e ≤ Int.log 2 x := by
    rw [← Int.zpow_le_iff_le_log (by norm_num) hx]
    exact_mod_cast hlo
  have h2 : Int.log 2 x < e + 1 := by
    rw [← Int.lt_zpow_iff_log_lt (by norm_num) hx]
    exact_mod_cast hhi
  omega

/-- The relative error of one rounding is at most `2^-53`. -/
theorem binary64_rel (x : ℚ) : |binary64 x - x| ≤ |x| / 2 ^ 53 := by
  unfold binary64
  split_ifs with h0
  · simp [h0]
  · have hpos : 0 < |x| := abs_pos.mpr h0
    obtain ⟨hlo, _⟩ := log_two_spec |x| hpos
    have hs : (0 : ℚ) < (2 : ℚ) ^ (Int.log 2 |x| - 52) := zpow_pos (by norm_num) _
    have hr := roundNearestEven_abs (x / (2 : ℚ) ^ (Int.log 2 |x| - 52))
    have heq : (roundNearestEven (x / (2 : ℚ) ^ (Int.log 2 |x| - 52)) : ℚ)
          * (2 : ℚ) ^ (Int.log 2 |x| - 52) - x
        = ((roundNearestEven (x / (2 : ℚ) ^ (Int.log 2 |x| - 52)) : ℚ)
          - x / (2 : ℚ) ^ (Int.log 2 |x| - 52)) * (2 : ℚ) ^ (Int.log 2 |x| - 52) := by
      field_simp
    rw [heq, abs_mul, abs_of_pos hs]
    have hsplit : (2 : ℚ) ^ (Int.log 2 |x| - 52) = (2 : ℚ) ^ (Int.log 2 |x|) / 2 ^ 52 := by
      rw [zpow_sub₀ (by norm_num)]
      norm_num
    calc |(roundNearestEven (x / (2 : ℚ) ^ (Int.log 2 |x| - 52)) : ℚ)
            - x / (2 : ℚ) ^ (Int.log 2 |x| - 52)| * (2 : ℚ) ^ (Int.log 2 |x| - 52)
        ≤ 1 / 2 * (2 : ℚ) ^ (Int.log 2 |x| - 52) :=
          mul_le_mul_of_nonneg_right hr (le_of_lt hs)
      _ = (2 : ℚ) ^ (Int.log 2 |x|) / 2 ^ 53 := by
          rw [hsplit]
          norm_num
          ring
      _ ≤ |x| / 2 ^ 53 := by
          apply div_le_div_of_nonneg_right hlo
          norm_num

/-- A value with a known binary exponent rounds to the multiple of the unit in
the last place that lies within half a unit of it. -/
theorem binary64_eq_of_near (x : ℚ) (e n : ℤ) (hx : 0 < x) (hlo : (2 : ℚ) ^ e ≤ x)
    (hhi : x < (2 : ℚ) ^ (e + 1)) (hn : |x / (2 : ℚ) ^ (e - 52) - n| < 1 / 2) :
    binary64 x = n * (2 : ℚ) ^ (e - 52) := by
  unfold binary64
  rw [if_neg (ne_of_gt hx), abs_of_pos hx, log_two_eq x e hx hlo hhi,
    roundNearestEven_of_near _ n hn]

/-- A positive integer below `2^53` is a binary64 number. -/
theorem binary64_natCast (n : ℕ) (h0 : 0 < n) (h : n < 2 ^ 53) : binary64 (n : ℚ) = n := by
  have hx : (0 : ℚ) < n := by exact_mod_cast h0
  obtain ⟨hlo, hhi⟩ := log_two_spec (n : ℚ) hx
  have he0 : 0 ≤ Int.log 2 (n : ℚ) := by
    rw [← Int.zpow_le_iff_le_log (by norm_num) hx]
    simp only [zpow_zero]
    exact_mod_cast h0
  have he1 : Int.log 2 (n : ℚ) < 53 := by
    rw [← Int.lt_zpow_iff_log_lt (by norm_num) hx]
    exact_mod_cast h
  obtain ⟨k, hk⟩ : ∃ k : ℕ, Int.log 2 (n : ℚ) - 52 = -(k : ℤ) :=
    ⟨(52 - Int.log 2 (n : ℚ)).toNat, by omega⟩
  have hs : (2 : ℚ) ^ (Int.log 2 (n : ℚ) - 52) = ((2 : ℚ) ^ k)⁻¹ := by
    rw [hk, zpow_neg, zpow_natCast]
  have hpow : (0 : ℚ) < (2 : ℚ) ^ k := pow_pos (by norm_num) k
  unfold binary64
  rw [if_neg (ne_of_gt hx), abs_of_pos hx, hs]
  have hq : (n : ℚ) / ((2 : ℚ) ^ k)⁻¹ = (((n : ℤ) * 2 ^ k : ℤ) : ℚ) := by
    push_cast
    field_simp
  rw [hq, roundNearestEven_intCast]
  push_cast
  field_simp

theorem binary64_pos (x : ℚ) (hx : 0 < x) : 0 < binary64 x := by
  have h := binary64_rel x
  rw [abs_of_pos hx, abs_le] at h
  have : x / 2 ^ 53 < x := by
    rw [div_lt_iff₀ (by norm_num)]
    nlinarith
  linarith

/-- Bounds of one rounding of a positive value. -/
theorem binary64_bounds (x : ℚ) (hx : 0 < x) :
    x * (1 - 1 / 2 ^ 53) ≤ binary64 x ∧ binary64 x ≤ x * (1 + 1 / 2 ^ 53) := by
  have h := binary64_rel x
  rw [abs_of_pos hx, abs_le] at h
  constructor <;> linarith

theorem binary64_twenty : binary64 20 = 20 := by
  have h := binary64_natCast 20 (by norm_num) (by norm_num)
  exact_mod_cast h

theorem binary64_two_hundred : binary64 200 = 200 := by
  have h := binary64_natCast 200 (by norm_num) (by norm_num)
  exact_mod_cast h

theorem binary64_two_thirty : binary64 230 = 230 := by
  have h := binary64_natCast 230 (by norm_num) (by norm_num)
  exact_mod_cast h

theorem binary64_ratio_49 : binary64 (230 / 49) = 2642418148712281 / 562949953421312 := by
  rw [binary64_eq_of_near (230 / 49) 2 5284836297424562 (by norm_num) (by norm_num)
    (by norm_num) (by rw [abs_lt]; norm_num)]
  norm_num

theorem binary64_drawH_49 :
    binary64 (49 * (2642418148712281 / 562949953421312)) = 230 + 1 / 2 ^ 45 := by
  rw [binary64_eq_of_near (49 * (2642418148712281 / 562949953421312)) 7 8092405580431361
    (by norm_num) (by norm_num) (by norm_num) (by rw [abs_lt]; norm_num)]
  norm_num

/-- C21, as stated, fails: for a loaded image of 10 x 49 pixels in a tile of
220 x 320, the image area is 200 x 230 and the program computes
`ratio = 230 / 49` rounded to binary64, and the drawn height `49 * ratio`
rounds to `230 + 2^-45`, which is larger than the height 230 of the image
area. -/
theorem artwork_height_exceeds_image_area :
    (artworkPlacement 10 49 16 16 220 320).drawH = 230 + 1 / 2 ^ 45 ∧
    (320 : ℚ) - 90 < (artworkPlacement 10 49 16 16 220 320).drawH := by
  have h20 : binary64 (200 / 10) = 20 := by
    have : (200 : ℚ) / 10 = 20 := by norm_num
    rw [this, binary64_twenty]
  have hdraw : (artworkPlacement 10 49 16 16 220 320).drawH = 230 + 1 / 2 ^ 45 := by
    simp only [artworkPlacement]
    have e1 : (10 : ℚ) * 2 = 20 := by norm_num
    have e2 : (220 : ℚ) - 20 = 200 := by norm_num
    have e3 : (320 : ℚ) - 90 = 230 := by norm_num
    rw [e1, binary64_twenty, e2, binary64_two_hundred, e3, binary64_two_thirty, h20,
      binary64_ratio_49]
    have hmin : min (20 : ℚ) (2642418148712281 / 562949953421312)
        = 2642418148712281 / 562949953421312 := by
      apply min_eq_right
      norm_num
    rw [hmin, binary64_drawH_49]
  refine ⟨hdraw, ?_⟩
  rw [hdraw]
  norm_num

theorem binary64_natCast_sub (w k : ℕ) (hk : k < w) (hb : w < 2 ^ 53) :
    binary64 ((w : ℚ) - k) = (w : ℚ) - k := by
  have h := binary64_natCast (w - k) (by omega) (by omega)
  rw [Nat.cast_sub (le_of_lt hk)] at h
  exact h

/-- The ratio of `drawCardTile` for an image `iw x ih` and an image area
`aw x ah`: it is positive, and the unrounded products `iw * ratio` and
`ih * ratio` are within one rounding of the area. -/
theorem ratio_bounds (iw ih aw ah : ℚ) (hiw : 0 < iw) (hih : 0 < ih) (haw : 0 < aw)
    (hah : 0 < ah) :
    0 < min (binary64 (aw / iw)) (binary64 (ah / ih)) ∧
    iw * min (binary64 (aw / iw)) (binary64 (ah / ih)) ≤ aw * (1 + 1 / 2 ^ 53) ∧
    ih * min (binary64 (aw / iw)) (binary64 (ah / ih)) ≤ ah * (1 + 1 / 2 ^ 53) ∧
    (aw * (1 - 1 / 2 ^ 53) ≤ iw * min (binary64 (aw / iw)) (binary64 (ah / ih)) ∨
     ah * (1 - 1 / 2 ^ 53) ≤ ih * min (binary64 (aw / iw)) (binary64 (ah / ih))) := by
  have h1 := binary64_bounds (aw / iw) (div_pos haw hiw)
  have h2 := binary64_bounds (ah / ih) (div_pos hah hih)
  have p1 := binary64_pos (aw / iw) (div_pos haw hiw)
  have p2 := binary64_pos (ah / ih) (div_pos hah hih)
  have e1 : iw * (aw / iw) = aw := by field_simp
  have e2 : ih * (ah / ih) = ah := by field_simp
  have u1 : iw * binary64 (aw / iw) ≤ aw * (1 + 1 / 2 ^ 53) := by
    have := mul_le_mul_of_nonneg_left h1.2 (le_of_lt hiw)
    rw [← mul_assoc, e1] at this
    exact this
  have u2 : ih * binary64 (ah / ih) ≤ ah * (1 + 1 / 2 ^ 53) := by
    have := mul_le_mul_of_nonneg_left h2.2 (le_of_lt hih)
    rw [← mul_assoc, e2] at this
    exact this
  have l1 : aw * (1 - 1 / 2 ^ 53) ≤ iw * binary64 (aw / iw) := by
    have := mul_le_mul_of_nonneg_left h1.1 (le_of_lt hiw)
    rw [← mul_assoc, e1] at this
    exact this
  have l2 : ah * (1 - 1 / 2 ^ 53) ≤ ih * binary64 (ah / ih) := by
    have := mul_le_mul_of_nonneg_left h2.1 (le_of_lt hih)
    rw [← mul_assoc, e2] at this
    exact this
  refine ⟨lt_min p1 p2, ?_, ?_, ?_⟩
  · exact le_trans (mul_le_mul_of_nonneg_left (min_le_left _ _) (le_of_lt hiw)) u1
  · exact le_trans (mul_le_mul_of_nonneg_left (min_le_right _ _) (le_of_lt hih)) u2
  · rcases min_choice (binary64 (aw / iw)) (binary64 (ah / ih)) with hm | hm
    · left
      rw [hm]
      exact l1
    · right
      rw [hm]
      exact l2

/-- The value of `artworkPlacement` at integer arguments: the subtractions of
the image area and the sum `y + padding` are exact. -/
theorem artworkPlacement_nat (iw ih x y w h : ℕ) (hw : 20 < w) (hh : 90 < h)
    (hwb : w < 2 ^ 53) (hhb : h < 2 ^ 53) (hyb : y + 10 < 2 ^ 53) :
    (artworkPlacement iw ih x y w h).drawW
      = binary64 (iw * min (binary64 (((w : ℚ) - 20) / iw)) (binary64 (((h : ℚ) - 90) / ih))) ∧
    (artworkPlacement iw ih x y w h).drawH
      = binary64 (ih * min (binary64 (((w : ℚ) - 20) / iw)) (binary64 (((h : ℚ) - 90) / ih))) ∧
    (artworkPlacement iw ih x y w h).dx
      = binary64 (x + binary64 (binary64 ((w : ℚ) - (artworkPlacement iw ih x y w h).drawW) / 2)) ∧
    (artworkPlacement iw ih x y w h).dy = (y : ℚ) + 10 := by
  have e1 : (10 : ℚ) * 2 = 20 := by norm_num
  have e2 : binary64 ((w : ℚ) - 20) = (w : ℚ) - 20 := by
    have := binary64_natCast_sub w 20 hw hwb
    exact_mod_cast this
  have e3 : binary64 ((h : ℚ) - 90) = (h : ℚ) - 90 := by
    have := binary64_natCast_sub h 90 hh hhb
    exact_mod_cast this
  have e4 : binary64 ((y : ℚ) + 10) = (y : ℚ) + 10 := by
    have := binary64_natCast (y + 10) (by omega) hyb
    exact_mod_cast this
  simp only [artworkPlacement, e1, binary64_twenty, e2, e3, e4]
  exact ⟨trivial, trivial, trivial, trivial⟩

/-- C21 (amended): for a loaded image of positive integer width `iw` and height
`ih` and a tile `(x, y, w, h)` of integers with `w > 20` and `h > 90`, all
below `2^53` (so that they are binary64 numbers and no result leaves the
normal range), the placement computed in binary64 has a positive drawn size that
exceeds the image area `(w - 20) x (h - 90)` by at most the factor
`(1 + 2^-53)^2` in either dimension and reaches it up to the factor
`(1 - 2^-53)^2` in at least one dimension; it keeps the aspect ratio `iw : ih`
up to a relative error of `1 / (2^53 - 1)`; the left and right margins in the
tile differ by at most `(x + 2 w) / 2^52`; and the top is exactly `y + 10`. -/
theorem artwork_fits_up_to_rounding (iw ih x y w h : ℕ)
    (hiw : 0 < iw) (hih : 0 < ih) (hw : 20 < w) (hh : 90 < h)
    (hib : iw < 2 ^ 53 ∧ ih < 2 ^ 53 ∧ x < 2 ^ 53)
    (hwb : w < 2 ^ 53) (hhb : h < 2 ^ 53) (hyb : y + 10 < 2 ^ 53) :
    0 < (artworkPlacement iw ih x y w h).drawW ∧
    0 < (artworkPlacement iw ih x y w h).drawH ∧
    (artworkPlacement iw ih x y w h).drawW ≤ ((w : ℚ) - 20) * (1 + 1 / 2 ^ 53) ^ 2 ∧
    (artworkPlacement iw ih x y w h).drawH ≤ ((h : ℚ) - 90) * (1 + 1 / 2 ^ 53) ^ 2 ∧
    (((w : ℚ) - 20) * (1 - 1 / 2 ^ 53) ^ 2 ≤ (artworkPlacement iw ih x y w h).drawW ∨
     ((h : ℚ) - 90) * (1 - 1 / 2 ^ 53) ^ 2 ≤ (artworkPlacement iw ih x y w h).drawH) ∧
    (2 ^ 53 - 1) * |(artworkPlacement iw ih x y w h).drawW * ih
        - (artworkPlacement iw ih x y w h).drawH * iw|
      ≤ (artworkPlacement iw ih x y w h).drawW * ih
        + (artworkPlacement iw ih x y w h).drawH * iw ∧
    |((artworkPlacement iw ih x y w h).dx - x)
        - (((x : ℚ) + w) - ((artworkPlacement iw ih x y w h).dx
          + (artworkPlacement iw ih x y w h).drawW))|
      ≤ ((x : ℚ) + 2 * w) / 2 ^ 52 ∧
    (artworkPlacement iw ih x y w h).dy = (y : ℚ) + 10 := by
  obtain ⟨hW, hH, hX, hY⟩ := artworkPlacement_nat iw ih x y w h hw hh hwb hhb hyb
  have _hin := hib
  have hiq : (0 : ℚ) < iw := by exact_mod_cast hiw
  have hhq : (0 : ℚ) < ih := by exact_mod_cast hih
  have haw : (0 : ℚ) < (w : ℚ) - 20 := by
    have : (20 : ℚ) < w := by exact_mod_cast hw
    linarith
  have hah : (0 : ℚ) < (h : ℚ) - 90 := by
    have : (90 : ℚ) < h := by exact_mod_cast hh
    linarith
  have hwq : (w : ℚ) < 2 ^ 53 := by exact_mod_cast hwb
  have hxq : (0 : ℚ) ≤ x := by exact_mod_cast Nat.zero_le x
  obtain ⟨hr0, hrW, hrH, hrL⟩ := ratio_bounds iw ih ((w : ℚ) - 20) ((h : ℚ) - 90) hiq hhq haw hah
  generalize min (binary64 (((w : ℚ) - 20) / iw)) (binary64 (((h : ℚ) - 90) / ih)) = ratio
    at hW hH hr0 hrW hrH hrL
  have hp : 0 < (iw : ℚ) * ratio := mul_pos hiq hr0
  have hq : 0 < (ih : ℚ) * ratio := mul_pos hhq hr0
  have hcross : (iw : ℚ) * ratio * ih = (ih : ℚ) * ratio * iw := by ring
  have bW := binary64_bounds _ hp
  have bH := binary64_bounds _ hq
  rw [← hW] at bW
  rw [← hH] at bH
  have pW := binary64_pos _ hp
  have pH := binary64_pos _ hq
  rw [← hW] at pW
  rw [← hH] at pH
  generalize (artworkPlacement iw ih x y w h).dx = dx at hX ⊢
  generalize (artworkPlacement iw ih x y w h).drawW = dW at hW hX bW pW ⊢
  generalize (artworkPlacement iw ih x y w h).drawH = dH at hH bH pH ⊢
  generalize (iw : ℚ) * ratio = p at hp bW hrW hrL hW hcross
  generalize (ih : ℚ) * ratio = q at hq bH hrH hrL hH hcross
  obtain ⟨bW1, bW2⟩ := bW
  obtain ⟨bH1, bH2⟩ := bH
  have hdW : dW ≤ ((w : ℚ) - 20) * (1 + 1 / 2 ^ 53) ^ 2 := by
    have h1 := mul_le_mul_of_nonneg_right hrW (by norm_num : (0 : ℚ) ≤ 1 + 1 / 2 ^ 53)
    calc dW ≤ p * (1 + 1 / 2 ^ 53) := bW2
      _ ≤ ((w : ℚ) - 20) * (1 + 1 / 2 ^ 53) * (1 + 1 / 2 ^ 53) := h1
      _ = ((w : ℚ) - 20) * (1 + 1 / 2 ^ 53) ^ 2 := by ring
  have hdH : dH ≤ ((h : ℚ) - 90) * (1 + 1 / 2 ^ 53) ^ 2 := by
    have h1 := mul_le_mul_of_nonneg_right hrH (by norm_num : (0 : ℚ) ≤ 1 + 1 / 2 ^ 53)
    calc dH ≤ q * (1 + 1 / 2 ^ 53) := bH2
      _ ≤ ((h : ℚ) - 90) * (1 + 1 / 2 ^ 53) * (1 + 1 / 2 ^ 53) := h1
      _ = ((h : ℚ) - 90) * (1 + 1 / 2 ^ 53) ^ 2 := by ring
  refine ⟨pW, pH, hdW, hdH, ?_, ?_, ?_, hY⟩
  · rcases hrL with hl | hl
    · left
      have h1 := mul_le_mul_of_nonneg_right hl (by norm_num : (0 : ℚ) ≤ 1 - 1 / 2 ^ 53)
      calc ((w : ℚ) - 20) * (1 - 1 / 2 ^ 53) ^ 2
          = ((w : ℚ) - 20) * (1 - 1 / 2 ^ 53) * (1 - 1 / 2 ^ 53) := by ring
        _ ≤ p * (1 - 1 / 2 ^ 53) := h1
        _ ≤ dW := bW1
    · right
      have h1 := mul_le_mul_of_nonneg_right hl (by norm_num : (0 : ℚ) ≤ 1 - 1 / 2 ^ 53)
      calc ((h : ℚ) - 90) * (1 - 1 / 2 ^ 53) ^ 2
          = ((h : ℚ) - 90) * (1 - 1 / 2 ^ 53) * (1 - 1 / 2 ^ 53) := by ring
        _ ≤ q * (1 - 1 / 2 ^ 53) := h1
        _ ≤ dH := bH1
  · have hT : 0 < p * (ih : ℚ) := mul_pos hp hhq
    have x1 : p * (1 - 1 / 2 ^ 53) * ih ≤ dW * ih :=
      mul_le_mul_of_nonneg_right bW1 (le_of_lt hhq)
    have x2 : dW * ih ≤ p * (1 + 1 / 2 ^ 53) * ih :=
      mul_le_mul_of_nonneg_right bW2 (le_of_lt hhq)
    have y1 : q * (1 - 1 / 2 ^ 53) * iw ≤ dH * iw :=
      mul_le_mul_of_nonneg_right bH1 (le_of_lt hiq)
    have y2 : dH * iw ≤ q * (1 + 1 / 2 ^ 53) * iw :=
      mul_le_mul_of_nonneg_right bH2 (le_of_lt hiq)
    have x1' : p * ih * (1 - 1 / 2 ^ 53) ≤ dW * ih := by
      have : p * (1 - 1 / 2 ^ 53) * ih = p * ih * (1 - 1 / 2 ^ 53) := by ring
      rw [← this]
      exact x1
    have x2' : dW * ih ≤ p * ih * (1 + 1 / 2 ^ 53) := by
      have : p * (1 + 1 / 2 ^ 53) * ih = p * ih * (1 + 1 / 2 ^ 53) := by ring
      rw [← this]
      exact x2
    have y1' : p * ih * (1 - 1 / 2 ^ 53) ≤ dH * iw := by
      have : q * (1 - 1 / 2 ^ 53) * iw = p * ih * (1 - 1 / 2 ^ 53) := by
        rw [hcross]
        ring
      rw [← this]
      exact y1
    have y2' : dH * iw ≤ p * ih * (1 + 1 / 2 ^ 53) := by
      have : q * (1 + 1 / 2 ^ 53) * iw = p * ih * (1 + 1 / 2 ^ 53) := by
        rw [hcross]
        ring
      rw [← this]
      exact y2
    generalize dW * (ih : ℚ) = X at x1' x2' ⊢
    generalize dH * (iw : ℚ) = Y at y1' y2' ⊢
    generalize p * (ih : ℚ) = T at hT x1' x2' y1' y2'
    have habs : |X - Y| ≤ 2 * (1 / 2 ^ 53) * T := by
      rw [abs_le]
      constructor <;> linarith
    linarith
  · have hwlt : dW < (w : ℚ) := by
      have : ((w : ℚ) - 20) * (1 + 1 / 2 ^ 53) ^ 2 < w := by
        have hc : ((1 : ℚ) + 1 / 2 ^ 53) ^ 2 ≤ 1 + 3 / 2 ^ 53 := by norm_num
        have := mul_le_mul_of_nonneg_left hc (le_of_lt haw)
        linarith
      linarith
    have hA : 0 < (w : ℚ) - dW := by linarith
    have b1 := binary64_bounds _ hA
    have p1 := binary64_pos _ hA
    generalize binary64 ((w : ℚ) - dW) = a1 at hX b1 p1
    have hA2 : 0 < a1 / 2 := by linarith
    have b2 := binary64_bounds _ hA2
    have p2 := binary64_pos _ hA2
    generalize binary64 (a1 / 2) = a2 at hX b2 p2
    have hA3 : 0 < (x : ℚ) + a2 := by linarith
    have b3 := binary64_bounds _ hA3
    rw [← hX] at b3
    obtain ⟨b11, b12⟩ := b1
    obtain ⟨b21, b22⟩ := b2
    obtain ⟨b31, b32⟩ := b3
    have c1 : ((1 : ℚ) + 1 / 2 ^ 53) ^ 3 ≤ 1 + 4 / 2 ^ 53 := by norm_num
    have c2 : (1 : ℚ) - 4 / 2 ^ 53 ≤ (1 - 1 / 2 ^ 53) ^ 3 := by norm_num
    have up : dx ≤ (x : ℚ) * (1 + 1 / 2 ^ 53) + ((w : ℚ) - dW) / 2 * (1 + 1 / 2 ^ 53) ^ 3 := by
      have s1 : a2 ≤ ((w : ℚ) - dW) / 2 * (1 + 1 / 2 ^ 53) ^ 2 := by
        have := mul_le_mul_of_nonneg_right b12 (by norm_num : (0 : ℚ) ≤ (1 + 1 / 2 ^ 53) / 2)
        calc a2 ≤ a1 / 2 * (1 + 1 / 2 ^ 53) := b22
          _ = a1 * ((1 + 1 / 2 ^ 53) / 2) := by ring
          _ ≤ ((w : ℚ) - dW) * (1 + 1 / 2 ^ 53) * ((1 + 1 / 2 ^ 53) / 2) := this
          _ = ((w : ℚ) - dW) / 2 * (1 + 1 / 2 ^ 53) ^ 2 := by ring
      have := mul_le_mul_of_nonneg_right s1 (by norm_num : (0 : ℚ) ≤ 1 + 1 / 2 ^ 53)
      calc dx ≤ ((x : ℚ) + a2) * (1 + 1 / 2 ^ 53) := b32
        _ = (x : ℚ) * (1 + 1 / 2 ^ 53) + a2 * (1 + 1 / 2 ^ 53) := by ring
        _ ≤ (x : ℚ) * (1 + 1 / 2 ^ 53)
            + ((w : ℚ) - dW) / 2 * (1 + 1 / 2 ^ 53) ^ 2 * (1 + 1 / 2 ^ 53) := by linarith
        _ = (x : ℚ) * (1 + 1 / 2 ^ 53) + ((w : ℚ) - dW) / 2 * (1 + 1 / 2 ^ 53) ^ 3 := by ring
    have lo : (x : ℚ) * (1 - 1 / 2 ^ 53) + ((w : ℚ) - dW) / 2 * (1 - 1 / 2 ^ 53) ^ 3 ≤ dx := by
      have s1 : ((w : ℚ) - dW) / 2 * (1 - 1 / 2 ^ 53) ^ 2 ≤ a2 := by
        have := mul_le_mul_of_nonneg_right b11 (by norm_num : (0 : ℚ) ≤ (1 - 1 / 2 ^ 53) / 2)
        calc ((w : ℚ) - dW) / 2 * (1 - 1 / 2 ^ 53) ^ 2
            = ((w : ℚ) - dW) * (1 - 1 / 2 ^ 53) * ((1 - 1 / 2 ^ 53) / 2) := by ring
          _ ≤ a1 * ((1 - 1 / 2 ^ 53) / 2) := this
          _ = a1 / 2 * (1 - 1 / 2 ^ 53) := by ring
          _ ≤ a2 := b21
      have := mul_le_mul_of_nonneg_right s1 (by norm_num : (0 : ℚ) ≤ 1 - 1 / 2 ^ 53)
      calc (x : ℚ) * (1 - 1 / 2 ^ 53) + ((w : ℚ) - dW) / 2 * (1 - 1 / 2 ^ 53) ^ 3
          = (x : ℚ) * (1 - 1 / 2 ^ 53)
            + ((w : ℚ) - dW) / 2 * (1 - 1 / 2 ^ 53) ^ 2 * (1 - 1 / 2 ^ 53) := by ring
        _ ≤ (x : ℚ) * (1 - 1 / 2 ^ 53) + a2 * (1 - 1 / 2 ^ 53) := by linarith
        _ = ((x : ℚ) + a2) * (1 - 1 / 2 ^ 53) := by ring
        _ ≤ dx := b31
    have u3 := mul_le_mul_of_nonneg_left c1 (by linarith : (0 : ℚ) ≤ ((w : ℚ) - dW) / 2)
    have l3 := mul_le_mul_of_nonneg_left c2 (by linarith : (0 : ℚ) ≤ ((w : ℚ) - dW) / 2)
    rw [abs_le]
    constructor <;> linarith

/-- C21 (amended) at the image of 10 x 49 pixels in the first tile. -/
theorem artwork_fits_up_to_rounding_witness :
    (artworkPlacement (10 : ℕ) (49 : ℕ) (16 : ℕ) (16 : ℕ) (220 : ℕ) (320 : ℕ)).drawH
      ≤ (((320 : ℕ) : ℚ) - 90) * (1 + 1 / 2 ^ 53) ^ 2 ∧
    (artworkPlacement (10 : ℕ) (49 : ℕ) (16 : ℕ) (16 : ℕ) (220 : ℕ) (320 : ℕ)).dy
      = ((16 : ℕ) : ℚ) + 10 :=
  have h := artwork_fits_up_to_rounding 10 49 16 16 220 320 (by decide) (by decide)
    (by decide) (by decide) (by decide) (by decide) (by decide) (by decide)
  ⟨h.2.2.2.1, h.2.2.2.2.2.2.2⟩

/-! ## The unrounded placement formula -/

/-- The unrounded formula of the artwork placement: the drawn size is within the
image area `(w - 20) x (h - 90)`, meets it in one dimension, keeps the ratio
`iw : ih`, has equal left and right margins in the tile and starts at `y + 10`.
This is a statement about exact arithmetic, not about the rounded binary64
values that the program computes. -/
theorem artworkPlacement_exact (iw ih x y w h : ℚ) (hw : 0 < iw) (hh : 0 < ih) :
    (artworkPlacementExact iw ih x y w h).drawW ≤ w - 20 ∧
    (artworkPlacementExact iw ih x y w h).drawH ≤ h - 90 ∧
    ((artworkPlacementExact iw ih x y w h).drawW = w - 20 ∨
      (artworkPlacementExact iw ih x y w h).drawH = h - 90) ∧
    (artworkPlacementExact iw ih x y w h).drawW * ih
      = (artworkPlacementExact iw ih x y w h).drawH * iw ∧
    (artworkPlacementExact iw ih x y w h).dx - x
      = (x + w) - ((artworkPlacementExact iw ih x y w h).dx
          + (artworkPlacementExact iw ih x y w h).drawW) ∧
    (artworkPlacementExact iw ih x y w h).dy = y + 10 := by
  have hw' : iw ≠ 0 := ne_of_gt hw
  have hh' : ih ≠ 0 := ne_of_gt hh
  have e1 : iw * ((w - 10 * 2) / iw) = w - 20 := by field_simp; ring
  have e2 : ih * ((h - 90) / ih) = h - 90 := by field_simp
  simp only [artworkPlacementExact]
  refine ⟨?_, ?_, ?_, by ring, by ring, trivial⟩
  · calc iw * min ((w - 10 * 2) / iw) ((h - 90) / ih)
        ≤ iw * ((w - 10 * 2) / iw) :=
          mul_le_mul_of_nonneg_left (min_le_left _ _) (le_of_lt hw)
      _ = w - 20 := e1
  · calc ih * min ((w - 10 * 2) / iw) ((h - 90) / ih)
        ≤ ih * ((h - 90) / ih) :=
          mul_le_mul_of_nonneg_left (min_le_right _ _) (le_of_lt hh)
      _ = h - 90 := e2
  · rcases min_choice ((w - 10 * 2) / iw) ((h - 90) / ih) with hm | hm
    · left
      rw [hm, e1]
    · right
      rw [hm, e2]

end Nebula
